import Mathlib

/-!
GL node support of the node builder (`src/gl.cpp`)

A shallow embedding of `FNodeBuilder::AddIntersection`, `FixSplitSharers`,
`AddMinisegs`, `AddMiniseg`, `CheckLoopStart` and `CheckLoopEnd`, followed by
the properties proved about them.

Conventions of the embedding

* The arenas `Vertices` and `Segs` (`TArray`) are lists; an index is a `Nat`.
  Vertex indices are `int` in the source and are only ever used to index
  `Vertices`, so a negative one is out of range just like one past the end.
* `UINT_MAX` is kept as the sentinel for "no seg", as in the source.
* Reading or writing an arena out of range is undefined behaviour in the
  source; here it is the fault `Fault.outOfRange`.  A failed `assert` is
  `Fault.assertion`.  The two `while` loops of the loop checks follow
  `nextforvert` / `nextforvert2` links and do not terminate on a cyclic list;
  they get as many iterations as there are segs (enough for every acyclic
  list, which visits each seg at most once) and report `Fault.diverges` when
  that budget is used up.
* `angle_t` is unsigned 32 bit: angles are `Nat` reduced modulo `2 ^ 32`.
  `fixed_t` differences are reduced to the signed 32 bit range.
* `double` distances: see `toDouble`.
-/

namespace ZNBX

/-! ## Constants and machine arithmetic -/

/-- The value of `UINT_MAX`, the "no seg" sentinel. -/
def UINT_MAX : Nat := 4294967295

/-- Modelled from the spec: `NO_INDEX` is declared in the absent header
`common.hpp`; the spec only says that a miniseg has "no associated
linedef/side", the sentinel being "never a valid arena position".  It is the
all-ones 32 bit value here. -/
def NO_INDEX : Nat := 4294967295

/-- The largest `angle_t`, the starting value of `bestang` (declared in the
absent header as `ANGLE_MAX`; `angle_t` is unsigned 32 bit). -/
def ANGLE_MAX : Nat := 4294967295

/-- Half a turn, `ANGLE_180` (declared in the absent header). -/
def ANGLE_180 : Nat := 2147483648

/-- Signed 32 bit wrap-around, the arithmetic of `fixed_t` differences. -/
def wrapI32 (n : Int) : Int := (n + 2147483648) % 4294967296 - 2147483648

/-- Number of binary digits of `n`, by structural recursion on a budget. -/
def bitLength : Nat → Nat → Nat
  | 0, _ => 0
  | fuel + 1, n => if n = 0 then 0 else bitLength fuel (n / 2) + 1

/-- Rounding of an exact integer to the nearest `double` (53 significant
bits, ties to even).  Every `double` that `AddIntersection` computes is the
rounding of an integer below `2 ^ 67` in magnitude, hence itself an integer,
so distances are modelled as `Int`.  Magnitudes of `2 ^ 1024` and more (which
would overflow a `double`) are outside the model and cannot arise from 32 bit
inputs. -/
def toDouble (n : Int) : Int :=
  let a := n.natAbs
  if a < 9007199254740992 then n
  else
    let e := bitLength 2048 a - 53
    let q := a / 2 ^ e
    let r := a % 2 ^ e
    let half := 2 ^ (e - 1)
    let q1 := if half < r ∨ (r = half ∧ q % 2 = 1) then q + 1 else q
    if n < 0 then -((q1 * 2 ^ e : Nat) : Int) else ((q1 * 2 ^ e : Nat) : Int)

/-! ## Data model -/

/-- `FPrivVert`: a vertex with the heads of its two seg lists. -/
structure FPrivVert where
  x : Int
  y : Int
  /-- head of the list of segs starting here (linked by `nextforvert`) -/
  segs : Nat
  /-- head of the list of segs ending here (linked by `nextforvert2`) -/
  segs2 : Nat
deriving DecidableEq

/-- `FPrivSeg`: a seg.  `hashnext` is a pointer in the source (`none` is
`NULL`). -/
structure FPrivSeg where
  v1 : Nat
  v2 : Nat
  sidedef : Nat
  linedef : Nat
  frontsector : Int
  backsector : Int
  next : Nat
  nextforvert : Nat
  nextforvert2 : Nat
  loopnum : Int
  partner : Nat
  storedseg : Nat
  angle : Nat
  offset : Int
  planenum : Int
  planefront : Bool
  hashnext : Option Nat
deriving DecidableEq

/-- `FEventInfo`. -/
structure FEventInfo where
  Vertex : Nat
  FrontSeg : Nat
deriving DecidableEq

/-- `FEvent`, without the tree links. -/
structure FEvent where
  Distance : Int
  Info : FEventInfo
deriving DecidableEq

/-- `FSplitSharer`. -/
structure FSplitSharer where
  Distance : Int
  Seg : Nat
  Forward : Bool
deriving DecidableEq

/-- `znbx_NodeFxp`, the fields read here: origin and direction of the
splitter, all `fixed_t`. -/
structure NodeFxp where
  x : Int
  y : Int
  dx : Int
  dy : Int
deriving DecidableEq

/-- The state of the builder that `gl.cpp` reads and writes.  `Events`
stands for the `FEventTree`: see `FindEvent`. -/
structure FNodeBuilder where
  Vertices : List FPrivVert
  Segs : List FPrivSeg
  Events : List FEvent
  SplitSharers : List FSplitSharer
deriving DecidableEq

/-- Geometry primitives declared in the absent header `nodebuild.hpp`:
`PointToAngle (dx, dy)`, `PointOnSide (x, y, x1, y1, dx, dy)` and the
tolerance `ANGLE_EPSILON`.  They are parameters of the embedding. -/
structure Geometry where
  PointToAngle : Int → Int → Nat
  PointOnSide : Int → Int → Int → Int → Int → Int → Int
  ANGLE_EPSILON : Nat

/-- What goes wrong in the source without a return value. -/
inductive Fault where
  | outOfRange
  | assertion
  | diverges
deriving DecidableEq

/-- `arr[i]` for reading. -/
def rd {α : Type} (arr : List α) (i : Nat) : Except Fault α :=
  match arr[i]? with
  | some a => Except.ok a
  | none => Except.error Fault.outOfRange

/-- `arr[i] = f (arr[i])`, a write to one element. -/
def wr {α : Type} (arr : List α) (i : Nat) (f : α → α) : Except Fault (List α) :=
  match arr[i]? with
  | some a => Except.ok (arr.set i (f a))
  | none => Except.error Fault.outOfRange

/-- `assert (c)`. -/
def assertThat (c : Prop) [Decidable c] : Except Fault Unit :=
  if c then Except.ok () else Except.error Fault.assertion

/-! ## `AddMiniseg` -/

/-- `FNodeBuilder::AddMiniseg` (gl.cpp 193-237).  Returns the new index and
the new state. -/
def AddMiniseg (st : FNodeBuilder) (v1 v2 partner seg1 splitseg : Nat) :
    Except Fault (Nat × FNodeBuilder) := do
  let seg ← rd st.Segs seg1
  let planenum ← (if splitseg ≠ UINT_MAX then do
      let s ← rd st.Segs splitseg
      pure s.planenum
    else pure (-1 : Int))
  let vert1 ← rd st.Vertices v1
  let vert2 ← rd st.Vertices v2
  let newseg : FPrivSeg :=
    { v1 := v1, v2 := v2, sidedef := NO_INDEX, linedef := NO_INDEX,
      frontsector := -1, backsector := -1, next := seg.next,
      nextforvert := vert1.segs, nextforvert2 := vert2.segs2, loopnum := 0,
      partner := partner, storedseg := UINT_MAX, angle := 0, offset := 0,
      planenum := planenum, planefront := true, hashnext := none }
  let _ ← (if partner ≠ UINT_MAX then do
      let p ← rd st.Segs partner
      let _ ← assertThat (p.v1 = v2)
      assertThat (p.v2 = v1)
    else pure ())
  let nseg := st.Segs.length
  let segs1 := st.Segs ++ [newseg]
  let segs2 ← (if partner ≠ UINT_MAX then wr segs1 partner (fun p => { p with partner := nseg })
    else pure segs1)
  let verts1 ← wr st.Vertices v1 (fun v => { v with segs := nseg })
  let verts2 ← wr verts1 v2 (fun v => { v with segs2 := nseg })
  pure (nseg, { st with Vertices := verts2, Segs := segs2 })

/-! ## The loop checks -/

/-- Subtraction of two `angle_t`. -/
def subU32 (a b : Nat) : Nat := (a + (4294967296 - b % 4294967296)) % 4294967296

/-- Addition of two `angle_t`. -/
def addU32 (a b : Nat) : Nat := (a + b) % 4294967296

/-- `PointToAngle (x, y)` as an `angle_t`. -/
def pointToAngle (G : Geometry) (x y : Int) : Nat := G.PointToAngle x y % 4294967296

/-- The angular difference `splitAngle - segAngle` that `CheckLoopStart`
computes for a seg: `far` is the vertex at the seg's other end, `v` the query
vertex. -/
def startDiff (G : Geometry) (splitAngle : Nat) (v far : FPrivVert) : Nat :=
  subU32 splitAngle (pointToAngle G (wrapI32 (far.x - v.x)) (wrapI32 (far.y - v.y)))

/-- The angular difference `segAngle - splitAngle` that `CheckLoopEnd`
computes for a seg. -/
def endDiff (G : Geometry) (splitAngle : Nat) (v far : FPrivVert) : Nat :=
  subU32 (pointToAngle G (wrapI32 (far.x - v.x)) (wrapI32 (far.y - v.y))) splitAngle

/-- First loop of `CheckLoopStart` (gl.cpp 251-266): walks the list of segs
ending at `v` from `segnum`, carrying `bestang` and `bestseg`. -/
def startScan (G : Geometry) (st : FNodeBuilder) (v : FPrivVert) (dx dy : Int)
    (splitAngle : Nat) : Nat → Nat → Nat → Nat → Except Fault (Nat × Nat)
  | 0, segnum, bestang, bestseg =>
    if segnum = UINT_MAX then pure (bestang, bestseg)
    else Except.error Fault.diverges
  | fuel + 1, segnum, bestang, bestseg =>
    if segnum = UINT_MAX then pure (bestang, bestseg)
    else do
      let seg ← rd st.Segs segnum
      let far ← rd st.Vertices seg.v1
      let diff := startDiff G splitAngle v far
      if diff < G.ANGLE_EPSILON ∧ G.PointOnSide far.x far.y v.x v.y dx dy = 0 then
        startScan G st v dx dy splitAngle fuel seg.nextforvert2 bestang bestseg
      else if diff ≤ bestang then
        startScan G st v dx dy splitAngle fuel seg.nextforvert2 diff segnum
      else
        startScan G st v dx dy splitAngle fuel seg.nextforvert2 bestang bestseg

/-- Second loop of `CheckLoopStart` (gl.cpp 273-285): walks the list of segs
starting at `v`; the value is what `CheckLoopStart` returns. -/
def startVerify (G : Geometry) (st : FNodeBuilder) (v : FPrivVert) (vertex2 : Nat)
    (splitAngle bestang bestseg : Nat) : Nat → Nat → Except Fault Nat
  | 0, segnum =>
    if segnum = UINT_MAX then pure bestseg else Except.error Fault.diverges
  | fuel + 1, segnum =>
    if segnum = UINT_MAX then pure bestseg
    else do
      let seg ← rd st.Segs segnum
      if seg.v2 = vertex2 then pure UINT_MAX
      else do
        let far ← rd st.Vertices seg.v2
        let diff := startDiff G splitAngle v far
        if diff < bestang ∧ seg.partner ≠ bestseg then pure UINT_MAX
        else startVerify G st v vertex2 splitAngle bestang bestseg fuel seg.nextforvert

/-- `FNodeBuilder::CheckLoopStart` (gl.cpp 239-286). -/
def CheckLoopStart (G : Geometry) (st : FNodeBuilder) (dx dy : Int) (vertex vertex2 : Nat) :
    Except Fault Nat := do
  let v ← rd st.Vertices vertex
  let splitAngle := pointToAngle G dx dy
  let best ← startScan G st v dx dy splitAngle st.Segs.length v.segs2 ANGLE_MAX UINT_MAX
  if best.2 = UINT_MAX then pure UINT_MAX
  else startVerify G st v vertex2 splitAngle best.1 best.2 st.Segs.length v.segs

/-- First loop of `CheckLoopEnd` (gl.cpp 300-315): walks the list of segs
starting at `v`.  The angle is taken to the seg's `v2`, the on-splitter test
is made on the seg's `v1`, as in the source; `Vertices[seg->v1]` is read only
when `diff < ANGLE_EPSILON` (`&&`). -/
def endScan (G : Geometry) (st : FNodeBuilder) (v : FPrivVert) (dx dy : Int)
    (splitAngle : Nat) : Nat → Nat → Nat → Nat → Except Fault (Nat × Nat)
  | 0, segnum, bestang, bestseg =>
    if segnum = UINT_MAX then pure (bestang, bestseg)
    else Except.error Fault.diverges
  | fuel + 1, segnum, bestang, bestseg =>
    if segnum = UINT_MAX then pure (bestang, bestseg)
    else do
      let seg ← rd st.Segs segnum
      let far ← rd st.Vertices seg.v2
      let diff := endDiff G splitAngle v far
      let onSplitter ← (if diff < G.ANGLE_EPSILON then do
          let near ← rd st.Vertices seg.v1
          pure (decide (G.PointOnSide near.x near.y v.x v.y dx dy = 0))
        else pure false)
      if onSplitter then
        endScan G st v dx dy splitAngle fuel seg.nextforvert bestang bestseg
      else if diff ≤ bestang then
        endScan G st v dx dy splitAngle fuel seg.nextforvert diff segnum
      else
        endScan G st v dx dy splitAngle fuel seg.nextforvert bestang bestseg

/-- Second loop of `CheckLoopEnd` (gl.cpp 322-331): walks the list of segs
ending at `v`. -/
def endVerify (G : Geometry) (st : FNodeBuilder) (v : FPrivVert)
    (splitAngle bestang bestseg : Nat) : Nat → Nat → Except Fault Nat
  | 0, segnum =>
    if segnum = UINT_MAX then pure bestseg else Except.error Fault.diverges
  | fuel + 1, segnum =>
    if segnum = UINT_MAX then pure bestseg
    else do
      let seg ← rd st.Segs segnum
      let far ← rd st.Vertices seg.v1
      let diff := endDiff G splitAngle v far
      if diff < bestang ∧ seg.partner ≠ bestseg then pure UINT_MAX
      else endVerify G st v splitAngle bestang bestseg fuel seg.nextforvert2

/-- `FNodeBuilder::CheckLoopEnd` (gl.cpp 288-332). -/
def CheckLoopEnd (G : Geometry) (st : FNodeBuilder) (dx dy : Int) (vertex : Nat) :
    Except Fault Nat := do
  let v ← rd st.Vertices vertex
  let splitAngle := addU32 (pointToAngle G dx dy) ANGLE_180
  let best ← endScan G st v dx dy splitAngle st.Segs.length v.segs ANGLE_MAX UINT_MAX
  if best.2 = UINT_MAX then pure UINT_MAX
  else endVerify G st v splitAngle best.1 best.2 st.Segs.length v.segs2

/-! ## The event set

`FEventTree` is declared in the absent header and implemented outside
`gl.cpp`.  A pointer to an event is its position in the ascending sequence,
`NULL` is `none`. -/

/-- Modelled from the spec: `FEventTree::FindEvent`, the absent "exact-match
lookup" `findEvent(distance) -> Event?` of the event ordering structure; the
event set is the sequence of its events in ascending distance. -/
def FindEvent : List FEvent → Int → Option Nat
  | [], _ => none
  | e :: es, dist =>
    if e.Distance = dist then some 0
    else
      match FindEvent es dist with
      | some i => some (i + 1)
      | none => none

/-- Modelled from the spec: `FEventTree::Insert`, the absent `insert(event)`
of the event ordering structure, which keeps the events "in
ascending-distance order". -/
def Insert (ev : FEvent) : List FEvent → List FEvent
  | [] => [ev]
  | e :: es => if ev.Distance < e.Distance then ev :: e :: es else e :: Insert ev es

/-- Modelled from the spec: `FEventTree::GetMinimum`, the absent `minimum()`. -/
def GetMinimum (events : List FEvent) : Option Nat :=
  if events = [] then none else some 0

/-- Modelled from the spec: `FEventTree::GetSuccessor`, the absent
`successor(event)` "in ascending-distance order". -/
def GetSuccessor (events : List FEvent) (i : Nat) : Option Nat :=
  if i + 1 < events.length then some (i + 1) else none

/-- Modelled from the spec: `FEventTree::GetPredecessor`, the absent
`predecessor(event)`. -/
def GetPredecessor (_events : List FEvent) (i : Nat) : Option Nat :=
  if 0 < i then some (i - 1) else none

/-- The events met from position `i` on, `i` itself left out, by repeated
`GetSuccessor` (`Forward`) or repeated `GetPredecessor` (otherwise). -/
def eventsFrom (events : List FEvent) (i : Nat) (Forward : Bool) : List FEvent :=
  if Forward then events.drop (i + 1) else (events.take i).reverse

/-! ## `AddIntersection` -/

/-- The `double` expression
`(double(v->x) - node.x) * (node.dx) + (double(v->y) - node.y) * (node.dy)`
(gl.cpp 46).  The two differences of 32 bit integers are exact in a `double`;
each product and the sum are rounded. -/
def splitterDistance (node : NodeFxp) (v : FPrivVert) : Int :=
  toDouble (toDouble ((v.x - node.x) * node.dx) + toDouble ((v.y - node.y) * node.dy))

/-- `FNodeBuilder::AddIntersection` (gl.cpp 40-59).  `defaultInfo` is
`{ -1, UINT_MAX }`, its `Vertex` is overwritten at once. -/
def AddIntersection (st : FNodeBuilder) (node : NodeFxp) (vertex : Nat) :
    Except Fault (Int × FNodeBuilder) := do
  let v ← rd st.Vertices vertex
  let dist := splitterDistance node v
  match FindEvent st.Events dist with
  | some _ => pure (dist, st)
  | none =>
    let event : FEvent := { Distance := dist, Info := { Vertex := vertex, FrontSeg := UINT_MAX } }
    pure (dist, { st with Events := Insert event st.Events })

/-! ## `FixSplitSharers` -/

/-- Modelled from the spec: `FNodeBuilder::SplitSeg (segnum, splitvert, 1)`,
absent from `gl.cpp`: "split the edge at the interior vertex, producing a new
tail edge" (the seg becomes `v1 -> splitvert`, a new copy of it becomes
`splitvert -> old v2`), the new seg's index being returned.  The spec says
nothing about the vertex lists or other fields, which are left as they are.
Every call in `gl.cpp` passes `1` as third argument. -/
def SplitSeg (segs : List FPrivSeg) (segnum splitvert : Nat) :
    Except Fault (Nat × List FPrivSeg) := do
  let s ← rd segs segnum
  pure (segs.length, segs.set segnum { s with v2 := splitvert } ++ [{ s with v1 := splitvert }])

/-- One pass through the body of the `while` loop of `FixSplitSharers`
(gl.cpp 97-113) for the seg `seg` and the interior event's vertex, on the seg
arena; returns `newseg` and the new arena. -/
def splitSharerAt (segs : List FPrivSeg) (seg vertex : Nat) :
    Except Fault (Nat × List FPrivSeg) := do
  let (newseg, segs1) ← SplitSeg segs seg vertex
  let s ← rd segs1 seg
  let segs2 ← wr segs1 newseg (fun n => { n with next := s.next })
  let segs3 ← wr segs2 seg (fun s => { s with next := newseg })
  let s3 ← rd segs3 seg
  let partner := s3.partner
  if partner ≠ UINT_MAX then do
    let (endpartner, segs4) ← SplitSeg segs3 partner vertex
    let p ← rd segs4 partner
    let segs5 ← wr segs4 endpartner (fun n => { n with next := p.next })
    let segs6 ← wr segs5 partner (fun p => { p with next := endpartner })
    let segs7 ← wr segs6 seg (fun s => { s with partner := endpartner })
    let segs8 ← wr segs7 partner (fun p => { p with partner := newseg })
    pure (newseg, segs8)
  else pure (newseg, segs3)

/-- The `while` loop of `FixSplitSharers` (gl.cpp 96-121).  The argument list
is what remains of the walk: its head is `event`, its second element `next`;
the loop runs while both exist and `event->Info.Vertex != v2`. -/
def splitWalk (v2 : Nat) : List FEvent → Nat → List FPrivSeg → Except Fault (List FPrivSeg)
  | [], _, segs => pure segs
  | event :: rest, seg, segs =>
    match rest with
    | [] => pure segs
    | _ :: _ =>
      if event.Info.Vertex ≠ v2 then do
        let (newseg, segs1) ← splitSharerAt segs seg event.Info.Vertex
        splitWalk v2 rest newseg segs1
      else pure segs

/-- The body of the `for` loop of `FixSplitSharers` (gl.cpp 73-121) for one
split sharer. -/
def fixSplitSharer (st : FNodeBuilder) (sh : FSplitSharer) : Except Fault FNodeBuilder := do
  let s ← rd st.Segs sh.Seg
  let v2 := s.v2
  match FindEvent st.Events sh.Distance with
  | none => pure st
  | some i =>
    let segs ← splitWalk v2 (eventsFrom st.Events i sh.Forward) sh.Seg st.Segs
    pure { st with Segs := segs }

/-- The `for` loop of `FixSplitSharers` over the split sharers still to do. -/
def fixSplitSharersFrom : List FSplitSharer → FNodeBuilder → Except Fault FNodeBuilder
  | [], st => pure st
  | sh :: rest, st => do
    let st1 ← fixSplitSharer st sh
    fixSplitSharersFrom rest st1

/-- `FNodeBuilder::FixSplitSharers` (gl.cpp 71-123). -/
def FixSplitSharers (st : FNodeBuilder) : Except Fault FNodeBuilder :=
  fixSplitSharersFrom st.SplitSharers st

/-! ## `AddMinisegs` -/

/-- The four loop checks of `AddMinisegs` (gl.cpp 140-145) for the adjacent
events `prev` and `event`, with the short-circuit evaluation of `&&`: the
result is `some (fseg1, bseg1)` when all four return a seg, `none` as soon as
one returns `UINT_MAX`. -/
def minisegChecks (G : Geometry) (st : FNodeBuilder) (node : NodeFxp) (prev event : FEvent) :
    Except Fault (Option (Nat × Nat)) := do
  let fseg1 ← CheckLoopStart G st node.dx node.dy prev.Info.Vertex event.Info.Vertex
  if fseg1 = UINT_MAX then pure none else do
  let bseg1 ← CheckLoopStart G st (wrapI32 (-node.dx)) (wrapI32 (-node.dy))
    event.Info.Vertex prev.Info.Vertex
  if bseg1 = UINT_MAX then pure none else do
  let fseg2 ← CheckLoopEnd G st node.dx node.dy event.Info.Vertex
  if fseg2 = UINT_MAX then pure none else do
  let bseg2 ← CheckLoopEnd G st (wrapI32 (-node.dx)) (wrapI32 (-node.dy)) prev.Info.Vertex
  if bseg2 = UINT_MAX then pure none else pure (some (fseg1, bseg1))

/-- The statements of `AddMinisegs` executed when the four checks pass
(gl.cpp 146-165); returns the new state and the new `fset`, `bset`. -/
def addMinisegPair (st : FNodeBuilder) (splitseg : Nat) (prev event : FEvent)
    (fseg1 bseg1 fset bset : Nat) : Except Fault (FNodeBuilder × Nat × Nat) := do
  let (fnseg, st1) ← AddMiniseg st prev.Info.Vertex event.Info.Vertex UINT_MAX fseg1 splitseg
  let segs2 ← wr st1.Segs fnseg (fun s => { s with next := fset })
  let (bnseg, st3) ← AddMiniseg { st1 with Segs := segs2 } event.Info.Vertex prev.Info.Vertex
    fnseg bseg1 splitseg
  let segs4 ← wr st3.Segs bnseg (fun s => { s with next := bset })
  let f1 ← rd segs4 fseg1
  let b1 ← rd segs4 bseg1
  let fsector := f1.frontsector
  let bsector := b1.frontsector
  let segs5 ← wr segs4 fnseg (fun s => { s with frontsector := fsector })
  let segs6 ← wr segs5 fnseg (fun s => { s with backsector := bsector })
  let segs7 ← wr segs6 bnseg (fun s => { s with frontsector := bsector })
  let segs8 ← wr segs7 bnseg (fun s => { s with backsector := fsector })
  pure ({ st3 with Segs := segs8 }, fnseg, bnseg)

/-- The body of the `while` loop of `AddMinisegs` for `prev != NULL`
(gl.cpp 131-187): the step for the adjacent events `prev`, `event`.  The
sector mismatch test (gl.cpp 168-178) guards code that is compiled out and
the debug print is not modelled. -/
def minisegStep (G : Geometry) (st : FNodeBuilder) (node : NodeFxp) (splitseg : Nat)
    (prev event : FEvent) (fset bset : Nat) : Except Fault (FNodeBuilder × Nat × Nat) := do
  match ← minisegChecks G st node prev event with
  | none => pure (st, fset, bset)
  | some (fseg1, bseg1) => addMinisegPair st splitseg prev event fseg1 bseg1 fset bset

/-- The `while` loop of `AddMinisegs` (gl.cpp 130-190) with `prev` already
set: the list holds `event` and its successors. -/
def minisegWalk (G : Geometry) (node : NodeFxp) (splitseg : Nat) :
    FEvent → List FEvent → FNodeBuilder → Nat → Nat → Except Fault (FNodeBuilder × Nat × Nat)
  | _, [], st, fset, bset => pure (st, fset, bset)
  | prev, event :: rest, st, fset, bset => do
    let (st1, fset1, bset1) ← minisegStep G st node splitseg prev event fset bset
    minisegWalk G node splitseg event rest st1 fset1 bset1

/-- `FNodeBuilder::AddMinisegs` (gl.cpp 125-191); `fset` and `bset` are
passed by reference in the source and returned here.  The walk starts at
`GetMinimum` with `prev == NULL`, so its first pass only sets `prev`. -/
def AddMinisegs (G : Geometry) (st : FNodeBuilder) (node : NodeFxp) (splitseg fset bset : Nat) :
    Except Fault (FNodeBuilder × Nat × Nat) :=
  match st.Events with
  | [] => pure (st, fset, bset)
  | first :: rest => minisegWalk G node splitseg first rest st fset bset

/-! ## Auxiliary definitions used in the statements -/

/-- The seg record that `AddMiniseg` pushes. -/
def minisegRecord (v1 v2 partner next nfv nfv2 : Nat) (planenum : Int) : FPrivSeg :=
  { v1 := v1, v2 := v2, sidedef := NO_INDEX, linedef := NO_INDEX,
    frontsector := -1, backsector := -1, next := next,
    nextforvert := nfv, nextforvert2 := nfv2, loopnum := 0,
    partner := partner, storedseg := UINT_MAX, angle := 0, offset := 0,
    planenum := planenum, planefront := true, hashnext := none }

/-- The seg indices met by following the link field `link` (`nextforvert` or
`nextforvert2`) from `head` up to `UINT_MAX`, read as the loops of the source
read them: a link out of range is a fault, and the walk gets `fuel` steps. -/
def linkList (link : FPrivSeg → Nat) (segs : List FPrivSeg) : Nat → Nat → Except Fault (List Nat)
  | 0, i => if i = UINT_MAX then pure [] else Except.error Fault.diverges
  | fuel + 1, i =>
    if i = UINT_MAX then pure []
    else do
      let s ← rd segs i
      let rest ← linkList link segs fuel (link s)
      pure (i :: rest)

/-- The test of gl.cpp 256-257 by which `CheckLoopStart` leaves a seg out
as lying on the splitter; `far` is the seg's start vertex. -/
def startExcluded (G : Geometry) (v : FPrivVert) (dx dy : Int) (splitAngle : Nat)
    (far : FPrivVert) : Prop :=
  startDiff G splitAngle v far < G.ANGLE_EPSILON ∧ G.PointOnSide far.x far.y v.x v.y dx dy = 0

/-- All four loop checks of `AddMinisegs` for the adjacent events `prev`,
`event`, evaluated on the state `st`, return a seg other than `UINT_MAX`;
`fseg1` and `bseg1` are the segs returned by the two `CheckLoopStart`. -/
def fourChecksPass (G : Geometry) (st : FNodeBuilder) (node : NodeFxp) (prev event : FEvent)
    (fseg1 bseg1 : Nat) : Prop :=
  CheckLoopStart G st node.dx node.dy prev.Info.Vertex event.Info.Vertex = Except.ok fseg1 ∧
  fseg1 ≠ UINT_MAX ∧
  CheckLoopStart G st (wrapI32 (-node.dx)) (wrapI32 (-node.dy)) event.Info.Vertex
    prev.Info.Vertex = Except.ok bseg1 ∧
  bseg1 ≠ UINT_MAX ∧
  (∃ fseg2, CheckLoopEnd G st node.dx node.dy event.Info.Vertex = Except.ok fseg2 ∧
    fseg2 ≠ UINT_MAX) ∧
  (∃ bseg2, CheckLoopEnd G st (wrapI32 (-node.dx)) (wrapI32 (-node.dy)) prev.Info.Vertex =
    Except.ok bseg2 ∧ bseg2 ≠ UINT_MAX)

/-- One of the four loop checks, evaluated on the state `st`, returns
`UINT_MAX`. -/
def someCheckNone (G : Geometry) (st : FNodeBuilder) (node : NodeFxp) (prev event : FEvent) :
    Prop :=
  CheckLoopStart G st node.dx node.dy prev.Info.Vertex event.Info.Vertex = Except.ok UINT_MAX ∨
  CheckLoopStart G st (wrapI32 (-node.dx)) (wrapI32 (-node.dy)) event.Info.Vertex
    prev.Info.Vertex = Except.ok UINT_MAX ∨
  CheckLoopEnd G st node.dx node.dy event.Info.Vertex = Except.ok UINT_MAX ∨
  CheckLoopEnd G st (wrapI32 (-node.dx)) (wrapI32 (-node.dy)) prev.Info.Vertex =
    Except.ok UINT_MAX

/-- In the order in which `&&` evaluates them, the checks return segs up to
one that returns `UINT_MAX` (so the later ones are not evaluated). -/
def firstCheckNone (G : Geometry) (st : FNodeBuilder) (node : NodeFxp) (prev event : FEvent) :
    Prop :=
  CheckLoopStart G st node.dx node.dy prev.Info.Vertex event.Info.Vertex = Except.ok UINT_MAX ∨
  ∃ fseg1, CheckLoopStart G st node.dx node.dy prev.Info.Vertex event.Info.Vertex =
      Except.ok fseg1 ∧ fseg1 ≠ UINT_MAX ∧
    (CheckLoopStart G st (wrapI32 (-node.dx)) (wrapI32 (-node.dy)) event.Info.Vertex
        prev.Info.Vertex = Except.ok UINT_MAX ∨
     ∃ bseg1, CheckLoopStart G st (wrapI32 (-node.dx)) (wrapI32 (-node.dy)) event.Info.Vertex
        prev.Info.Vertex = Except.ok bseg1 ∧ bseg1 ≠ UINT_MAX ∧
      (CheckLoopEnd G st node.dx node.dy event.Info.Vertex = Except.ok UINT_MAX ∨
       ∃ fseg2, CheckLoopEnd G st node.dx node.dy event.Info.Vertex = Except.ok fseg2 ∧
        fseg2 ≠ UINT_MAX ∧
        CheckLoopEnd G st (wrapI32 (-node.dx)) (wrapI32 (-node.dy)) prev.Info.Vertex =
          Except.ok UINT_MAX))

/-- The segs of a list of miniseg pairs in the order in which they are
pushed: front, back, front, back, ... -/
def flatPairs : List (FPrivSeg × FPrivSeg) → List FPrivSeg
  | [] => []
  | (F, B) :: ps => F :: B :: flatPairs ps

/-- Bookkeeping for the pairs that a walk of `AddMinisegs` pushes from index
`n` on, starting with the chain heads `fset`, `bset` and ending with `fset'`,
`bset'`: each front seg is chained to the front head of its moment, each back
seg to the back head, the two are partners by index and run between two
adjacent events of `evs` in opposite directions. -/
def PairsFrom (evs : List FEvent) :
    Nat → Nat → Nat → List (FPrivSeg × FPrivSeg) → Nat → Nat → Prop
  | _, fset, bset, [], fset', bset' => fset' = fset ∧ bset' = bset
  | n, fset, bset, (F, B) :: ps, fset', bset' =>
    F.next = fset ∧ B.next = bset ∧
    F.partner = (if n = UINT_MAX then UINT_MAX else n + 1) ∧ B.partner = n ∧
    (∃ (i : Nat) (p c : FEvent), evs[i]? = some p ∧ evs[i + 1]? = some c ∧
      F.v1 = p.Info.Vertex ∧ F.v2 = c.Info.Vertex ∧
      B.v1 = c.Info.Vertex ∧ B.v2 = p.Info.Vertex) ∧
    PairsFrom evs (n + 2) n (n + 1) ps fset' bset'

/-- The indices `n + 2 (k - 1), ..., n + 2, n`: with `n` the number of segs
before `AddMinisegs`, the front minisegs of `k` pairs, last created first. -/
def frontIndices (n k : Nat) : List Nat := (List.range k).reverse.map (fun j => n + 2 * j)

/-- The indices `n + 2 (k - 1) + 1, ..., n + 3, n + 1` of the back minisegs
of `k` pairs, last created first. -/
def backIndices (n k : Nat) : List Nat := (List.range k).reverse.map (fun j => n + 2 * j + 1)

/-! ## A worked example: a square cut by a horizontal line

The square with corners `(0,0)`, `(0,4)`, `(4,4)`, `(4,0)`, its boundary
walked clockwise by six one-sided segs of sector 1 (the two vertical sides
already split where the line `y = 2` crosses them), and the two crossing
vertices as events. -/

/-- An angle function for the examples, exact on the eight axis-parallel and
diagonal directions: `0` is east, a quarter turn is `2 ^ 30`. -/
def octantAngle (x y : Int) : Nat :=
  if y = 0 then (if 0 ≤ x then 0 else 2147483648)
  else if 0 < y then (if x = 0 then 1073741824 else if 0 < x then 536870912 else 1610612736)
  else (if x = 0 then 3221225472 else if 0 < x then 3758096384 else 2684354560)

/-- A side function for the examples: `0` on the line through `(x1, y1)` with
direction `(dx, dy)`, `-1` and `1` on its two sides. -/
def crossSide (x y x1 y1 dx dy : Int) : Int :=
  if (y1 - y) * dx - (x1 - x) * dy = 0 then 0
  else if 0 < (y1 - y) * dx - (x1 - x) * dy then -1 else 1

/-- The geometry of the examples. -/
def exampleGeometry : Geometry :=
  { PointToAngle := octantAngle, PointOnSide := crossSide, ANGLE_EPSILON := 5000 }

/-- A one-sided seg `v1 -> v2` of sector 1 with the given links. -/
def exampleSeg (v1 v2 nextforvert nextforvert2 : Nat) : FPrivSeg :=
  { v1 := v1, v2 := v2, sidedef := 0, linedef := 0, frontsector := 1, backsector := -1,
    next := UINT_MAX, nextforvert := nextforvert, nextforvert2 := nextforvert2, loopnum := 0,
    partner := UINT_MAX, storedseg := UINT_MAX, angle := 0, offset := 0, planenum := -1,
    planefront := true, hashnext := none }

/-- The square: vertex `i` starts seg `i` and ends seg `i - 1`. -/
def squareState : FNodeBuilder :=
  { Vertices :=
      [⟨0, 0, 0, 5⟩, ⟨0, 2, 1, 0⟩, ⟨0, 4, 2, 1⟩, ⟨4, 4, 3, 2⟩, ⟨4, 2, 4, 3⟩, ⟨4, 0, 5, 4⟩],
    Segs :=
      [exampleSeg 0 1 UINT_MAX UINT_MAX, exampleSeg 1 2 UINT_MAX UINT_MAX,
       exampleSeg 2 3 UINT_MAX UINT_MAX, exampleSeg 3 4 UINT_MAX UINT_MAX,
       exampleSeg 4 5 UINT_MAX UINT_MAX, exampleSeg 5 0 UINT_MAX UINT_MAX],
    Events := [⟨0, ⟨1, UINT_MAX⟩⟩, ⟨4, ⟨4, UINT_MAX⟩⟩],
    SplitSharers := [] }

/-- The splitter of the example: through `(0, 2)` with direction `(1, 0)`. -/
def squareNode : NodeFxp := { x := 0, y := 2, dx := 1, dy := 0 }

/-- The two events of the example. -/
def squareLeft : FEvent := ⟨0, ⟨1, UINT_MAX⟩⟩

/-- The right event of the example. -/
def squareRight : FEvent := ⟨4, ⟨4, UINT_MAX⟩⟩

/-- The square after `AddMiniseg (1, 4, UINT_MAX, 0, UINT_MAX)`. -/
def squareFront : FNodeBuilder :=
  { squareState with
    Vertices :=
      [⟨0, 0, 0, 5⟩, ⟨0, 2, 6, 0⟩, ⟨0, 4, 2, 1⟩, ⟨4, 4, 3, 2⟩, ⟨4, 2, 4, 6⟩, ⟨4, 0, 5, 4⟩],
    Segs := squareState.Segs ++ [minisegRecord 1 4 UINT_MAX UINT_MAX 1 3 (-1)] }

/-- The square after `AddMinisegs`: one pair, segs 6 and 7. -/
def squareCut : FNodeBuilder :=
  { squareState with
    Vertices :=
      [⟨0, 0, 0, 5⟩, ⟨0, 2, 6, 7⟩, ⟨0, 4, 2, 1⟩, ⟨4, 4, 3, 2⟩, ⟨4, 2, 7, 6⟩, ⟨4, 0, 5, 4⟩],
    Segs := squareState.Segs ++
      [{ minisegRecord 1 4 7 UINT_MAX 1 3 (-1) with frontsector := 1, backsector := 1 },
       { minisegRecord 4 1 6 UINT_MAX 4 0 (-1) with frontsector := 1, backsector := 1 }] }

/-- Two-sidedness (invariant 1 of the spec): every seg with a partner is the
partner of its partner, and their endpoints are mirror images. -/
def PartnersMirror (segs : List FPrivSeg) : Prop :=
  ∀ (i : Nat) (s : FPrivSeg), segs[i]? = some s → s.partner ≠ UINT_MAX →
    ∃ p : FPrivSeg, segs[s.partner]? = some p ∧ p.partner = i ∧ p.v1 = s.v2 ∧ p.v2 = s.v1

/-- No seg is its own partner. -/
def NoSelfPartner (segs : List FPrivSeg) : Prop :=
  ∀ (i : Nat) (s : FPrivSeg), segs[i]? = some s → s.partner ≠ UINT_MAX → s.partner ≠ i

/-- An executable test of `PartnersMirror`. -/
def partnersMirrorTest (segs : List FPrivSeg) : Bool :=
  (List.range segs.length).all fun i =>
    match segs[i]? with
    | none => true
    | some s =>
      s.partner == UINT_MAX ||
        (match segs[s.partner]? with
          | none => false
          | some p => p.partner == i && p.v1 == s.v2 && p.v2 == s.v1)

/-- An executable test of `NoSelfPartner`. -/
def noSelfPartnerTest (segs : List FPrivSeg) : Bool :=
  (List.range segs.length).all fun i =>
    match segs[i]? with
    | none => true
    | some s => s.partner == UINT_MAX || s.partner != i
/-! ## Worked examples for `FixSplitSharers` -/

/-- A two-sided line lying on the splitter `y = 0`: seg 0 runs from vertex 0
at `(0, 0)` to vertex 3 at `(3, 0)`, seg 1 is its partner, and the splitter
also has events for the vertices 1 and 2 in between.  Both segs are recorded
as split sharers. -/
def overlapState : FNodeBuilder :=
  { Vertices := [⟨0, 0, 0, 1⟩, ⟨1, 0, UINT_MAX, UINT_MAX⟩, ⟨2, 0, UINT_MAX, UINT_MAX⟩,
      ⟨3, 0, 1, 0⟩],
    Segs := [{ exampleSeg 0 3 UINT_MAX UINT_MAX with partner := 1, backsector := 2 },
      { exampleSeg 3 0 UINT_MAX UINT_MAX with partner := 0, frontsector := 2, backsector := 1 }],
    Events := [⟨0, ⟨0, UINT_MAX⟩⟩, ⟨1, ⟨1, UINT_MAX⟩⟩, ⟨2, ⟨2, UINT_MAX⟩⟩, ⟨3, ⟨3, UINT_MAX⟩⟩],
    SplitSharers := [⟨0, 0, true⟩, ⟨3, 1, false⟩] }

/-- A seg of length zero that is its own partner, recorded as a split
sharer: its endpoints mirror each other and its partner's partner is itself. -/
def selfPartnerState : FNodeBuilder :=
  { Vertices := [⟨0, 0, UINT_MAX, UINT_MAX⟩, ⟨1, 0, UINT_MAX, UINT_MAX⟩,
      ⟨2, 0, UINT_MAX, UINT_MAX⟩],
    Segs := [{ exampleSeg 0 0 UINT_MAX UINT_MAX with partner := 0 }],
    Events := [⟨0, ⟨0, UINT_MAX⟩⟩, ⟨1, ⟨1, UINT_MAX⟩⟩, ⟨2, ⟨2, UINT_MAX⟩⟩],
    SplitSharers := [⟨0, 0, true⟩] }

/-- The vertices carried by the events, in ascending order of distance. -/
def eventVertices (evs : List FEvent) : List Nat := evs.map (fun e => e.Info.Vertex)

/-- The vertices `x` and `y` stand next to each other in the list `vs`, in
either order. -/
def AdjacentIn (vs : List Nat) (x y : Nat) : Prop :=
  ∃ k, (vs[k]? = some x ∧ vs[k + 1]? = some y) ∨ (vs[k]? = some y ∧ vs[k + 1]? = some x)

/-- The seg `t` of the list of starting segs lets the second loop of
`CheckLoopStart` (gl.cpp 273-285) go on: its `v2` is not `vertex2`, and it
does not have a difference below `bestang` with a partner other than
`bestseg`. -/
def startPasses (G : Geometry) (st : FNodeBuilder) (v : FPrivVert)
    (vertex2 splitAngle bestang bestseg t : Nat) : Prop :=
  ∃ (seg : FPrivSeg) (far : FPrivVert), st.Segs[t]? = some seg ∧ seg.v2 ≠ vertex2 ∧
    st.Vertices[seg.v2]? = some far ∧
    ¬ (startDiff G splitAngle v far < bestang ∧ seg.partner ≠ bestseg)

/-- The seg `t` of the list of starting segs makes the second loop of
`CheckLoopStart` return `UINT_MAX`. -/
def startBlocks (G : Geometry) (st : FNodeBuilder) (v : FPrivVert)
    (vertex2 splitAngle bestang bestseg t : Nat) : Prop :=
  ∃ seg : FPrivSeg, st.Segs[t]? = some seg ∧
    (seg.v2 = vertex2 ∨
      ∃ far : FPrivVert, st.Vertices[seg.v2]? = some far ∧
        startDiff G splitAngle v far < bestang ∧ seg.partner ≠ bestseg)

/-- The test of gl.cpp 305-306 by which `CheckLoopEnd` leaves a seg out as
lying on the splitter: `far` is the vertex at the seg's `v2`, to which the
angle is taken, and the side is that of the vertex at the seg's `v1`. -/
def endExcluded (G : Geometry) (st : FNodeBuilder) (v : FPrivVert) (dx dy : Int)
    (splitAngle : Nat) (seg : FPrivSeg) (far : FPrivVert) : Prop :=
  endDiff G splitAngle v far < G.ANGLE_EPSILON ∧
    ∃ near : FPrivVert, st.Vertices[seg.v1]? = some near ∧
      G.PointOnSide near.x near.y v.x v.y dx dy = 0

/-- Two hubs for the ties: vertex 0 ends the segs 0 and 1, which come from the
same direction, and vertex 3 starts the segs 2 and 3, which leave in the same
direction. -/
def tieState : FNodeBuilder :=
  { Vertices :=
      [⟨0, 0, UINT_MAX, 0⟩, ⟨0, -2, 0, UINT_MAX⟩, ⟨0, -4, 1, UINT_MAX⟩,
       ⟨8, 0, 2, UINT_MAX⟩, ⟨8, 2, UINT_MAX, 2⟩, ⟨8, 4, UINT_MAX, 3⟩],
    Segs :=
      [exampleSeg 1 0 UINT_MAX 1, exampleSeg 2 0 UINT_MAX UINT_MAX,
       exampleSeg 3 4 3 UINT_MAX, exampleSeg 3 5 UINT_MAX UINT_MAX],
    Events := [],
    SplitSharers := [] }

/-- The seg `t` of the list of ending segs lets the second loop of
`CheckLoopEnd` (gl.cpp 322-331) go on: it does not have a difference below
`bestang` with a partner other than `bestseg`. -/
def endPasses (G : Geometry) (st : FNodeBuilder) (v : FPrivVert)
    (splitAngle bestang bestseg t : Nat) : Prop :=
  ∃ (seg : FPrivSeg) (far : FPrivVert), st.Segs[t]? = some seg ∧
    st.Vertices[seg.v1]? = some far ∧
    (endDiff G splitAngle v far < bestang → seg.partner = bestseg)

/-- A splitter through the void: two event vertices that neither start nor
end a seg. -/
def voidState : FNodeBuilder :=
  { Vertices := [⟨0, 0, UINT_MAX, UINT_MAX⟩, ⟨4, 0, UINT_MAX, UINT_MAX⟩],
    Segs := [],
    Events := [⟨0, ⟨0, UINT_MAX⟩⟩, ⟨4, ⟨1, UINT_MAX⟩⟩],
    SplitSharers := [] }

/-- The vertices at which the edge of a split sharer is split, for the walk
`w` of the events after its own in its direction: those of the successive
events for as long as the event has a further event after it in the walk and
its vertex is not `v2`. -/
def splitPoints (v2 : Nat) : List FEvent → List Nat
  | [] => []
  | event :: rest =>
    match rest with
    | [] => []
    | _ :: _ => if event.Info.Vertex ≠ v2 then event.Info.Vertex :: splitPoints v2 rest else []

/-- Splitting the edge `seg` at the given vertices in turn, each time going on
with the new tail edge. -/
def splitAtAll : List Nat → Nat → List FPrivSeg → Except Fault (List FPrivSeg)
  | [], _, segs => pure segs
  | m :: ms, seg, segs => do
    let (newseg, segs1) ← splitSharerAt segs seg m
    splitAtAll ms newseg segs1

/-- An edge `0 -> 2` along the splitter whose end vertex has no event: the
events are those of the vertices 0 and 1. -/
def shortWalkState : FNodeBuilder :=
  { Vertices := [⟨0, 0, 0, UINT_MAX⟩, ⟨1, 0, UINT_MAX, UINT_MAX⟩, ⟨2, 0, UINT_MAX, 0⟩],
    Segs := [exampleSeg 0 2 UINT_MAX UINT_MAX],
    Events := [⟨0, ⟨0, UINT_MAX⟩⟩, ⟨1, ⟨1, UINT_MAX⟩⟩],
    SplitSharers := [⟨0, 0, true⟩] }

/-- Vertex-list consistency: the end points of every seg are vertices of the
arena and, for every vertex `u`, following `nextforvert` from its `segs` ends
and meets, each once, exactly the segs whose `v1` is `u`, and following
`nextforvert2` from its `segs2` ends and meets, each once, exactly the segs
whose `v2` is `u`. -/
def VertexListsConsistent (st : FNodeBuilder) : Prop :=
  (∀ (t : Nat) (s : FPrivSeg), st.Segs[t]? = some s →
    s.v1 < st.Vertices.length ∧ s.v2 < st.Vertices.length) ∧
  ∀ (u : Nat) (v : FPrivVert), st.Vertices[u]? = some v →
    (∃ L, linkList FPrivSeg.nextforvert st.Segs st.Segs.length v.segs = Except.ok L ∧
      L.Nodup ∧ ∀ t, t ∈ L ↔ ∃ s : FPrivSeg, st.Segs[t]? = some s ∧ s.v1 = u) ∧
    (∃ L, linkList FPrivSeg.nextforvert2 st.Segs st.Segs.length v.segs2 = Except.ok L ∧
      L.Nodup ∧ ∀ t, t ∈ L ↔ ∃ s : FPrivSeg, st.Segs[t]? = some s ∧ s.v2 = u)

/-- Two vertices at the same distance along the splitter through `(0, 0)`
with direction `(1, 0)`: vertex 0 at `(2, 0)`, whose event is recorded, and
vertex 1 at `(2, 5)`. -/
def collisionState : FNodeBuilder :=
  { Vertices := [⟨2, 0, UINT_MAX, UINT_MAX⟩, ⟨2, 5, UINT_MAX, UINT_MAX⟩],
    Segs := [],
    Events := [⟨2, ⟨0, UINT_MAX⟩⟩],
    SplitSharers := [] }

/-- The first loop of `CheckLoopEnd` as C20 describes it for a consistent
arena: a seg is left out exactly when its difference is below
`ANGLE_EPSILON`; no side is computed.  To be compared with `endScan`. -/
def endScanByAngle (G : Geometry) (st : FNodeBuilder) (v : FPrivVert)
    (splitAngle : Nat) : Nat → Nat → Nat → Nat → Except Fault (Nat × Nat)
  | 0, segnum, bestang, bestseg =>
    if segnum = UINT_MAX then pure (bestang, bestseg)
    else Except.error Fault.diverges
  | fuel + 1, segnum, bestang, bestseg =>
    if segnum = UINT_MAX then pure (bestang, bestseg)
    else do
      let seg ← rd st.Segs segnum
      let far ← rd st.Vertices seg.v2
      let diff := endDiff G splitAngle v far
      if diff < G.ANGLE_EPSILON then
        endScanByAngle G st v splitAngle fuel seg.nextforvert bestang bestseg
      else if diff ≤ bestang then
        endScanByAngle G st v splitAngle fuel seg.nextforvert diff segnum
      else
        endScanByAngle G st v splitAngle fuel seg.nextforvert bestang bestseg

/-- A geometry that rounds every direction to the nearest axis direction,
with the side function of the examples. -/
def roundedGeometry : Geometry :=
  { PointToAngle := fun x y =>
      if y.natAbs ≤ x.natAbs then (if 0 ≤ x then 0 else 2147483648)
      else (if 0 < y then 1073741824 else 3221225472),
    PointOnSide := crossSide,
    ANGLE_EPSILON := 5000 }

/-- One seg between vertex 0 at `(0, 0)` and vertex 1 at `(4, y)`, running
towards vertex 0 when `towards` and away from it otherwise. -/
def spokeState (y : Int) (towards : Bool) : FNodeBuilder :=
  { Vertices :=
      if towards then [⟨0, 0, UINT_MAX, 0⟩, ⟨4, y, 0, UINT_MAX⟩]
      else [⟨0, 0, 0, UINT_MAX⟩, ⟨4, y, UINT_MAX, 0⟩],
    Segs := if towards then [exampleSeg 1 0 UINT_MAX UINT_MAX]
      else [exampleSeg 0 1 UINT_MAX UINT_MAX],
    Events := [],
    SplitSharers := [] }

theorem bind_eq_ok {α β : Type} {x : Except Fault α} {f : α → Except Fault β} {b : β} :
    (x >>= f) = Except.ok b ↔ ∃ a, x = Except.ok a ∧ f a = Except.ok b := by
  cases x <;> simp [bind, Except.bind]

theorem pure_eq_ok {α : Type} {a b : α} :
    (pure a : Except Fault α) = Except.ok b ↔ a = b := by
  simp [pure, Except.pure]

theorem rd_eq_ok {α : Type} {arr : List α} {i : Nat} {a : α} :
    rd arr i = Except.ok a ↔ arr[i]? = some a := by
  unfold rd
  cases h : arr[i]? <;> simp

theorem wr_eq_ok {α : Type} {arr : List α} {i : Nat} {f : α → α} {r : List α} :
    wr arr i f = Except.ok r ↔ ∃ a, arr[i]? = some a ∧ arr.set i (f a) = r := by
  unfold wr
  cases h : arr[i]? <;> simp

theorem assertThat_eq_ok {c : Prop} [Decidable c] {u : Unit} :
    assertThat c = Except.ok u ↔ c := by
  unfold assertThat
  split <;> simp_all

theorem AddMiniseg_inv {st st' : FNodeBuilder} {v1 v2 partner seg1 splitseg n : Nat}
    (h : AddMiniseg st v1 v2 partner seg1 splitseg = Except.ok (n, st')) :
    ∃ seg vert1 vert2 planenum,
      st.Segs[seg1]? = some seg ∧ st.Vertices[v1]? = some vert1 ∧
      st.Vertices[v2]? = some vert2 ∧
      (splitseg ≠ UINT_MAX → ∃ ss, st.Segs[splitseg]? = some ss ∧ planenum = ss.planenum) ∧
      (splitseg = UINT_MAX → planenum = -1) ∧
      (partner ≠ UINT_MAX → ∃ p, st.Segs[partner]? = some p ∧ p.v1 = v2 ∧ p.v2 = v1 ∧
        st'.Segs = (st.Segs.set partner { p with partner := st.Segs.length }) ++
          [minisegRecord v1 v2 partner seg.next vert1.segs vert2.segs2 planenum]) ∧
      (partner = UINT_MAX →
        st'.Segs = st.Segs ++ [minisegRecord v1 v2 partner seg.next vert1.segs vert2.segs2 planenum]) ∧
      n = st.Segs.length ∧
      st'.Vertices = (st.Vertices.set v1 { vert1 with segs := st.Segs.length }).set v2
        { (if v1 = v2 then { vert1 with segs := st.Segs.length } else vert2) with
          segs2 := st.Segs.length } ∧
      st'.Events = st.Events ∧ st'.SplitSharers = st.SplitSharers := by
  simp only [AddMiniseg, bind_eq_ok, rd_eq_ok, wr_eq_ok, pure_eq_ok] at h
  obtain ⟨seg, hseg, planenum, hpl, vert1, hv1, vert2, hv2, u, hassert, segs2, hsegs2,
    verts1, ⟨a1, ha1, hverts1⟩, verts2, ⟨a2, ha2, hverts2⟩, h⟩ := h
  rw [hv1] at ha1
  cases ha1
  simp only [Prod.mk.injEq] at h
  obtain ⟨hn, hst⟩ := h
  subst hst
  refine ⟨seg, vert1, vert2, planenum, hseg, hv1, hv2, ?_, ?_, ?_, ?_, hn.symm, ?_, rfl, rfl⟩
  · intro hs
    rw [if_pos hs] at hpl
    simp only [bind_eq_ok, rd_eq_ok, pure_eq_ok] at hpl
    obtain ⟨ss, hss, rfl⟩ := hpl
    exact ⟨ss, hss, rfl⟩
  · intro hs
    rw [if_neg (by simpa using hs)] at hpl
    exact (pure_eq_ok.1 hpl).symm
  · intro hp
    rw [if_pos hp] at hassert hsegs2
    simp only [bind_eq_ok, rd_eq_ok, assertThat_eq_ok] at hassert
    obtain ⟨p, hp1, _, hpa, hpb⟩ := hassert
    refine ⟨p, hp1, hpa, hpb, ?_⟩
    simp only [wr_eq_ok] at hsegs2
    obtain ⟨a, ha, hset⟩ := hsegs2
    have hlt : partner < st.Segs.length := by
      rcases List.getElem?_eq_some.1 hp1 with ⟨hlt, _⟩
      exact hlt
    rw [List.getElem?_append_left hlt, hp1] at ha
    cases ha
    show segs2 = _
    rw [← hset, List.set_append_left _ _ hlt]
    rfl
  · intro hp
    rw [if_neg (by simpa using hp)] at hsegs2
    simp only [pure_eq_ok] at hsegs2
    show segs2 = _
    rw [← hsegs2]
    rfl
  · show verts2 = _
    rw [← hverts2, ← hverts1]
    rw [← hverts1] at ha2
    by_cases hvv : v1 = v2
    · subst hvv
      have hlt : v1 < st.Vertices.length := (List.getElem?_eq_some.1 hv1).1
      rw [List.getElem?_set_self hlt] at ha2
      cases ha2
      simp
    · rw [List.getElem?_set_ne hvv, hv2] at ha2
      cases ha2
      simp [hvv]

/-! ## `AddMiniseg` -/

theorem getElem?_lt_length {α : Type} {l : List α} {i : Nat} {a : α} (h : l[i]? = some a) :
    i < l.length := (List.getElem?_eq_some.1 h).1

/-- What `AddMiniseg` does to the seg arena: one record is pushed, and only
the `partner` field of the given partner changes among the old segs. -/
theorem AddMiniseg_segs {st st' : FNodeBuilder} {v1 v2 partner seg1 splitseg n : Nat}
    (h : AddMiniseg st v1 v2 partner seg1 splitseg = Except.ok (n, st')) :
    ∃ seg vert1 vert2 planenum base,
      st.Segs[seg1]? = some seg ∧ st.Vertices[v1]? = some vert1 ∧
      st.Vertices[v2]? = some vert2 ∧
      (splitseg ≠ UINT_MAX → ∃ ss, st.Segs[splitseg]? = some ss ∧ planenum = ss.planenum) ∧
      (splitseg = UINT_MAX → planenum = -1) ∧
      n = st.Segs.length ∧
      st'.Segs = base ++ [minisegRecord v1 v2 partner seg.next vert1.segs vert2.segs2 planenum] ∧
      base.length = st.Segs.length ∧
      (∀ i s, st.Segs[i]? = some s → base[i]? =
        some (if partner ≠ UINT_MAX ∧ i = partner then { s with partner := st.Segs.length }
          else s)) := by
  obtain ⟨seg, vert1, vert2, planenum, hseg, hv1, hv2, hpl1, hpl2, hp1, hp2, hn, -, -, -⟩ :=
    AddMiniseg_inv h
  by_cases hp : partner = UINT_MAX
  · refine ⟨seg, vert1, vert2, planenum, st.Segs, hseg, hv1, hv2, hpl1, hpl2, hn, hp2 hp, rfl, ?_⟩
    intro i s hs
    simp [hp, hs]
  · obtain ⟨p, hpp, -, -, hsegs⟩ := hp1 hp
    refine ⟨seg, vert1, vert2, planenum, _, hseg, hv1, hv2, hpl1, hpl2, hn, hsegs, by simp, ?_⟩
    intro i s hs
    by_cases hi : i = partner
    · subst hi
      rw [hs] at hpp
      cases hpp
      rw [List.getElem?_set_self (getElem?_lt_length hs)]
      simp [hp]
    · rw [List.getElem?_set_ne (Ne.symm hi), hs]
      simp [hi]

theorem AddMiniseg_length {st st' : FNodeBuilder} {v1 v2 partner seg1 splitseg n : Nat}
    (h : AddMiniseg st v1 v2 partner seg1 splitseg = Except.ok (n, st')) :
    st'.Segs.length = st.Segs.length + 1 := by
  obtain ⟨seg, vert1, vert2, planenum, base, -, -, -, -, -, -, hsegs, hlen, -⟩ := AddMiniseg_segs h
  rw [hsegs, List.length_append, hlen]
  rfl

theorem AddMiniseg_old {st st' : FNodeBuilder} {v1 v2 partner seg1 splitseg n : Nat}
    (h : AddMiniseg st v1 v2 partner seg1 splitseg = Except.ok (n, st'))
    {i : Nat} {s : FPrivSeg} (hs : st.Segs[i]? = some s) :
    st'.Segs[i]? = some (if partner ≠ UINT_MAX ∧ i = partner then
      { s with partner := st.Segs.length } else s) := by
  obtain ⟨seg, vert1, vert2, planenum, base, -, -, -, -, -, -, hsegs, hlen, hold⟩ :=
    AddMiniseg_segs h
  rw [hsegs, List.getElem?_append_left (by rw [hlen]; exact getElem?_lt_length hs)]
  exact hold i s hs

theorem AddMiniseg_new {st st' : FNodeBuilder} {v1 v2 partner seg1 splitseg n : Nat}
    (h : AddMiniseg st v1 v2 partner seg1 splitseg = Except.ok (n, st')) :
    ∃ seg vert1 vert2 planenum,
      st.Segs[seg1]? = some seg ∧ st.Vertices[v1]? = some vert1 ∧
      st.Vertices[v2]? = some vert2 ∧
      (splitseg ≠ UINT_MAX → ∃ ss, st.Segs[splitseg]? = some ss ∧ planenum = ss.planenum) ∧
      (splitseg = UINT_MAX → planenum = -1) ∧
      n = st.Segs.length ∧
      st'.Segs[st.Segs.length]? =
        some (minisegRecord v1 v2 partner seg.next vert1.segs vert2.segs2 planenum) := by
  obtain ⟨seg, vert1, vert2, planenum, base, hseg, hv1, hv2, hpl1, hpl2, hn, hsegs, hlen, -⟩ :=
    AddMiniseg_segs h
  refine ⟨seg, vert1, vert2, planenum, hseg, hv1, hv2, hpl1, hpl2, hn, ?_⟩
  rw [hsegs, ← hlen]
  simp

/-- What `AddMiniseg` does to the vertex arena: coordinates stay, `segs` of
`v1` and `segs2` of `v2` become the new index, nothing else changes. -/
theorem AddMiniseg_vertices {st st' : FNodeBuilder} {v1 v2 partner seg1 splitseg n : Nat}
    (h : AddMiniseg st v1 v2 partner seg1 splitseg = Except.ok (n, st'))
    {i : Nat} {v : FPrivVert} (hv : st.Vertices[i]? = some v) :
    st'.Vertices[i]? = some
      { v with segs := if i = v1 then st.Segs.length else v.segs,
               segs2 := if i = v2 then st.Segs.length else v.segs2 } := by
  obtain ⟨seg, vert1, vert2, planenum, -, hv1, hv2, -, -, -, -, -, hverts, -, -⟩ :=
    AddMiniseg_inv h
  rw [hverts]
  have hlt := getElem?_lt_length hv
  by_cases h2 : i = v2
  · subst h2
    rw [List.getElem?_set_self (by simpa using hlt)]
    by_cases h1 : v1 = i
    · subst h1
      rw [hv] at hv1
      cases hv1
      simp
    · rw [hv] at hv2
      cases hv2
      simp [h1, Ne.symm h1]
  · rw [List.getElem?_set_ne (Ne.symm h2)]
    by_cases h1 : i = v1
    · subst h1
      rw [List.getElem?_set_self hlt]
      rw [hv] at hv1
      cases hv1
      simp [h2]
    · rw [List.getElem?_set_ne (Ne.symm h1), hv]
      simp [h1, h2]

theorem AddMiniseg_vertices_length {st st' : FNodeBuilder} {v1 v2 partner seg1 splitseg n : Nat}
    (h : AddMiniseg st v1 v2 partner seg1 splitseg = Except.ok (n, st')) :
    st'.Vertices.length = st.Vertices.length := by
  obtain ⟨seg, vert1, vert2, planenum, -, hv1, hv2, -, -, -, -, -, hverts, -, -⟩ :=
    AddMiniseg_inv h
  rw [hverts]
  simp

/-- `AddMiniseg` returns on valid arguments. -/
theorem AddMiniseg_returns {st : FNodeBuilder} {v1 v2 partner seg1 splitseg : Nat}
    (hseg1 : seg1 < st.Segs.length) (hv1 : v1 < st.Vertices.length)
    (hv2 : v2 < st.Vertices.length)
    (hsplit : splitseg = UINT_MAX ∨ splitseg < st.Segs.length)
    (hpartner : partner = UINT_MAX ∨
      ∃ p, st.Segs[partner]? = some p ∧ p.v1 = v2 ∧ p.v2 = v1) :
    ∃ st', AddMiniseg st v1 v2 partner seg1 splitseg = Except.ok (st.Segs.length, st') := by
  have e1 : st.Segs[seg1]? = some st.Segs[seg1] := List.getElem?_eq_getElem hseg1
  have e2 : st.Vertices[v1]? = some st.Vertices[v1] := List.getElem?_eq_getElem hv1
  have e3 : st.Vertices[v2]? = some st.Vertices[v2] := List.getElem?_eq_getElem hv2
  refine Exists.intro ?st' ?_
  case st' =>
    exact
      { st with
        Vertices := (st.Vertices.set v1 { st.Vertices[v1] with segs := st.Segs.length }).set v2
          { (if v1 = v2 then { st.Vertices[v1] with segs := st.Segs.length }
              else st.Vertices[v2]) with segs2 := st.Segs.length }
        Segs := (if partner ≠ UINT_MAX then
            st.Segs.set partner { (st.Segs[partner]?.getD st.Segs[seg1]) with
              partner := st.Segs.length }
          else st.Segs) ++
          [minisegRecord v1 v2 partner st.Segs[seg1].next st.Vertices[v1].segs
            st.Vertices[v2].segs2
            (if splitseg ≠ UINT_MAX then (st.Segs[splitseg]?.getD st.Segs[seg1]).planenum
              else -1)] }
  simp only [AddMiniseg, bind_eq_ok, rd_eq_ok, wr_eq_ok, pure_eq_ok]
  refine ⟨_, e1, ?_⟩
  have hpl : (if splitseg ≠ UINT_MAX then do
      let s ← rd st.Segs splitseg
      pure s.planenum
    else pure (-1 : Int)) = Except.ok
      (if splitseg ≠ UINT_MAX then (st.Segs[splitseg]?.getD st.Segs[seg1]).planenum
        else -1) := by
    by_cases hu : splitseg = UINT_MAX
    · simp [hu, pure, Except.pure]
    · rcases hsplit with hs | hs
      · exact absurd hs hu
      · rw [if_pos hu, if_pos hu]
        simp only [bind_eq_ok, rd_eq_ok, pure_eq_ok]
        exact ⟨_, List.getElem?_eq_getElem hs, by simp [List.getElem?_eq_getElem hs]⟩
  refine ⟨_, hpl, _, e2, _, e3, ?_⟩
  have hasrt : (if partner ≠ UINT_MAX then do
      let p ← rd st.Segs partner
      let _ ← assertThat (p.v1 = v2)
      assertThat (p.v2 = v1)
    else pure ()) = Except.ok () := by
    by_cases hu : partner = UINT_MAX
    · simp [hu, pure, Except.pure]
    · rcases hpartner with hp | ⟨p, hp, ha, hb⟩
      · exact absurd hp hu
      · rw [if_pos hu]
        simp only [bind_eq_ok, rd_eq_ok, assertThat_eq_ok]
        exact ⟨p, hp, (), ha, hb⟩
  refine ⟨(), hasrt, ?_⟩
  have hverts : ∃ a, (st.Vertices.set v1
      { st.Vertices[v1] with segs := st.Segs.length })[v2]? = some a ∧
      (st.Vertices.set v1 { st.Vertices[v1] with segs := st.Segs.length }).set v2
        { a with segs2 := st.Segs.length } =
      (st.Vertices.set v1 { st.Vertices[v1] with segs := st.Segs.length }).set v2
          { (if v1 = v2 then { st.Vertices[v1] with segs := st.Segs.length }
              else st.Vertices[v2]) with segs2 := st.Segs.length } := by
    by_cases hvv : v1 = v2
    · subst hvv
      exact ⟨_, by rw [List.getElem?_set_self hv1], by simp⟩
    · exact ⟨_, by rw [List.getElem?_set_ne hvv, e3], by simp [hvv]⟩
  obtain ⟨a, ha1, ha2⟩ := hverts
  by_cases hu : partner = UINT_MAX
  · simp only [hu, ne_eq, not_true_eq_false, if_false, pure_eq_ok]
    refine ⟨_, rfl, _, ⟨_, e2, rfl⟩, _, ⟨a, ha1, rfl⟩, ?_⟩
    rw [ha2]
    rfl
  · rcases hpartner with hp | ⟨p, hp, ha, hb⟩
    · exact absurd hp hu
    · simp only [ne_eq, hu, not_false_eq_true, if_true, wr_eq_ok]
      have hlt := getElem?_lt_length hp
      refine ⟨_, ⟨p, by rw [List.getElem?_append_left hlt, hp], rfl⟩, _, ⟨_, e2, rfl⟩, _,
        ⟨a, ha1, rfl⟩, ?_⟩
      rw [ha2, List.set_append_left _ _ hlt, hp]
      rfl

/-- Following links gives the same list in an arena that extends the segs
met and keeps their link field. -/
theorem linkList_congr (link : FPrivSeg → Nat) {segs segs' : List FPrivSeg}
    (hext : ∀ (i : Nat) (s : FPrivSeg), segs[i]? = some s →
      ∃ s' : FPrivSeg, segs'[i]? = some s' ∧ link s' = link s) :
    ∀ (fuel head : Nat) (L : List Nat), linkList link segs fuel head = Except.ok L →
      linkList link segs' fuel head = Except.ok L := by
  intro fuel
  induction fuel with
  | zero =>
    intro head L h
    simpa [linkList] using h
  | succ fuel ih =>
    intro head L h
    unfold linkList at h ⊢
    by_cases hu : head = UINT_MAX
    · simpa [hu] using h
    · rw [if_neg hu] at h ⊢
      simp only [bind_eq_ok, rd_eq_ok, pure_eq_ok] at h ⊢
      obtain ⟨s, hs, rest, hrest, hL⟩ := h
      obtain ⟨s', hs', hlink⟩ := hext head s hs
      exact ⟨s', hs', rest, by rw [hlink]; exact ih _ _ hrest, hL⟩

/-- C5: after `n = AddMiniseg (v1, v2, ...)` the head of `v1`'s list of
starting segs and the head of `v2`'s list of ending segs are `n`, and
following `nextforvert` (resp. `nextforvert2`) from `n` gives `n` followed by
exactly the list the vertex had before the call.  The arena is assumed not to
have used up the 32 bit index space (`n` is then not the sentinel). -/
theorem AddMiniseg_threads_vertex_lists (st st' : FNodeBuilder)
    (v1 v2 partner seg1 splitseg n : Nat)
    (h : AddMiniseg st v1 v2 partner seg1 splitseg = Except.ok (n, st'))
    (hfull : st.Segs.length < UINT_MAX) :
    ∃ vert1 vert2 vert1' vert2',
      st.Vertices[v1]? = some vert1 ∧ st.Vertices[v2]? = some vert2 ∧
      st'.Vertices[v1]? = some vert1' ∧ st'.Vertices[v2]? = some vert2' ∧
      vert1'.segs = n ∧ vert2'.segs2 = n ∧
      (∀ fuel L, linkList FPrivSeg.nextforvert st.Segs fuel vert1.segs = Except.ok L →
        linkList FPrivSeg.nextforvert st'.Segs (fuel + 1) vert1'.segs = Except.ok (n :: L)) ∧
      (∀ fuel L, linkList FPrivSeg.nextforvert2 st.Segs fuel vert2.segs2 = Except.ok L →
        linkList FPrivSeg.nextforvert2 st'.Segs (fuel + 1) vert2'.segs2 = Except.ok (n :: L)) := by
  obtain ⟨seg, vert1, vert2, planenum, hseg, hv1, hv2, -, -, hn, hnew⟩ := AddMiniseg_new h
  have hv1' := AddMiniseg_vertices h hv1
  have hv2' := AddMiniseg_vertices h hv2
  have hne : st.Segs.length ≠ UINT_MAX := Nat.ne_of_lt hfull
  have hold1 : ∀ (i : Nat) (s : FPrivSeg), st.Segs[i]? = some s →
      ∃ s' : FPrivSeg, st'.Segs[i]? = some s' ∧ s'.nextforvert = s.nextforvert := by
    intro i s hs
    refine ⟨_, AddMiniseg_old h hs, ?_⟩
    split <;> rfl
  have hold2 : ∀ (i : Nat) (s : FPrivSeg), st.Segs[i]? = some s →
      ∃ s' : FPrivSeg, st'.Segs[i]? = some s' ∧ s'.nextforvert2 = s.nextforvert2 := by
    intro i s hs
    refine ⟨_, AddMiniseg_old h hs, ?_⟩
    split <;> rfl
  refine ⟨vert1, vert2, _, _, hv1, hv2, hv1', hv2', by simp [hn], by simp [hn], ?_, ?_⟩
  · intro fuel L hL
    have := linkList_congr FPrivSeg.nextforvert hold1 fuel _ L hL
    unfold linkList
    simp only [if_true, if_neg hne, bind_eq_ok, rd_eq_ok, pure_eq_ok]
    exact ⟨_, hnew, L, this, by rw [hn]⟩
  · intro fuel L hL
    have := linkList_congr FPrivSeg.nextforvert2 hold2 fuel _ L hL
    unfold linkList
    simp only [if_true, if_neg hne, bind_eq_ok, rd_eq_ok, pure_eq_ok]
    exact ⟨_, hnew, L, this, by rw [hn]⟩

/-- C6: on valid arguments (for a given partner: one whose endpoints mirror
`v1`, `v2`, as the assertion demands) `AddMiniseg` returns the number of segs
before the call and appends exactly one seg: `v1 -> v2`, no linedef, no
sidedef, both sectors `-1`, the given partner, the plane of `splitseg` or
`-1`; a given partner gets the new index as its partner and every other field
of every old seg is unchanged. -/
theorem AddMiniseg_appends_one (st : FNodeBuilder) (v1 v2 partner seg1 splitseg : Nat)
    (hseg1 : seg1 < st.Segs.length) (hv1 : v1 < st.Vertices.length)
    (hv2 : v2 < st.Vertices.length)
    (hsplit : splitseg = UINT_MAX ∨ splitseg < st.Segs.length)
    (hpartner : partner = UINT_MAX ∨
      ∃ p, st.Segs[partner]? = some p ∧ p.v1 = v2 ∧ p.v2 = v1) :
    ∃ st' s, AddMiniseg st v1 v2 partner seg1 splitseg = Except.ok (st.Segs.length, st') ∧
      st'.Segs.length = st.Segs.length + 1 ∧
      st'.Segs[st.Segs.length]? = some s ∧
      s.v1 = v1 ∧ s.v2 = v2 ∧ s.linedef = NO_INDEX ∧ s.sidedef = NO_INDEX ∧
      s.frontsector = -1 ∧ s.backsector = -1 ∧ s.partner = partner ∧
      (splitseg = UINT_MAX → s.planenum = -1) ∧
      (∀ ss, splitseg ≠ UINT_MAX → st.Segs[splitseg]? = some ss → s.planenum = ss.planenum) ∧
      (∀ i o, st.Segs[i]? = some o → st'.Segs[i]? =
        some (if partner ≠ UINT_MAX ∧ i = partner then { o with partner := st.Segs.length }
          else o)) := by
  obtain ⟨st', h⟩ := AddMiniseg_returns hseg1 hv1 hv2 hsplit hpartner
  obtain ⟨seg, vert1, vert2, planenum, hseg, hvv1, hvv2, hpl1, hpl2, -, hnew⟩ := AddMiniseg_new h
  refine ⟨st', _, h, AddMiniseg_length h, hnew, rfl, rfl, rfl, rfl, rfl, rfl, rfl, ?_, ?_, ?_⟩
  · intro hs
    exact hpl2 hs
  · intro ss hs hss
    obtain ⟨ss', hss', hp⟩ := hpl1 hs
    rw [hss] at hss'
    cases hss'
    exact hp
  · intro i o ho
    exact AddMiniseg_old h ho

/-! ## The loop checks -/

theorem linkList_mem_lt {link : FPrivSeg → Nat} {segs : List FPrivSeg} :
    ∀ (fuel head : Nat) (L : List Nat), linkList link segs fuel head = Except.ok L →
      ∀ t ∈ L, t < segs.length ∧ t ≠ UINT_MAX := by
  intro fuel
  induction fuel with
  | zero =>
    intro head L h t ht
    unfold linkList at h
    split at h
    · rw [pure_eq_ok] at h
      subst h
      simp at ht
    · cases h
  | succ fuel ih =>
    intro head L h t ht
    unfold linkList at h
    by_cases hu : head = UINT_MAX
    · rw [if_pos hu, pure_eq_ok] at h
      subst h
      simp at ht
    · rw [if_neg hu] at h
      simp only [bind_eq_ok, rd_eq_ok, pure_eq_ok] at h
      obtain ⟨s, hs, rest, hrest, hL⟩ := h
      subst hL
      rcases List.mem_cons.1 ht with rfl | ht
      · exact ⟨getElem?_lt_length hs, hu⟩
      · exact ih _ _ hrest t ht

theorem subU32_le_max (a b : Nat) : subU32 a b ≤ ANGLE_MAX := by
  unfold subU32 ANGLE_MAX
  omega

/-- The first loop of `CheckLoopStart` walks the list of ending segs and
keeps a seg that is not left out and whose difference is the least. -/
theorem startScan_spec (G : Geometry) (st : FNodeBuilder) (v : FPrivVert) (dx dy : Int)
    (sa : Nat) :
    ∀ (fuel segnum bestang bestseg A S : Nat),
      startScan G st v dx dy sa fuel segnum bestang bestseg = Except.ok (A, S) →
      ∃ L, linkList FPrivSeg.nextforvert2 st.Segs fuel segnum = Except.ok L ∧
        ((S = bestseg ∧ A = bestang ∧
            ∀ t ∈ L, ∀ (seg : FPrivSeg) (far : FPrivVert), st.Segs[t]? = some seg →
              st.Vertices[seg.v1]? = some far → ¬ startExcluded G v dx dy sa far →
              bestang < startDiff G sa v far) ∨
         (S ∈ L ∧ A ≤ bestang ∧
            (∃ (seg : FPrivSeg) (far : FPrivVert), st.Segs[S]? = some seg ∧
              st.Vertices[seg.v1]? = some far ∧ ¬ startExcluded G v dx dy sa far ∧
              startDiff G sa v far = A) ∧
            ∀ t ∈ L, ∀ (seg : FPrivSeg) (far : FPrivVert), st.Segs[t]? = some seg →
              st.Vertices[seg.v1]? = some far → ¬ startExcluded G v dx dy sa far →
              A ≤ startDiff G sa v far)) := by
  intro fuel
  induction fuel with
  | zero =>
    intro segnum bestang bestseg A S h
    unfold startScan at h
    split at h
    · rename_i hu
      rw [pure_eq_ok] at h
      cases h
      exact ⟨[], by simp [linkList, hu, pure, Except.pure], Or.inl ⟨rfl, rfl, by simp⟩⟩
    · cases h
  | succ fuel ih =>
    intro segnum bestang bestseg A S h
    unfold startScan at h
    by_cases hu : segnum = UINT_MAX
    · rw [if_pos hu, pure_eq_ok] at h
      cases h
      exact ⟨[], by simp [linkList, hu, pure, Except.pure], Or.inl ⟨rfl, rfl, by simp⟩⟩
    · rw [if_neg hu] at h
      simp only [bind_eq_ok, rd_eq_ok] at h
      obtain ⟨seg, hseg, far, hfar, h⟩ := h
      have hlist : ∀ L, linkList FPrivSeg.nextforvert2 st.Segs fuel seg.nextforvert2 =
          Except.ok L →
          linkList FPrivSeg.nextforvert2 st.Segs (fuel + 1) segnum = Except.ok (segnum :: L) := by
        intro L hL
        unfold linkList
        rw [if_neg hu]
        simp only [bind_eq_ok, rd_eq_ok, pure_eq_ok]
        exact ⟨seg, hseg, L, hL, rfl⟩
      have hsame : ∀ (seg' : FPrivSeg) (far' : FPrivVert), st.Segs[segnum]? = some seg' →
          st.Vertices[seg'.v1]? = some far' → far' = far := by
        intro seg' far' h1 h2
        rw [hseg] at h1
        cases h1
        rw [hfar] at h2
        cases h2
        rfl
      by_cases hex : startDiff G sa v far < G.ANGLE_EPSILON ∧
          G.PointOnSide far.x far.y v.x v.y dx dy = 0
      · rw [if_pos hex] at h
        obtain ⟨L, hL, hcase⟩ := ih _ _ _ _ _ h
        refine ⟨segnum :: L, hlist L hL, ?_⟩
        rcases hcase with ⟨h1, h2, h3⟩ | ⟨h1, h2, h3, h4⟩
        · refine Or.inl ⟨h1, h2, ?_⟩
          intro t ht seg' far' hs' hf' hne
          rcases List.mem_cons.1 ht with rfl | ht
          · exact absurd (hsame seg' far' hs' hf' ▸ hex) hne
          · exact h3 t ht seg' far' hs' hf' hne
        · refine Or.inr ⟨List.mem_cons_of_mem _ h1, h2, h3, ?_⟩
          intro t ht seg' far' hs' hf' hne
          rcases List.mem_cons.1 ht with rfl | ht
          · exact absurd (hsame seg' far' hs' hf' ▸ hex) hne
          · exact h4 t ht seg' far' hs' hf' hne
      · rw [if_neg hex] at h
        by_cases hle : startDiff G sa v far ≤ bestang
        · rw [if_pos hle] at h
          obtain ⟨L, hL, hcase⟩ := ih _ _ _ _ _ h
          refine ⟨segnum :: L, hlist L hL, Or.inr ?_⟩
          rcases hcase with ⟨h1, h2, h3⟩ | ⟨h1, h2, h3, h4⟩
          · subst h1 h2
            refine ⟨List.mem_cons_self _ _, hle, ⟨seg, far, hseg, hfar, hex, rfl⟩, ?_⟩
            intro t ht seg' far' hs' hf' hne
            rcases List.mem_cons.1 ht with rfl | ht
            · rw [hsame seg' far' hs' hf']
            · exact Nat.le_of_lt (h3 t ht seg' far' hs' hf' hne)
          · refine ⟨List.mem_cons_of_mem _ h1, Nat.le_trans h2 hle, h3, ?_⟩
            intro t ht seg' far' hs' hf' hne
            rcases List.mem_cons.1 ht with rfl | ht
            · rw [hsame seg' far' hs' hf']
              exact h2
            · exact h4 t ht seg' far' hs' hf' hne
        · rw [if_neg hle] at h
          obtain ⟨L, hL, hcase⟩ := ih _ _ _ _ _ h
          refine ⟨segnum :: L, hlist L hL, ?_⟩
          rcases hcase with ⟨h1, h2, h3⟩ | ⟨h1, h2, h3, h4⟩
          · refine Or.inl ⟨h1, h2, ?_⟩
            intro t ht seg' far' hs' hf' hne
            rcases List.mem_cons.1 ht with rfl | ht
            · rw [hsame seg' far' hs' hf']
              exact Nat.lt_of_not_le hle
            · exact h3 t ht seg' far' hs' hf' hne
          · refine Or.inr ⟨List.mem_cons_of_mem _ h1, h2, h3, ?_⟩
            intro t ht seg' far' hs' hf' hne
            rcases List.mem_cons.1 ht with rfl | ht
            · rw [hsame seg' far' hs' hf']
              exact Nat.le_trans h2 (Nat.le_of_lt (Nat.lt_of_not_le hle))
            · exact h4 t ht seg' far' hs' hf' hne

/-- The second loop of `CheckLoopStart` returns the best seg or nothing. -/
theorem startVerify_result (G : Geometry) (st : FNodeBuilder) (v : FPrivVert)
    (vertex2 sa bestang bestseg : Nat) :
    ∀ (fuel segnum r : Nat),
      startVerify G st v vertex2 sa bestang bestseg fuel segnum = Except.ok r →
      r = bestseg ∨ r = UINT_MAX := by
  intro fuel
  induction fuel with
  | zero =>
    intro segnum r h
    unfold startVerify at h
    split at h
    · exact Or.inl (pure_eq_ok.1 h).symm
    · cases h
  | succ fuel ih =>
    intro segnum r h
    unfold startVerify at h
    split at h
    · exact Or.inl (pure_eq_ok.1 h).symm
    · simp only [bind_eq_ok, rd_eq_ok] at h
      obtain ⟨seg, hseg, h⟩ := h
      split at h
      · exact Or.inr (pure_eq_ok.1 h).symm
      · simp only [bind_eq_ok, rd_eq_ok] at h
        obtain ⟨far, hfar, h⟩ := h
        split at h
        · exact Or.inr (pure_eq_ok.1 h).symm
        · exact ih _ _ h

/-- What a seg returned by `CheckLoopStart` satisfies. -/
theorem CheckLoopStart_spec {G : Geometry} {st : FNodeBuilder} {dx dy : Int}
    {vertex vertex2 s : Nat}
    (h : CheckLoopStart G st dx dy vertex vertex2 = Except.ok s) (hs : s ≠ UINT_MAX) :
    ∃ (v : FPrivVert) (L : List Nat) (seg : FPrivSeg) (far : FPrivVert),
      st.Vertices[vertex]? = some v ∧
      linkList FPrivSeg.nextforvert2 st.Segs st.Segs.length v.segs2 = Except.ok L ∧
      s ∈ L ∧ st.Segs[s]? = some seg ∧ st.Vertices[seg.v1]? = some far ∧
      ¬ startExcluded G v dx dy (pointToAngle G dx dy) far ∧
      ∀ t ∈ L, ∀ (seg' : FPrivSeg) (far' : FPrivVert), st.Segs[t]? = some seg' →
        st.Vertices[seg'.v1]? = some far' →
        ¬ startExcluded G v dx dy (pointToAngle G dx dy) far' →
        startDiff G (pointToAngle G dx dy) v far ≤ startDiff G (pointToAngle G dx dy) v far' := by
  simp only [CheckLoopStart, bind_eq_ok, rd_eq_ok] at h
  obtain ⟨v, hv, ⟨A, S⟩, hscan, h⟩ := h
  obtain ⟨L, hL, hcase⟩ := startScan_spec G st v dx dy _ _ _ _ _ _ _ hscan
  simp only at h
  by_cases hS : S = UINT_MAX
  · rw [if_pos hS, pure_eq_ok] at h
    exact absurd h.symm hs
  · rw [if_neg hS] at h
    have hr := startVerify_result G st v vertex2 _ _ _ _ _ _ h
    rcases hr with rfl | hr
    · rcases hcase with ⟨h1, -, -⟩ | ⟨h1, -, ⟨seg, far, hseg, hfar, hne, hd⟩, h4⟩
      · exact absurd h1 hS
      · refine ⟨v, L, seg, far, hv, hL, h1, hseg, hfar, hne, ?_⟩
        intro t ht seg' far' hs' hf' hne'
        rw [hd]
        exact h4 t ht seg' far' hs' hf' hne'
    · exact absurd hr hs
theorem CheckLoopStart_lt {G : Geometry} {st : FNodeBuilder} {dx dy : Int}
    {vertex vertex2 s : Nat}
    (h : CheckLoopStart G st dx dy vertex vertex2 = Except.ok s) (hs : s ≠ UINT_MAX) :
    s < st.Segs.length ∧ vertex < st.Vertices.length := by
  obtain ⟨v, L, seg, far, hv, -, -, hseg, -⟩ := CheckLoopStart_spec h hs
  exact ⟨getElem?_lt_length hseg, getElem?_lt_length hv⟩

/-- The first loop of `CheckLoopEnd` keeps the seg it was given or one of the
arena. -/
theorem endScan_result (G : Geometry) (st : FNodeBuilder) (v : FPrivVert) (dx dy : Int)
    (sa : Nat) :
    ∀ (fuel segnum bestang bestseg A S : Nat),
      endScan G st v dx dy sa fuel segnum bestang bestseg = Except.ok (A, S) →
      S = bestseg ∨ S < st.Segs.length := by
  intro fuel
  induction fuel with
  | zero =>
    intro segnum bestang bestseg A S h
    unfold endScan at h
    split at h
    · rw [pure_eq_ok] at h
      cases h
      exact Or.inl rfl
    · cases h
  | succ fuel ih =>
    intro segnum bestang bestseg A S h
    unfold endScan at h
    split at h
    · rw [pure_eq_ok] at h
      cases h
      exact Or.inl rfl
    · simp only [bind_eq_ok, rd_eq_ok] at h
      obtain ⟨seg, hseg, far, hfar, onS, honS, h⟩ := h
      split at h
      · exact ih _ _ _ _ _ h
      · split at h
        · rcases ih _ _ _ _ _ h with h1 | h1
          · exact Or.inr (h1 ▸ getElem?_lt_length hseg)
          · exact Or.inr h1
        · exact ih _ _ _ _ _ h

/-- The second loop of `CheckLoopEnd` returns the best seg or nothing. -/
theorem endVerify_result (G : Geometry) (st : FNodeBuilder) (v : FPrivVert)
    (sa bestang bestseg : Nat) :
    ∀ (fuel segnum r : Nat),
      endVerify G st v sa bestang bestseg fuel segnum = Except.ok r →
      r = bestseg ∨ r = UINT_MAX := by
  intro fuel
  induction fuel with
  | zero =>
    intro segnum r h
    unfold endVerify at h
    split at h
    · exact Or.inl (pure_eq_ok.1 h).symm
    · cases h
  | succ fuel ih =>
    intro segnum r h
    unfold endVerify at h
    split at h
    · exact Or.inl (pure_eq_ok.1 h).symm
    · simp only [bind_eq_ok, rd_eq_ok] at h
      obtain ⟨seg, hseg, far, hfar, h⟩ := h
      split at h
      · exact Or.inr (pure_eq_ok.1 h).symm
      · exact ih _ _ h

theorem CheckLoopEnd_lt {G : Geometry} {st : FNodeBuilder} {dx dy : Int} {vertex s : Nat}
    (h : CheckLoopEnd G st dx dy vertex = Except.ok s) (hs : s ≠ UINT_MAX) :
    s < st.Segs.length ∧ vertex < st.Vertices.length := by
  simp only [CheckLoopEnd, bind_eq_ok, rd_eq_ok] at h
  obtain ⟨v, hv, ⟨A, S⟩, hscan, h⟩ := h
  simp only at h
  by_cases hS : S = UINT_MAX
  · rw [if_pos hS, pure_eq_ok] at h
    exact absurd h.symm hs
  · rw [if_neg hS] at h
    rcases endVerify_result G st v _ _ _ _ _ _ h with rfl | hr
    · rcases endScan_result G st v dx dy _ _ _ _ _ _ _ hscan with h1 | h1
      · exact absurd h1 hS
      · exact ⟨h1, getElem?_lt_length hv⟩
    · exact absurd hr hs
/-- C10: a seg `s` returned by `CheckLoopStart` is in the list of segs ending
at `vertex`, is not left out as lying on the splitter, and its angular
difference `(splitAngle - segAngle) mod 2^32` is at most that of every seg of
the list that is not left out. -/
theorem CheckLoopStart_returns_least (G : Geometry) (st : FNodeBuilder) (dx dy : Int)
    (vertex vertex2 s : Nat)
    (h : CheckLoopStart G st dx dy vertex vertex2 = Except.ok s) (hs : s ≠ UINT_MAX) :
    ∃ (v : FPrivVert) (L : List Nat) (seg : FPrivSeg) (far : FPrivVert),
      st.Vertices[vertex]? = some v ∧
      linkList FPrivSeg.nextforvert2 st.Segs st.Segs.length v.segs2 = Except.ok L ∧
      s ∈ L ∧ st.Segs[s]? = some seg ∧ st.Vertices[seg.v1]? = some far ∧
      ¬ startExcluded G v dx dy (pointToAngle G dx dy) far ∧
      ∀ t ∈ L, ∀ (seg' : FPrivSeg) (far' : FPrivVert), st.Segs[t]? = some seg' →
        st.Vertices[seg'.v1]? = some far' →
        ¬ startExcluded G v dx dy (pointToAngle G dx dy) far' →
        startDiff G (pointToAngle G dx dy) v far ≤ startDiff G (pointToAngle G dx dy) v far' :=
  CheckLoopStart_spec h hs

theorem ok_bind {α β : Type} (a : α) (f : α → Except Fault β) :
    (Except.ok a >>= f) = f a := rfl

theorem set_snoc_two_fst {α : Type} (l : List α) (a b c : α) :
    (l ++ [a, b]).set l.length c = l ++ [c, b] := by
  induction l with
  | nil => rfl
  | cons x xs ih => simp [ih]

theorem set_snoc_two_snd {α : Type} (l : List α) (a b c : α) :
    (l ++ [a, b]).set (l.length + 1) c = l ++ [a, c] := by
  induction l with
  | nil => rfl
  | cons x xs ih => simp [ih]

theorem set_snoc_one {α : Type} (l : List α) (a c : α) :
    (l ++ [a]).set l.length c = l ++ [c] := by
  induction l with
  | nil => rfl
  | cons x xs ih => simp [ih]

theorem getElem?_snoc_two_fst {α : Type} (l : List α) (a b : α) :
    (l ++ [a, b])[l.length]? = some a := by
  rw [List.getElem?_append_right (Nat.le_refl _), Nat.sub_self]
  rfl

theorem getElem?_snoc_two_snd {α : Type} (l : List α) (a b : α) :
    (l ++ [a, b])[l.length + 1]? = some b := by
  rw [List.getElem?_append_right (Nat.le_succ _)]
  have : l.length + 1 - l.length = 1 := by omega
  rw [this]
  rfl

theorem getElem?_snoc_one {α : Type} (l : List α) (a : α) :
    (l ++ [a])[l.length]? = some a := by
  rw [List.getElem?_append_right (Nat.le_refl _), Nat.sub_self]
  rfl
/-! ## `AddMinisegs` -/

/-- What the statements run after four passing checks do to the state: two
segs are pushed, nothing else changes in the seg arena. -/
theorem addMinisegPair_inv {st st' : FNodeBuilder} {splitseg : Nat} {prev event : FEvent}
    {f1 b1 fset bset fn bn : Nat} {f1s b1s : FPrivSeg}
    (h : addMinisegPair st splitseg prev event f1 b1 fset bset = Except.ok (st', fn, bn))
    (hf1 : st.Segs[f1]? = some f1s) (hb1 : st.Segs[b1]? = some b1s) :
    fn = st.Segs.length ∧ bn = st.Segs.length + 1 ∧
    ∃ F B : FPrivSeg, st'.Segs = st.Segs ++ [F, B] ∧
      F.v1 = prev.Info.Vertex ∧ F.v2 = event.Info.Vertex ∧
      B.v1 = event.Info.Vertex ∧ B.v2 = prev.Info.Vertex ∧
      F.partner = (if st.Segs.length = UINT_MAX then UINT_MAX else st.Segs.length + 1) ∧
      B.partner = st.Segs.length ∧
      F.next = fset ∧ B.next = bset ∧
      F.frontsector = f1s.frontsector ∧ F.backsector = b1s.frontsector ∧
      B.frontsector = b1s.frontsector ∧ B.backsector = f1s.frontsector ∧
      st'.Events = st.Events ∧ st'.SplitSharers = st.SplitSharers ∧
      st'.Vertices.length = st.Vertices.length := by
  simp only [addMinisegPair, bind_eq_ok, rd_eq_ok, wr_eq_ok, pure_eq_ok] at h
  obtain ⟨⟨fn', st1⟩, hA1, segs2, ⟨a2, ha2, hsegs2⟩, ⟨bn', st3⟩, hA2, segs4, ⟨a4, ha4, hsegs4⟩,
    f1r, hf1r, b1r, hb1r, segs5, ⟨a5, ha5, hsegs5⟩, segs6, ⟨a6, ha6, hsegs6⟩,
    segs7, ⟨a7, ha7, hsegs7⟩, segs8, ⟨a8, ha8, hsegs8⟩, h⟩ := h
  simp only [Prod.mk.injEq] at h
  obtain ⟨hst, hfn, hbn⟩ := h
  simp only at hA1 ha2 hsegs2 hA2 ha4 hsegs4 ha5 hsegs5 ha6 hsegs6 ha7 hsegs7 ha8 hsegs8
  -- first miniseg
  obtain ⟨seg, vert1, vert2, pl, -, -, -, -, -, -, hp2, hn1, -, hev1, hsh1⟩ := AddMiniseg_inv hA1
  have hS1 := hp2 rfl
  have hVl1 := AddMiniseg_vertices_length hA1
  subst hn1
  rw [hS1, getElem?_snoc_one] at ha2
  cases ha2
  rw [hS1, set_snoc_one] at hsegs2
  have hR : ∃ R : FPrivSeg, segs2 = st.Segs ++ [R] ∧ R.v1 = prev.Info.Vertex ∧
      R.v2 = event.Info.Vertex ∧ R.next = fset ∧ R.partner = UINT_MAX :=
    ⟨_, hsegs2.symm, rfl, rfl, rfl, rfl⟩
  clear hsegs2
  obtain ⟨R, hsegs2, hR1, hR2, hR3, hR4⟩ := hR
  subst hsegs2
  -- second miniseg
  obtain ⟨seg', vert1', vert2', pl', -, -, -, -, -, hq1, hq2, hn2, -, hev2, hsh2⟩ :=
    AddMiniseg_inv hA2
  have hVl2 := AddMiniseg_vertices_length hA2
  have hlen2 : (st.Segs ++ [R]).length = st.Segs.length + 1 := by simp
  simp only [hlen2] at hq1 hq2 hn2 hev2 hsh2 hVl2
  subst hn2
  have hS3 : ∃ F0 B0 : FPrivSeg, st3.Segs = st.Segs ++ [F0, B0] ∧
      F0.v1 = prev.Info.Vertex ∧ F0.v2 = event.Info.Vertex ∧
      B0.v1 = event.Info.Vertex ∧ B0.v2 = prev.Info.Vertex ∧
      F0.partner = (if st.Segs.length = UINT_MAX then UINT_MAX else st.Segs.length + 1) ∧
      B0.partner = st.Segs.length ∧ F0.next = fset := by
    by_cases hu : st.Segs.length = UINT_MAX
    · refine ⟨R, (minisegRecord event.Info.Vertex prev.Info.Vertex st.Segs.length seg'.next
        vert1'.segs vert2'.segs2 pl'), ?_, hR1, hR2, ?_, ?_, ?_, ?_, hR3⟩
      · rw [hq2 hu]
        simp only [List.append_assoc, List.singleton_append]
      · rfl
      · rfl
      · rw [if_pos hu]
        exact hR4
      · rfl
    · obtain ⟨p, hp, -, -, hs3⟩ := hq1 hu
      rw [getElem?_snoc_one] at hp
      cases hp
      refine ⟨{ R with partner := st.Segs.length + 1 }, (minisegRecord event.Info.Vertex prev.Info.Vertex st.Segs.length seg'.next
        vert1'.segs vert2'.segs2 pl'), ?_, hR1, hR2, ?_, ?_, ?_, ?_, hR3⟩
      · rw [hs3, set_snoc_one]
        simp only [List.append_assoc, List.singleton_append]
      · rfl
      · rfl
      · rw [if_neg hu]
      · rfl
  obtain ⟨F0, B0, hS3, hF1, hF2, hB1, hB2, hFp, hBp, hFn⟩ := hS3
  rw [hS3, getElem?_snoc_two_snd] at ha4
  cases ha4
  rw [hS3, set_snoc_two_snd] at hsegs4
  subst hsegs4
  have hf1lt := getElem?_lt_length hf1
  have hb1lt := getElem?_lt_length hb1
  rw [List.getElem?_append_left hf1lt, hf1] at hf1r
  rw [List.getElem?_append_left hb1lt, hb1] at hb1r
  cases hf1r
  cases hb1r
  rw [getElem?_snoc_two_fst] at ha5
  cases ha5
  rw [set_snoc_two_fst] at hsegs5
  subst hsegs5
  rw [getElem?_snoc_two_fst] at ha6
  cases ha6
  rw [set_snoc_two_fst] at hsegs6
  subst hsegs6
  rw [getElem?_snoc_two_snd] at ha7
  cases ha7
  rw [set_snoc_two_snd] at hsegs7
  subst hsegs7
  rw [getElem?_snoc_two_snd] at ha8
  cases ha8
  rw [set_snoc_two_snd] at hsegs8
  subst hsegs8
  subst hst
  refine ⟨hfn.symm, hbn.symm, _, _, rfl, hF1, hF2, hB1, hB2, hFp, hBp, hFn,
    rfl, rfl, rfl, rfl, rfl, ?_, ?_, ?_⟩
  · show st3.Events = st.Events
    rw [hev2]
    exact hev1
  · show st3.SplitSharers = st.SplitSharers
    rw [hsh2]
    exact hsh1
  · show st3.Vertices.length = st.Vertices.length
    rw [hVl2]
    exact hVl1
theorem exists_ok_bind {α β : Type} {x : Except Fault α} {f : α → Except Fault β} :
    (∃ b, (x >>= f) = Except.ok b) ↔ ∃ a, x = Except.ok a ∧ ∃ b, f a = Except.ok b := by
  constructor
  · rintro ⟨b, hb⟩
    obtain ⟨a, ha, hf⟩ := bind_eq_ok.1 hb
    exact ⟨a, ha, b, hf⟩
  · rintro ⟨a, ha, b, hf⟩
    exact ⟨b, bind_eq_ok.2 ⟨a, ha, hf⟩⟩

theorem wr_returns {α : Type} {arr : List α} {i : Nat} (f : α → α) (h : i < arr.length) :
    wr arr i f = Except.ok (arr.set i (f arr[i])) := by
  unfold wr
  rw [List.getElem?_eq_getElem h]

theorem rd_returns {α : Type} {arr : List α} {i : Nat} (h : i < arr.length) :
    rd arr i = Except.ok arr[i] := by
  unfold rd
  rw [List.getElem?_eq_getElem h]

/-- The statements run after four passing checks go through when the segs
found and the two event vertices are in range. -/
theorem addMinisegPair_returns {st : FNodeBuilder} {splitseg : Nat} {prev event : FEvent}
    {f1 b1 : Nat} (fset bset : Nat)
    (hf1 : f1 < st.Segs.length) (hb1 : b1 < st.Segs.length)
    (hp : prev.Info.Vertex < st.Vertices.length) (hc : event.Info.Vertex < st.Vertices.length)
    (hsplit : splitseg = UINT_MAX ∨ splitseg < st.Segs.length) :
    ∃ st', addMinisegPair st splitseg prev event f1 b1 fset bset =
      Except.ok (st', st.Segs.length, st.Segs.length + 1) := by
  have hex : ∃ r, addMinisegPair st splitseg prev event f1 b1 fset bset = Except.ok r := by
    obtain ⟨st1, hA1⟩ := @AddMiniseg_returns st _ _ UINT_MAX _ _ hf1 hp hc hsplit
      (Or.inl rfl)
    have hl1 := AddMiniseg_length hA1
    have hv1 := AddMiniseg_vertices_length hA1
    obtain ⟨seg, vert1, vert2, pl, -, -, -, -, -, -, hnew⟩ := AddMiniseg_new hA1
    have hlt1 : st.Segs.length < st1.Segs.length := by omega
    have hget : st1.Segs[st.Segs.length] =
        minisegRecord prev.Info.Vertex event.Info.Vertex UINT_MAX seg.next vert1.segs
          vert2.segs2 pl := by
      have := List.getElem?_eq_getElem hlt1
      rw [hnew] at this
      exact (Option.some.inj this).symm
    have hw1 : ∃ segs2, wr st1.Segs st.Segs.length (fun s => { s with next := fset }) =
        Except.ok segs2 ∧ segs2.length = st.Segs.length + 1 ∧
        ∃ p : FPrivSeg, segs2[st.Segs.length]? = some p ∧ p.v1 = prev.Info.Vertex ∧
          p.v2 = event.Info.Vertex := by
      refine ⟨_, wr_returns _ hlt1, by simp only [List.length_set]; omega, _,
        List.getElem?_set_self hlt1, ?_, ?_⟩
      · rw [hget]
        rfl
      · rw [hget]
        rfl
    obtain ⟨segs2, hw1, hl2, hpar⟩ := hw1
    obtain ⟨st3, hA2⟩ := @AddMiniseg_returns { st1 with Segs := segs2 }
      event.Info.Vertex prev.Info.Vertex st.Segs.length b1 splitseg
      (by simp only; omega) (by simp only; omega) (by simp only; omega)
      (by
        simp only
        rcases hsplit with h | h
        · exact Or.inl h
        · exact Or.inr (by omega))
      (Or.inr hpar)
    have hl3 := AddMiniseg_length hA2
    simp only [hl2] at hl3 hA2
    have hlt3 : st.Segs.length + 1 < st3.Segs.length := by omega
    unfold addMinisegPair
    rw [hA1]
    simp only [ok_bind]
    rw [hw1]
    simp only [ok_bind]
    rw [hA2]
    simp only [ok_bind]
    rw [wr_returns _ hlt3]
    simp only [ok_bind]
    rw [rd_returns (by simp only [List.length_set]; omega)]
    simp only [ok_bind]
    rw [rd_returns (by simp only [List.length_set]; omega)]
    simp only [ok_bind]
    rw [wr_returns _ (by simp only [List.length_set]; omega)]
    simp only [ok_bind]
    rw [wr_returns _ (by simp only [List.length_set]; omega)]
    simp only [ok_bind]
    rw [wr_returns _ (by simp only [List.length_set]; omega)]
    simp only [ok_bind]
    rw [wr_returns _ (by simp only [List.length_set]; omega)]
    exact ⟨_, rfl⟩
  obtain ⟨⟨st', fn, bn⟩, h⟩ := hex
  obtain ⟨hfn, hbn, -⟩ := addMinisegPair_inv h (List.getElem?_eq_getElem hf1)
    (List.getElem?_eq_getElem hb1)
  subst hfn hbn
  exact ⟨st', h⟩

theorem minisegChecks_some {G : Geometry} {st : FNodeBuilder} {node : NodeFxp}
    {prev event : FEvent} {f1 b1 : Nat} :
    minisegChecks G st node prev event = Except.ok (some (f1, b1)) ↔
      fourChecksPass G st node prev event f1 b1 := by
  unfold minisegChecks fourChecksPass
  constructor
  · intro h
    simp only [bind_eq_ok] at h
    obtain ⟨x1, h1, h⟩ := h
    split at h
    · simp [pure_eq_ok] at h
    rename_i n1
    simp only [bind_eq_ok] at h
    obtain ⟨x2, h2, h⟩ := h
    split at h
    · simp [pure_eq_ok] at h
    rename_i n2
    simp only [bind_eq_ok] at h
    obtain ⟨x3, h3, h⟩ := h
    split at h
    · simp [pure_eq_ok] at h
    rename_i n3
    simp only [bind_eq_ok] at h
    obtain ⟨x4, h4, h⟩ := h
    split at h
    · simp [pure_eq_ok] at h
    rename_i n4
    simp only [pure_eq_ok, Option.some.injEq, Prod.mk.injEq] at h
    obtain ⟨rfl, rfl⟩ := h
    exact ⟨h1, n1, h2, n2, ⟨x3, h3, n3⟩, ⟨x4, h4, n4⟩⟩
  · rintro ⟨h1, n1, h2, n2, ⟨x3, h3, n3⟩, ⟨x4, h4, n4⟩⟩
    rw [h1, ok_bind, if_neg n1, h2, ok_bind, if_neg n2, h3, ok_bind, if_neg n3, h4, ok_bind,
      if_neg n4]
    rfl

theorem minisegChecks_none {G : Geometry} {st : FNodeBuilder} {node : NodeFxp}
    {prev event : FEvent} :
    minisegChecks G st node prev event = Except.ok none ↔
      firstCheckNone G st node prev event := by
  unfold minisegChecks firstCheckNone
  constructor
  · intro h
    simp only [bind_eq_ok] at h
    obtain ⟨x1, h1, h⟩ := h
    split at h
    · rename_i e1
      exact Or.inl (e1 ▸ h1)
    rename_i n1
    refine Or.inr ⟨x1, h1, n1, ?_⟩
    simp only [bind_eq_ok] at h
    obtain ⟨x2, h2, h⟩ := h
    split at h
    · rename_i e2
      exact Or.inl (e2 ▸ h2)
    rename_i n2
    refine Or.inr ⟨x2, h2, n2, ?_⟩
    simp only [bind_eq_ok] at h
    obtain ⟨x3, h3, h⟩ := h
    split at h
    · rename_i e3
      exact Or.inl (e3 ▸ h3)
    rename_i n3
    refine Or.inr ⟨x3, h3, n3, ?_⟩
    simp only [bind_eq_ok] at h
    obtain ⟨x4, h4, h⟩ := h
    split at h
    · rename_i e4
      exact e4 ▸ h4
    · simp [pure_eq_ok] at h
  · rintro (h1 | ⟨x1, h1, n1, h⟩)
    · rw [h1, ok_bind, if_pos rfl]
      rfl
    rw [h1, ok_bind, if_neg n1]
    rcases h with h2 | ⟨x2, h2, n2, h⟩
    · rw [h2, ok_bind, if_pos rfl]
      rfl
    rw [h2, ok_bind, if_neg n2]
    rcases h with h3 | ⟨x3, h3, n3, h4⟩
    · rw [h3, ok_bind, if_pos rfl]
      rfl
    rw [h3, ok_bind, if_neg n3, h4, ok_bind, if_pos rfl]
    rfl

theorem firstCheckNone_someCheckNone {G : Geometry} {st : FNodeBuilder} {node : NodeFxp}
    {prev event : FEvent} (h : firstCheckNone G st node prev event) :
    someCheckNone G st node prev event := by
  unfold firstCheckNone at h
  unfold someCheckNone
  rcases h with h | ⟨_, _, _, h | ⟨_, _, _, h | ⟨_, _, _, h⟩⟩⟩
  · exact Or.inl h
  · exact Or.inr (Or.inl h)
  · exact Or.inr (Or.inr (Or.inl h))
  · exact Or.inr (Or.inr (Or.inr h))

theorem fourChecksPass_not_someCheckNone {G : Geometry} {st : FNodeBuilder} {node : NodeFxp}
    {prev event : FEvent} {f1 b1 : Nat} (h : fourChecksPass G st node prev event f1 b1) :
    ¬ someCheckNone G st node prev event := by
  obtain ⟨h1, n1, h2, n2, ⟨x3, h3, n3⟩, ⟨x4, h4, n4⟩⟩ := h
  unfold someCheckNone
  rw [h1, h2, h3, h4]
  simp only [Except.ok.injEq]
  omega

/-- The step of `AddMinisegs` for one adjacent pair either changes nothing
or pushes the two minisegs. -/
theorem minisegStep_cases {G : Geometry} {st st' : FNodeBuilder} {node : NodeFxp}
    {splitseg : Nat} {prev event : FEvent} {fset bset fset' bset' : Nat}
    (h : minisegStep G st node splitseg prev event fset bset = Except.ok (st', fset', bset')) :
    (firstCheckNone G st node prev event ∧ st' = st ∧ fset' = fset ∧ bset' = bset) ∨
    (∃ f1 b1, fourChecksPass G st node prev event f1 b1 ∧
      addMinisegPair st splitseg prev event f1 b1 fset bset = Except.ok (st', fset', bset')) := by
  unfold minisegStep at h
  simp only [bind_eq_ok] at h
  obtain ⟨c, hc, h⟩ := h
  cases c with
  | none =>
    simp only [pure_eq_ok, Prod.mk.injEq] at h
    obtain ⟨h1, h2, h3⟩ := h
    exact Or.inl ⟨minisegChecks_none.1 hc, h1.symm, h2.symm, h3.symm⟩
  | some fb =>
    obtain ⟨f1, b1⟩ := fb
    exact Or.inr ⟨f1, b1, minisegChecks_some.1 hc, h⟩

theorem flatPairs_length (ps : List (FPrivSeg × FPrivSeg)) :
    (flatPairs ps).length = 2 * ps.length := by
  induction ps with
  | nil => rfl
  | cons p ps ih =>
    obtain ⟨F, B⟩ := p
    simp only [flatPairs, List.length_cons, ih]
    omega

theorem PairsFrom_cons (e : FEvent) (evs : List FEvent) :
    ∀ (ps : List (FPrivSeg × FPrivSeg)) (n fset bset fset' bset' : Nat),
      PairsFrom evs n fset bset ps fset' bset' →
      PairsFrom (e :: evs) n fset bset ps fset' bset' := by
  intro ps
  induction ps with
  | nil =>
    intro n fset bset fset' bset' h
    exact h
  | cons p ps ih =>
    intro n fset bset fset' bset' h
    obtain ⟨F, B⟩ := p
    obtain ⟨h1, h2, h3, h4, ⟨i, p, c, hp, hc, hv⟩, h6⟩ := h
    exact ⟨h1, h2, h3, h4, ⟨i + 1, p, c, by simpa using hp, by simpa using hc, hv⟩,
      ih _ _ _ _ _ h6⟩

/-- The walk of `AddMinisegs` pushes pairs and changes nothing else in the
seg arena; events and split sharers stay. -/
theorem minisegWalk_pairs (G : Geometry) (node : NodeFxp) (splitseg : Nat) :
    ∀ (evs : List FEvent) (prev : FEvent) (st : FNodeBuilder) (fset bset : Nat)
      (st' : FNodeBuilder) (fset' bset' : Nat),
      minisegWalk G node splitseg prev evs st fset bset = Except.ok (st', fset', bset') →
      ∃ ps, st'.Segs = st.Segs ++ flatPairs ps ∧
        PairsFrom (prev :: evs) st.Segs.length fset bset ps fset' bset' ∧
        st'.Events = st.Events ∧ st'.SplitSharers = st.SplitSharers ∧
        st'.Vertices.length = st.Vertices.length := by
  intro evs
  induction evs with
  | nil =>
    intro prev st fset bset st' fset' bset' h
    simp only [minisegWalk, pure_eq_ok, Prod.mk.injEq] at h
    obtain ⟨rfl, rfl, rfl⟩ := h
    exact ⟨[], by simp [flatPairs], ⟨rfl, rfl⟩, rfl, rfl, rfl⟩
  | cons event rest ih =>
    intro prev st fset bset st' fset' bset' h
    simp only [minisegWalk, bind_eq_ok] at h
    obtain ⟨⟨st1, fset1, bset1⟩, hstep, h⟩ := h
    simp only at h
    obtain ⟨ps, hsegs, hps, hev, hsh, hvl⟩ := ih event st1 fset1 bset1 st' fset' bset' h
    rcases minisegStep_cases hstep with ⟨-, rfl, rfl, rfl⟩ | ⟨f1, b1, hpass, hpair⟩
    · exact ⟨ps, hsegs, PairsFrom_cons prev _ _ _ _ _ _ _ hps, hev, hsh, hvl⟩
    · obtain ⟨hl1, -⟩ := CheckLoopStart_lt hpass.1 hpass.2.1
      obtain ⟨hl2, -⟩ := CheckLoopStart_lt hpass.2.2.1 hpass.2.2.2.1
      obtain ⟨hfn, hbn, F, B, hS, hF1, hF2, hB1, hB2, hFp, hBp, hFn, hBn, -, -, -, -,
        hev1, hsh1, hvl1⟩ :=
        addMinisegPair_inv hpair (List.getElem?_eq_getElem hl1) (List.getElem?_eq_getElem hl2)
      subst hfn hbn
      refine ⟨(F, B) :: ps, ?_, ?_, by rw [hev, hev1], by rw [hsh, hsh1], by rw [hvl, hvl1]⟩
      · rw [hsegs, hS]
        simp [flatPairs]
      · refine ⟨hFn, hBn, hFp, hBp, ⟨0, prev, event, rfl, by simp, hF1, hF2, hB1, hB2⟩, ?_⟩
        have hlen : st1.Segs.length = st.Segs.length + 2 := by
          rw [hS]
          simp
        rw [hlen] at hps
        exact PairsFrom_cons prev _ _ _ _ _ _ _ hps

theorem AddMinisegs_pairs {G : Geometry} {st st' : FNodeBuilder} {node : NodeFxp}
    {splitseg fset bset fset' bset' : Nat}
    (h : AddMinisegs G st node splitseg fset bset = Except.ok (st', fset', bset')) :
    ∃ ps, st'.Segs = st.Segs ++ flatPairs ps ∧
      PairsFrom st.Events st.Segs.length fset bset ps fset' bset' ∧
      st'.Events = st.Events ∧ st'.SplitSharers = st.SplitSharers ∧
      st'.Vertices.length = st.Vertices.length := by
  unfold AddMinisegs at h
  split at h
  · simp only [pure_eq_ok, Prod.mk.injEq] at h
    obtain ⟨rfl, rfl, rfl⟩ := h
    exact ⟨[], by simp [flatPairs], ⟨rfl, rfl⟩, rfl, rfl, rfl⟩
  · rename_i first rest hev
    obtain ⟨ps, h1, h2, h3, h4, h5⟩ :=
      minisegWalk_pairs G node splitseg rest first st fset bset st' fset' bset' h
    exact ⟨ps, h1, hev ▸ h2, h3, h4, h5⟩
theorem frontIndices_succ (n k : Nat) :
    frontIndices n (k + 1) = frontIndices (n + 2) k ++ [n] := by
  unfold frontIndices
  rw [List.range_succ_eq_map, List.reverse_cons, List.map_append, ← List.map_reverse,
    List.map_map]
  simp only [List.map_cons, List.map_nil, Nat.mul_zero, Nat.add_zero]
  congr 1
  apply List.map_congr_left
  intro j _
  simp only [Function.comp_apply, Nat.succ_eq_add_one]
  omega

theorem backIndices_succ (n k : Nat) :
    backIndices n (k + 1) = backIndices (n + 2) k ++ [n + 1] := by
  unfold backIndices
  rw [List.range_succ_eq_map, List.reverse_cons, List.map_append, ← List.map_reverse,
    List.map_map]
  simp only [List.map_cons, List.map_nil, Nat.mul_zero, Nat.add_zero]
  congr 1
  apply List.map_congr_left
  intro j _
  simp only [Function.comp_apply, Nat.succ_eq_add_one]
  omega

theorem linkList_extend (link : FPrivSeg → Nat) (base ext : List FPrivSeg) :
    ∀ (fuel head : Nat) (L : List Nat), linkList link base fuel head = Except.ok L →
      linkList link (base ++ ext) fuel head = Except.ok L := by
  apply linkList_congr
  intro i s hs
  exact ⟨s, by rw [List.getElem?_append_left (getElem?_lt_length hs), hs], rfl⟩

theorem linkList_step (link : FPrivSeg → Nat) {segs : List FPrivSeg} {i fuel : Nat}
    {s : FPrivSeg} {L : List Nat} (hi : i ≠ UINT_MAX) (hs : segs[i]? = some s)
    (hL : linkList link segs fuel (link s) = Except.ok L) :
    linkList link segs (fuel + 1) i = Except.ok (i :: L) := by
  unfold linkList
  rw [if_neg hi]
  simp only [bind_eq_ok, rd_eq_ok, pure_eq_ok]
  exact ⟨s, hs, L, hL, rfl⟩

/-- The pairs of a walk, by index. -/
theorem PairsFrom_get (evs : List FEvent) :
    ∀ (ps : List (FPrivSeg × FPrivSeg)) (base : List FPrivSeg) (fset bset fset' bset' : Nat),
      PairsFrom evs base.length fset bset ps fset' bset' →
      ∀ j, j < ps.length →
        ∃ (F B : FPrivSeg) (i : Nat) (p c : FEvent),
          (base ++ flatPairs ps)[base.length + 2 * j]? = some F ∧
          (base ++ flatPairs ps)[base.length + 2 * j + 1]? = some B ∧
          evs[i]? = some p ∧ evs[i + 1]? = some c ∧
          F.v1 = p.Info.Vertex ∧ F.v2 = c.Info.Vertex ∧
          B.v1 = c.Info.Vertex ∧ B.v2 = p.Info.Vertex ∧
          F.partner = (if base.length + 2 * j = UINT_MAX then UINT_MAX
            else base.length + 2 * j + 1) ∧
          B.partner = base.length + 2 * j := by
  intro ps
  induction ps with
  | nil =>
    intro base fset bset fset' bset' _ j hj
    simp at hj
  | cons q ps ih =>
    intro base fset bset fset' bset' h j hj
    obtain ⟨F, B⟩ := q
    obtain ⟨-, -, h3, h4, ⟨i, p, c, hp, hc, hv1, hv2, hv3, hv4⟩, h6⟩ := h
    have hsplit : base ++ flatPairs ((F, B) :: ps) = (base ++ [F, B]) ++ flatPairs ps := by
      simp [flatPairs]
    cases j with
    | zero =>
      refine ⟨F, B, i, p, c, ?_, ?_, hp, hc, hv1, hv2, hv3, hv4, h3, h4⟩
      · rw [hsplit, List.getElem?_append_left (by simp)]
        exact getElem?_snoc_two_fst base F B
      · rw [hsplit, List.getElem?_append_left (by simp)]
        exact getElem?_snoc_two_snd base F B
    | succ j =>
      have hlen : (base ++ [F, B]).length = base.length + 2 := by simp
      rw [← hlen] at h6
      obtain ⟨F', B', i', p', c', g1, g2, g3, g4, g5, g6, g7, g8, g9, g10⟩ :=
        ih (base ++ [F, B]) _ _ _ _ h6 j (by simpa using hj)
      have e1 : base.length + 2 * (j + 1) = (base ++ [F, B]).length + 2 * j := by
        rw [hlen]
        omega
      rw [hsplit, e1]
      exact ⟨F', B', i', p', c', g1, g2, g3, g4, g5, g6, g7, g8, g9, g10⟩

/-- The chains of a walk: the new heads lead through the new segs, last
created first, into the old chains. -/
theorem PairsFrom_chain (evs : List FEvent) :
    ∀ (ps : List (FPrivSeg × FPrivSeg)) (base : List FPrivSeg) (fset bset fset' bset' : Nat),
      (base ++ flatPairs ps).length ≤ UINT_MAX →
      PairsFrom evs base.length fset bset ps fset' bset' →
      (∀ fuel L, linkList FPrivSeg.next base fuel fset = Except.ok L →
        linkList FPrivSeg.next (base ++ flatPairs ps) (fuel + ps.length) fset' =
          Except.ok (frontIndices base.length ps.length ++ L)) ∧
      (∀ fuel L, linkList FPrivSeg.next base fuel bset = Except.ok L →
        linkList FPrivSeg.next (base ++ flatPairs ps) (fuel + ps.length) bset' =
          Except.ok (backIndices base.length ps.length ++ L)) := by
  intro ps
  induction ps with
  | nil =>
    intro base fset bset fset' bset' _ h
    obtain ⟨rfl, rfl⟩ := h
    simp only [flatPairs, List.append_nil, List.length_nil, Nat.add_zero]
    exact ⟨fun fuel L hL => by simpa [frontIndices] using hL,
      fun fuel L hL => by simpa [backIndices] using hL⟩
  | cons q ps ih =>
    intro base fset bset fset' bset' hsize h
    obtain ⟨F, B⟩ := q
    obtain ⟨h1, h2, -, -, -, h6⟩ := h
    have hsplit : base ++ flatPairs ((F, B) :: ps) = (base ++ [F, B]) ++ flatPairs ps := by
      simp [flatPairs]
    have hlen : (base ++ [F, B]).length = base.length + 2 := by simp
    rw [hsplit] at hsize ⊢
    have hsz : base.length + 2 ≤ UINT_MAX := by
      have := hsize
      rw [List.length_append, hlen] at this
      omega
    rw [← hlen] at h6
    obtain ⟨ihF, ihB⟩ := ih (base ++ [F, B]) _ _ _ _ hsize h6
    rw [hlen] at ihF ihB
    constructor
    · intro fuel L hL
      have hstep : linkList FPrivSeg.next (base ++ [F, B]) (fuel + 1) base.length =
          Except.ok (base.length :: L) :=
        linkList_step FPrivSeg.next (by omega) (getElem?_snoc_two_fst base F B)
          (by rw [h1]; exact linkList_extend _ _ _ _ _ _ hL)
      have := ihF (fuel + 1) _ hstep
      have e : fuel + (ps.length + 1) = fuel + 1 + ps.length := by omega
      rw [List.length_cons, frontIndices_succ, e]
      simpa using this
    · intro fuel L hL
      have hstep : linkList FPrivSeg.next (base ++ [F, B]) (fuel + 1) (base.length + 1) =
          Except.ok ((base.length + 1) :: L) :=
        linkList_step FPrivSeg.next (by omega) (getElem?_snoc_two_snd base F B)
          (by rw [h2]; exact linkList_extend _ _ _ _ _ _ hL)
      have := ihB (fuel + 1) _ hstep
      have e : fuel + (ps.length + 1) = fuel + 1 + ps.length := by omega
      rw [List.length_cons, backIndices_succ, e]
      simpa using this

theorem bind_eq_error {α β : Type} {x : Except Fault α} {f : α → Except Fault β} {e : Fault} :
    (x >>= f) = Except.error e ↔
      x = Except.error e ∨ ∃ a, x = Except.ok a ∧ f a = Except.error e := by
  cases x <;> simp [bind, Except.bind]

theorem rd_ne_assertion {α : Type} (arr : List α) (i : Nat) :
    rd arr i ≠ Except.error Fault.assertion := by
  unfold rd
  split <;> simp

theorem wr_ne_assertion {α : Type} (arr : List α) (i : Nat) (f : α → α) :
    wr arr i f ≠ Except.error Fault.assertion := by
  unfold wr
  split <;> simp

theorem pure_ne_error {α : Type} (a : α) (e : Fault) :
    (pure a : Except Fault α) ≠ Except.error e := by
  simp [pure, Except.pure]

/-- `AddMiniseg` fails its assertion only for a given partner whose
endpoints do not mirror the new seg's. -/
theorem AddMiniseg_assertion {st : FNodeBuilder} {v1 v2 partner seg1 splitseg : Nat}
    (h : AddMiniseg st v1 v2 partner seg1 splitseg = Except.error Fault.assertion) :
    partner ≠ UINT_MAX ∧ ∃ p, st.Segs[partner]? = some p ∧ ¬ (p.v1 = v2 ∧ p.v2 = v1) := by
  unfold AddMiniseg at h
  rcases bind_eq_error.1 h with h | ⟨seg, -, h⟩
  · exact absurd h (rd_ne_assertion _ _)
  rcases bind_eq_error.1 h with h | ⟨pl, -, h⟩
  · split at h
    · rcases bind_eq_error.1 h with h | ⟨s, -, h⟩
      · exact absurd h (rd_ne_assertion _ _)
      · exact absurd h (pure_ne_error _ _)
    · exact absurd h (pure_ne_error _ _)
  rcases bind_eq_error.1 h with h | ⟨vert1, -, h⟩
  · exact absurd h (rd_ne_assertion _ _)
  rcases bind_eq_error.1 h with h | ⟨vert2, -, h⟩
  · exact absurd h (rd_ne_assertion _ _)
  rcases bind_eq_error.1 h with h | ⟨u, -, h⟩
  · split at h
    · rename_i hp
      refine ⟨hp, ?_⟩
      rcases bind_eq_error.1 h with h | ⟨p, hp1, h⟩
      · exact absurd h (rd_ne_assertion _ _)
      refine ⟨p, rd_eq_ok.1 hp1, ?_⟩
      rintro ⟨ha, hb⟩
      rcases bind_eq_error.1 h with h | ⟨_, -, h⟩
      · unfold assertThat at h
        rw [if_pos ha] at h
        cases h
      · unfold assertThat at h
        rw [if_pos hb] at h
        cases h
    · exact absurd h (pure_ne_error _ _)
  rcases bind_eq_error.1 h with h | ⟨segs2, -, h⟩
  · split at h
    · exact absurd h (wr_ne_assertion _ _ _)
    · exact absurd h (pure_ne_error _ _)
  rcases bind_eq_error.1 h with h | ⟨verts1, -, h⟩
  · exact absurd h (wr_ne_assertion _ _ _)
  rcases bind_eq_error.1 h with h | ⟨verts2, -, h⟩
  · exact absurd h (wr_ne_assertion _ _ _)
  exact absurd h (pure_ne_error _ _)

/-- The assertion of `AddMiniseg` holds whenever `AddMinisegs` creates a
pair: the statements run after four passing checks never fail it. -/
theorem addMinisegPair_no_assertion (st : FNodeBuilder) (splitseg : Nat) (prev event : FEvent)
    (f1 b1 fset bset : Nat) :
    addMinisegPair st splitseg prev event f1 b1 fset bset ≠ Except.error Fault.assertion := by
  intro h
  unfold addMinisegPair at h
  rcases bind_eq_error.1 h with h | ⟨⟨fn, st1⟩, hA1, h⟩
  · exact (AddMiniseg_assertion h).1 rfl
  simp only at h
  obtain ⟨seg, vert1, vert2, pl, -, -, -, -, -, -, hp2, hn1, -, -, -⟩ := AddMiniseg_inv hA1
  have hS1 := hp2 rfl
  subst hn1
  rcases bind_eq_error.1 h with h | ⟨segs2, hw, h⟩
  · exact absurd h (wr_ne_assertion _ _ _)
  obtain ⟨a2, ha2, hsegs2⟩ := wr_eq_ok.1 hw
  rw [hS1, getElem?_snoc_one] at ha2
  cases ha2
  rw [hS1, set_snoc_one] at hsegs2
  subst hsegs2
  rcases bind_eq_error.1 h with h | ⟨⟨bn, st3⟩, -, h⟩
  · obtain ⟨-, p, hp, hne⟩ := AddMiniseg_assertion h
    simp only at hp
    rw [getElem?_snoc_one] at hp
    cases hp
    exact hne ⟨rfl, rfl⟩
  simp only at h
  rcases bind_eq_error.1 h with h | ⟨segs4, -, h⟩
  · exact absurd h (wr_ne_assertion _ _ _)
  rcases bind_eq_error.1 h with h | ⟨f1r, -, h⟩
  · exact absurd h (rd_ne_assertion _ _)
  rcases bind_eq_error.1 h with h | ⟨b1r, -, h⟩
  · exact absurd h (rd_ne_assertion _ _)
  rcases bind_eq_error.1 h with h | ⟨segs5, -, h⟩
  · exact absurd h (wr_ne_assertion _ _ _)
  rcases bind_eq_error.1 h with h | ⟨segs6, -, h⟩
  · exact absurd h (wr_ne_assertion _ _ _)
  rcases bind_eq_error.1 h with h | ⟨segs7, -, h⟩
  · exact absurd h (wr_ne_assertion _ _ _)
  rcases bind_eq_error.1 h with h | ⟨segs8, -, h⟩
  · exact absurd h (wr_ne_assertion _ _ _)
  exact absurd h (pure_ne_error _ _)

/-- C1: the step of `AddMinisegs` for the adjacent events `prev`, `event`
appends a miniseg pair if and only if all four checks, evaluated on the state
of that moment, return a seg other than `UINT_MAX`: when they do (and
`splitseg` is `UINT_MAX` or a seg) the step returns with two more segs; when
the step returns, it has appended two segs exactly if all four checks pass,
and if any check returns `UINT_MAX` the whole state (seg arena, vertex list
heads) and the chain heads `fset`, `bset` are as before; and the step does
return so when, in the order of evaluation, a check returns `UINT_MAX`. -/
theorem minisegStep_appends_iff_checks (G : Geometry) (st : FNodeBuilder) (node : NodeFxp)
    (splitseg : Nat) (prev event : FEvent) (fset bset : Nat)
    (hsplit : splitseg = UINT_MAX ∨ splitseg < st.Segs.length) :
    ((∃ f1 b1, fourChecksPass G st node prev event f1 b1) →
      ∃ st' F B, minisegStep G st node splitseg prev event fset bset =
          Except.ok (st', st.Segs.length, st.Segs.length + 1) ∧
        st'.Segs = st.Segs ++ [F, B]) ∧
    (∀ st' fset' bset', minisegStep G st node splitseg prev event fset bset =
        Except.ok (st', fset', bset') →
      ((∃ F B, st'.Segs = st.Segs ++ [F, B]) ↔
        ∃ f1 b1, fourChecksPass G st node prev event f1 b1) ∧
      (someCheckNone G st node prev event → st' = st ∧ fset' = fset ∧ bset' = bset)) ∧
    (firstCheckNone G st node prev event →
      minisegStep G st node splitseg prev event fset bset = Except.ok (st, fset, bset)) := by
  refine ⟨?_, ?_, ?_⟩
  · rintro ⟨f1, b1, hpass⟩
    obtain ⟨hl1, hp⟩ := CheckLoopStart_lt hpass.1 hpass.2.1
    obtain ⟨hl2, hc⟩ := CheckLoopStart_lt hpass.2.2.1 hpass.2.2.2.1
    obtain ⟨st', hpair⟩ := addMinisegPair_returns fset bset hl1 hl2 hp hc hsplit
    obtain ⟨-, -, F, B, hS, -⟩ :=
      addMinisegPair_inv hpair (List.getElem?_eq_getElem hl1) (List.getElem?_eq_getElem hl2)
    refine ⟨st', F, B, ?_, hS⟩
    unfold minisegStep
    rw [minisegChecks_some.2 hpass, ok_bind]
    exact hpair
  · intro st' fset' bset' h
    rcases minisegStep_cases h with ⟨hnone, rfl, rfl, rfl⟩ | ⟨f1, b1, hpass, hpair⟩
    · refine ⟨⟨?_, ?_⟩, fun _ => ⟨rfl, rfl, rfl⟩⟩
      · rintro ⟨F, B, hS⟩
        have := congrArg List.length hS
        simp at this
      · rintro ⟨f1, b1, hpass⟩
        exact absurd (firstCheckNone_someCheckNone hnone)
          (fourChecksPass_not_someCheckNone hpass)
    · obtain ⟨hl1, -⟩ := CheckLoopStart_lt hpass.1 hpass.2.1
      obtain ⟨hl2, -⟩ := CheckLoopStart_lt hpass.2.2.1 hpass.2.2.2.1
      obtain ⟨-, -, F, B, hS, -⟩ :=
        addMinisegPair_inv hpair (List.getElem?_eq_getElem hl1) (List.getElem?_eq_getElem hl2)
      exact ⟨⟨fun _ => ⟨f1, b1, hpass⟩, fun _ => ⟨F, B, hS⟩⟩,
        fun hn => absurd hn (fourChecksPass_not_someCheckNone hpass)⟩
  · intro hnone
    unfold minisegStep
    rw [minisegChecks_none.2 hnone, ok_bind]
    rfl

/-- C3: when the step of `AddMinisegs` creates the pair `fn`, `bn` with
`fseg1` and `bseg1` the segs returned by the two `CheckLoopStart`, then
`fn.frontsector = Segs[fseg1].frontsector`,
`fn.backsector = Segs[bseg1].frontsector`, `bn.frontsector = fn.backsector`
and `bn.backsector = fn.frontsector`, whether or not the two sides agree (the
code guarded by the mismatch test is compiled out). -/
theorem minisegStep_sectors (G : Geometry) (st st' : FNodeBuilder) (node : NodeFxp)
    (splitseg : Nat) (prev event : FEvent) (fset bset fset' bset' fseg1 bseg1 : Nat)
    (h : minisegStep G st node splitseg prev event fset bset = Except.ok (st', fset', bset'))
    (hpass : fourChecksPass G st node prev event fseg1 bseg1) :
    ∃ (fn bn f1s b1s : FPrivSeg),
      fset' = st.Segs.length ∧ bset' = st.Segs.length + 1 ∧
      st'.Segs[fset']? = some fn ∧ st'.Segs[bset']? = some bn ∧
      st.Segs[fseg1]? = some f1s ∧ st.Segs[bseg1]? = some b1s ∧
      st'.Segs[fseg1]? = some f1s ∧ st'.Segs[bseg1]? = some b1s ∧
      fn.frontsector = f1s.frontsector ∧ fn.backsector = b1s.frontsector ∧
      bn.frontsector = fn.backsector ∧ bn.backsector = fn.frontsector := by
  rcases minisegStep_cases h with ⟨hnone, -, -, -⟩ | ⟨f1, b1, hpass', hpair⟩
  · exact absurd (firstCheckNone_someCheckNone hnone) (fourChecksPass_not_someCheckNone hpass)
  · have e1 : f1 = fseg1 := by
      have := hpass'.1
      rw [hpass.1] at this
      exact (Except.ok.inj this).symm
    have e2 : b1 = bseg1 := by
      have := hpass'.2.2.1
      rw [hpass.2.2.1] at this
      exact (Except.ok.inj this).symm
    subst e1 e2
    obtain ⟨hl1, -⟩ := CheckLoopStart_lt hpass.1 hpass.2.1
    obtain ⟨hl2, -⟩ := CheckLoopStart_lt hpass.2.2.1 hpass.2.2.2.1
    have g1 := List.getElem?_eq_getElem hl1
    have g2 := List.getElem?_eq_getElem hl2
    obtain ⟨hfn, hbn, F, B, hS, -, -, -, -, -, -, -, -, s1, s2, s3, s4, -⟩ :=
      addMinisegPair_inv hpair g1 g2
    refine ⟨F, B, _, _, hfn, hbn, ?_, ?_, g1, g2, ?_, ?_, s1, s2, ?_, ?_⟩
    · rw [hfn, hS]
      exact getElem?_snoc_two_fst _ F B
    · rw [hbn, hS]
      exact getElem?_snoc_two_snd _ F B
    · rw [hS, List.getElem?_append_left hl1, g1]
    · rw [hS, List.getElem?_append_left hl2, g2]
    · rw [s3, s2]
    · rw [s4, s1]

/-- C2: after a call of `AddMinisegs` the arena holds the old segs unchanged
followed by `k` pairs; the pair at `n + 2 j`, `n + 2 j + 1` (`n` the number of
segs before the call) was created for two adjacent events `p`, `c`: the front
miniseg runs `p.Vertex -> c.Vertex`, the back miniseg `c.Vertex -> p.Vertex`,
and each is the partner of the other; the statements that create a pair
never fail the assertion of `AddMiniseg`.  (The arena is assumed to stay
within the 32 bit index space.) -/
theorem AddMinisegs_pairs_are_partners (G : Geometry) (st st' : FNodeBuilder) (node : NodeFxp)
    (splitseg fset bset fset' bset' : Nat)
    (h : AddMinisegs G st node splitseg fset bset = Except.ok (st', fset', bset'))
    (hsize : st'.Segs.length ≤ UINT_MAX) :
    (∀ (s0 : FNodeBuilder) (p c : FEvent) (f1 b1 fs bs : Nat),
      addMinisegPair s0 splitseg p c f1 b1 fs bs ≠ Except.error Fault.assertion) ∧
    ∃ k, st'.Segs.length = st.Segs.length + 2 * k ∧
      (∀ (i : Nat) (s : FPrivSeg), st.Segs[i]? = some s → st'.Segs[i]? = some s) ∧
      ∀ j, j < k →
        ∃ (fn bn : FPrivSeg) (i : Nat) (p c : FEvent),
          st'.Segs[st.Segs.length + 2 * j]? = some fn ∧
          st'.Segs[st.Segs.length + 2 * j + 1]? = some bn ∧
          st.Events[i]? = some p ∧ st.Events[i + 1]? = some c ∧
          fn.v1 = p.Info.Vertex ∧ fn.v2 = c.Info.Vertex ∧
          bn.v1 = c.Info.Vertex ∧ bn.v2 = p.Info.Vertex ∧
          fn.partner = st.Segs.length + 2 * j + 1 ∧ bn.partner = st.Segs.length + 2 * j := by
  obtain ⟨ps, hS, hP, -, -, -⟩ := AddMinisegs_pairs h
  have hlen : st'.Segs.length = st.Segs.length + 2 * ps.length := by
    rw [hS, List.length_append, flatPairs_length]
  refine ⟨fun s0 p c f1 b1 fs bs => addMinisegPair_no_assertion s0 splitseg p c f1 b1 fs bs,
    ps.length, hlen, ?_, ?_⟩
  · intro i s hs
    rw [hS, List.getElem?_append_left (getElem?_lt_length hs), hs]
  · intro j hj
    obtain ⟨F, B, i, p, c, g1, g2, g3, g4, g5, g6, g7, g8, g9, g10⟩ :=
      PairsFrom_get st.Events ps st.Segs _ _ _ _ hP j hj
    rw [← hS] at g1 g2
    refine ⟨F, B, i, p, c, g1, g2, g3, g4, g5, g6, g7, g8, ?_, g10⟩
    rw [g9, if_neg]
    omega

/-- C4: after a call of `AddMinisegs` that creates `k` pairs, following
`next` from the new `fset` gives the front minisegs, last created first, and
then exactly the chain that `fset` headed before the call; likewise for
`bset` and the back minisegs; with `k = 0` both heads are unchanged.  (The
arena is assumed to stay within the 32 bit index space.) -/
theorem AddMinisegs_prepends_to_chains (G : Geometry) (st st' : FNodeBuilder) (node : NodeFxp)
    (splitseg fset bset fset' bset' : Nat)
    (h : AddMinisegs G st node splitseg fset bset = Except.ok (st', fset', bset'))
    (hsize : st'.Segs.length ≤ UINT_MAX) :
    ∃ k, st'.Segs.length = st.Segs.length + 2 * k ∧
      (∀ fuel L, linkList FPrivSeg.next st.Segs fuel fset = Except.ok L →
        linkList FPrivSeg.next st'.Segs (fuel + k) fset' =
          Except.ok (frontIndices st.Segs.length k ++ L)) ∧
      (∀ fuel L, linkList FPrivSeg.next st.Segs fuel bset = Except.ok L →
        linkList FPrivSeg.next st'.Segs (fuel + k) bset' =
          Except.ok (backIndices st.Segs.length k ++ L)) ∧
      (k = 0 → fset' = fset ∧ bset' = bset) := by
  obtain ⟨ps, hS, hP, -, -, -⟩ := AddMinisegs_pairs h
  have hlen : st'.Segs.length = st.Segs.length + 2 * ps.length := by
    rw [hS, List.length_append, flatPairs_length]
  rw [hS] at hsize
  obtain ⟨hF, hB⟩ := PairsFrom_chain st.Events ps st.Segs _ _ _ _ hsize hP
  refine ⟨ps.length, hlen, ?_, ?_, ?_⟩
  · intro fuel L hL
    rw [hS]
    exact hF fuel L hL
  · intro fuel L hL
    rw [hS]
    exact hB fuel L hL
  · intro hk
    have : ps = [] := List.length_eq_zero.1 hk
    subst this
    exact hP
/-! ## Witnesses on the square -/

theorem squareChecksPass :
    fourChecksPass exampleGeometry squareState squareNode squareLeft squareRight 0 3 :=
  ⟨rfl, by decide, rfl, by decide, ⟨4, rfl, by decide⟩, ⟨1, rfl, by decide⟩⟩

theorem squareStep :
    minisegStep exampleGeometry squareState squareNode UINT_MAX squareLeft squareRight
      UINT_MAX UINT_MAX = Except.ok (squareCut, 6, 7) := rfl

theorem squareAddMinisegs :
    AddMinisegs exampleGeometry squareState squareNode UINT_MAX UINT_MAX UINT_MAX =
      Except.ok (squareCut, 6, 7) := rfl

theorem squareAddMiniseg :
    AddMiniseg squareState 1 4 UINT_MAX 0 UINT_MAX = Except.ok (6, squareFront) := rfl
/-- Witness of C1 on the square: the four checks pass for the two events and
the step appends a pair. -/
theorem minisegStep_appends_iff_checks_witness :
    (UINT_MAX = UINT_MAX ∨ UINT_MAX < squareState.Segs.length) ∧
    fourChecksPass exampleGeometry squareState squareNode squareLeft squareRight 0 3 ∧
    ∃ st' F B, minisegStep exampleGeometry squareState squareNode UINT_MAX squareLeft
        squareRight UINT_MAX UINT_MAX =
          Except.ok (st', squareState.Segs.length, squareState.Segs.length + 1) ∧
      st'.Segs = squareState.Segs ++ [F, B] :=
  ⟨Or.inl rfl, squareChecksPass,
    (minisegStep_appends_iff_checks exampleGeometry squareState squareNode UINT_MAX squareLeft
      squareRight UINT_MAX UINT_MAX (Or.inl rfl)).1 ⟨0, 3, squareChecksPass⟩⟩

/-- Witness of C2 on the square. -/
theorem AddMinisegs_pairs_are_partners_witness :
    AddMinisegs exampleGeometry squareState squareNode UINT_MAX UINT_MAX UINT_MAX =
      Except.ok (squareCut, 6, 7) ∧
    squareCut.Segs.length ≤ UINT_MAX ∧
    ((∀ (s0 : FNodeBuilder) (p c : FEvent) (f1 b1 fs bs : Nat),
      addMinisegPair s0 UINT_MAX p c f1 b1 fs bs ≠ Except.error Fault.assertion) ∧
    ∃ k, squareCut.Segs.length = squareState.Segs.length + 2 * k ∧
      (∀ (i : Nat) (s : FPrivSeg), squareState.Segs[i]? = some s →
        squareCut.Segs[i]? = some s) ∧
      ∀ j, j < k →
        ∃ (fn bn : FPrivSeg) (i : Nat) (p c : FEvent),
          squareCut.Segs[squareState.Segs.length + 2 * j]? = some fn ∧
          squareCut.Segs[squareState.Segs.length + 2 * j + 1]? = some bn ∧
          squareState.Events[i]? = some p ∧ squareState.Events[i + 1]? = some c ∧
          fn.v1 = p.Info.Vertex ∧ fn.v2 = c.Info.Vertex ∧
          bn.v1 = c.Info.Vertex ∧ bn.v2 = p.Info.Vertex ∧
          fn.partner = squareState.Segs.length + 2 * j + 1 ∧
          bn.partner = squareState.Segs.length + 2 * j) :=
  ⟨squareAddMinisegs, by decide,
    AddMinisegs_pairs_are_partners exampleGeometry squareState squareCut squareNode UINT_MAX
      UINT_MAX UINT_MAX 6 7 squareAddMinisegs (by decide)⟩

/-- Witness of C3 on the square. -/
theorem minisegStep_sectors_witness :
    minisegStep exampleGeometry squareState squareNode UINT_MAX squareLeft squareRight
      UINT_MAX UINT_MAX = Except.ok (squareCut, 6, 7) ∧
    fourChecksPass exampleGeometry squareState squareNode squareLeft squareRight 0 3 ∧
    ∃ (fn bn f1s b1s : FPrivSeg),
      6 = squareState.Segs.length ∧ 7 = squareState.Segs.length + 1 ∧
      squareCut.Segs[6]? = some fn ∧ squareCut.Segs[7]? = some bn ∧
      squareState.Segs[0]? = some f1s ∧ squareState.Segs[3]? = some b1s ∧
      squareCut.Segs[0]? = some f1s ∧ squareCut.Segs[3]? = some b1s ∧
      fn.frontsector = f1s.frontsector ∧ fn.backsector = b1s.frontsector ∧
      bn.frontsector = fn.backsector ∧ bn.backsector = fn.frontsector :=
  ⟨squareStep, squareChecksPass,
    minisegStep_sectors exampleGeometry squareState squareCut squareNode UINT_MAX squareLeft
      squareRight UINT_MAX UINT_MAX 6 7 0 3 squareStep squareChecksPass⟩

/-- Witness of C4 on the square. -/
theorem AddMinisegs_prepends_to_chains_witness :
    AddMinisegs exampleGeometry squareState squareNode UINT_MAX UINT_MAX UINT_MAX =
      Except.ok (squareCut, 6, 7) ∧
    squareCut.Segs.length ≤ UINT_MAX ∧
    ∃ k, squareCut.Segs.length = squareState.Segs.length + 2 * k ∧
      (∀ fuel L, linkList FPrivSeg.next squareState.Segs fuel UINT_MAX = Except.ok L →
        linkList FPrivSeg.next squareCut.Segs (fuel + k) 6 =
          Except.ok (frontIndices squareState.Segs.length k ++ L)) ∧
      (∀ fuel L, linkList FPrivSeg.next squareState.Segs fuel UINT_MAX = Except.ok L →
        linkList FPrivSeg.next squareCut.Segs (fuel + k) 7 =
          Except.ok (backIndices squareState.Segs.length k ++ L)) ∧
      (k = 0 → 6 = UINT_MAX ∧ 7 = UINT_MAX) :=
  ⟨squareAddMinisegs, by decide,
    AddMinisegs_prepends_to_chains exampleGeometry squareState squareCut squareNode UINT_MAX
      UINT_MAX UINT_MAX 6 7 squareAddMinisegs (by decide)⟩

/-- Witness of C5 on the square. -/
theorem AddMiniseg_threads_vertex_lists_witness :
    AddMiniseg squareState 1 4 UINT_MAX 0 UINT_MAX = Except.ok (6, squareFront) ∧
    squareState.Segs.length < UINT_MAX ∧
    ∃ vert1 vert2 vert1' vert2',
      squareState.Vertices[1]? = some vert1 ∧ squareState.Vertices[4]? = some vert2 ∧
      squareFront.Vertices[1]? = some vert1' ∧ squareFront.Vertices[4]? = some vert2' ∧
      vert1'.segs = 6 ∧ vert2'.segs2 = 6 ∧
      (∀ fuel L, linkList FPrivSeg.nextforvert squareState.Segs fuel vert1.segs = Except.ok L →
        linkList FPrivSeg.nextforvert squareFront.Segs (fuel + 1) vert1'.segs =
          Except.ok (6 :: L)) ∧
      (∀ fuel L, linkList FPrivSeg.nextforvert2 squareState.Segs fuel vert2.segs2 =
          Except.ok L →
        linkList FPrivSeg.nextforvert2 squareFront.Segs (fuel + 1) vert2'.segs2 =
          Except.ok (6 :: L)) :=
  ⟨squareAddMiniseg, by decide,
    AddMiniseg_threads_vertex_lists squareState squareFront 1 4 UINT_MAX 0 UINT_MAX 6
      squareAddMiniseg (by decide)⟩

/-- Witness of C6 on the square, with seg 0 (`0 -> 1`) as the partner of a
new seg `1 -> 0`. -/
theorem AddMiniseg_appends_one_witness :
    (2 < squareState.Segs.length ∧ 1 < squareState.Vertices.length ∧
      0 < squareState.Vertices.length ∧ (3 = UINT_MAX ∨ 3 < squareState.Segs.length) ∧
      (0 = UINT_MAX ∨ ∃ p, squareState.Segs[0]? = some p ∧ p.v1 = 0 ∧ p.v2 = 1)) ∧
    ∃ st' s, AddMiniseg squareState 1 0 0 2 3 = Except.ok (squareState.Segs.length, st') ∧
      st'.Segs.length = squareState.Segs.length + 1 ∧
      st'.Segs[squareState.Segs.length]? = some s ∧
      s.v1 = 1 ∧ s.v2 = 0 ∧ s.linedef = NO_INDEX ∧ s.sidedef = NO_INDEX ∧
      s.frontsector = -1 ∧ s.backsector = -1 ∧ s.partner = 0 ∧
      (3 = UINT_MAX → s.planenum = -1) ∧
      (∀ ss, 3 ≠ UINT_MAX → squareState.Segs[3]? = some ss → s.planenum = ss.planenum) ∧
      (∀ i o, squareState.Segs[i]? = some o → st'.Segs[i]? =
        some (if 0 ≠ UINT_MAX ∧ i = 0 then { o with partner := squareState.Segs.length }
          else o)) :=
  ⟨⟨by decide, by decide, by decide, Or.inr (by decide), Or.inr ⟨_, rfl, rfl, rfl⟩⟩,
    AddMiniseg_appends_one squareState 1 0 0 2 3 (by decide) (by decide) (by decide)
      (Or.inr (by decide)) (Or.inr ⟨_, rfl, rfl, rfl⟩)⟩

/-- Witness of C10 on the square: the loop start at the left event. -/
theorem CheckLoopStart_returns_least_witness :
    CheckLoopStart exampleGeometry squareState 1 0 1 4 = Except.ok 0 ∧ 0 ≠ UINT_MAX ∧
    ∃ (v : FPrivVert) (L : List Nat) (seg : FPrivSeg) (far : FPrivVert),
      squareState.Vertices[1]? = some v ∧
      linkList FPrivSeg.nextforvert2 squareState.Segs squareState.Segs.length v.segs2 =
        Except.ok L ∧
      0 ∈ L ∧ squareState.Segs[0]? = some seg ∧ squareState.Vertices[seg.v1]? = some far ∧
      ¬ startExcluded exampleGeometry v 1 0 (pointToAngle exampleGeometry 1 0) far ∧
      ∀ t ∈ L, ∀ (seg' : FPrivSeg) (far' : FPrivVert), squareState.Segs[t]? = some seg' →
        squareState.Vertices[seg'.v1]? = some far' →
        ¬ startExcluded exampleGeometry v 1 0 (pointToAngle exampleGeometry 1 0) far' →
        startDiff exampleGeometry (pointToAngle exampleGeometry 1 0) v far ≤
          startDiff exampleGeometry (pointToAngle exampleGeometry 1 0) v far' :=
  ⟨rfl, by decide,
    CheckLoopStart_returns_least exampleGeometry squareState 1 0 1 4 0 rfl (by decide)⟩

/-! ## The event set and `AddIntersection` -/

theorem FindEvent_eq_none {es : List FEvent} {d : Int} :
    FindEvent es d = none ↔ ∀ e ∈ es, e.Distance ≠ d := by
  induction es with
  | nil => simp [FindEvent]
  | cons e es ih =>
    unfold FindEvent
    by_cases h : e.Distance = d
    · simp [h]
    · rw [if_neg h]
      cases hf : FindEvent es d with
      | none =>
        simp only [true_iff]
        intro e' he'
        rcases List.mem_cons.1 he' with rfl | he'
        · exact h
        · exact (ih.1 hf) e' he'
      | some i =>
        simp only [false_iff, reduceCtorEq]
        intro hall
        have : FindEvent es d = none := ih.2 (fun e' he' => hall e' (List.mem_cons_of_mem _ he'))
        rw [hf] at this
        cases this

theorem Insert_perm (ev : FEvent) (es : List FEvent) : (Insert ev es).Perm (ev :: es) := by
  induction es with
  | nil => exact List.Perm.refl _
  | cons e es ih =>
    unfold Insert
    split
    · exact List.Perm.refl _
    · exact (List.Perm.cons e ih).trans (List.Perm.swap ev e es)

/-- `Insert` keeps the events in ascending order of distance. -/
theorem Insert_sorted (ev : FEvent) (es : List FEvent)
    (h : List.Pairwise (fun a b : FEvent => a.Distance ≤ b.Distance) es) :
    List.Pairwise (fun a b : FEvent => a.Distance ≤ b.Distance) (Insert ev es) := by
  induction es with
  | nil => simp [Insert]
  | cons e es ih =>
    unfold Insert
    rw [List.pairwise_cons] at h
    split
    · rename_i hlt
      refine List.pairwise_cons.2 ⟨?_, List.pairwise_cons.2 h⟩
      intro a ha
      rcases List.mem_cons.1 ha with rfl | ha
      · exact Int.le_of_lt hlt
      · exact Int.le_trans (Int.le_of_lt hlt) (h.1 a ha)
    · rename_i hge
      refine List.pairwise_cons.2 ⟨?_, ih h.2⟩
      intro a ha
      rcases List.mem_cons.1 ((Insert_perm ev es).mem_iff.1 ha) with rfl | ha
      · exact Int.not_lt.1 hge
      · exact h.1 a ha

theorem wr_get {α : Type} {arr r : List α} {i : Nat} {f : α → α}
    (h : wr arr i f = Except.ok r) :
    r.length = arr.length ∧ ∀ j, r[j]? = if j = i then (arr[j]?).map f else arr[j]? := by
  obtain ⟨a, ha, hr⟩ := wr_eq_ok.1 h
  subst hr
  refine ⟨by simp, ?_⟩
  intro j
  by_cases hj : j = i
  · subst hj
    rw [if_pos rfl, List.getElem?_set_self (getElem?_lt_length ha), ha]
    rfl
  · rw [if_neg hj, List.getElem?_set_ne (Ne.symm hj)]

theorem SplitSeg_get {segs r : List FPrivSeg} {k m n : Nat} {s : FPrivSeg}
    (hs : segs[k]? = some s) (h : SplitSeg segs k m = Except.ok (n, r)) :
    n = segs.length ∧ r.length = segs.length + 1 ∧
    ∀ j, r[j]? = if j = k then some { s with v2 := m }
      else if j = segs.length then some { s with v1 := m } else segs[j]? := by
  simp only [SplitSeg, bind_eq_ok, rd_eq_ok, pure_eq_ok, Prod.mk.injEq] at h
  obtain ⟨s', hs', hn, hr⟩ := h
  rw [hs] at hs'
  cases hs'
  subst hr
  have hk := getElem?_lt_length hs
  refine ⟨hn.symm, by simp, ?_⟩
  intro j
  by_cases hj : j = k
  · subst hj
    rw [if_pos rfl, List.getElem?_append_left (by simpa using hk), List.getElem?_set_self hk]
  · rw [if_neg hj]
    by_cases hl : j = segs.length
    · subst hl
      rw [if_pos rfl, List.getElem?_append_right (by simp)]
      simp
    · rw [if_neg hl]
      by_cases hlt : j < segs.length
      · rw [List.getElem?_append_left (by simpa using hlt), List.getElem?_set_ne (Ne.symm hj)]
      · have h1 : (segs.set k { s with v2 := m } ++ [{ s with v1 := m }]).length ≤ j := by
          simp
          omega
        rw [List.getElem?_eq_none h1, List.getElem?_eq_none (by omega)]

theorem SplitSeg_returns {segs : List FPrivSeg} {k : Nat} (m : Nat) (hk : k < segs.length) :
    ∃ r, SplitSeg segs k m = Except.ok (segs.length, r) := by
  unfold SplitSeg
  rw [rd_returns hk, ok_bind]
  exact ⟨_, rfl⟩
/-- The body of the loop for a seg without partner. -/
theorem splitSharerAt_single {segs r : List FPrivSeg} {seg m n : Nat} {s : FPrivSeg}
    (hs : segs[seg]? = some s) (hp : s.partner = UINT_MAX)
    (h : splitSharerAt segs seg m = Except.ok (n, r)) :
    n = segs.length ∧ r.length = segs.length + 1 ∧
    ∀ j, r[j]? = if j = seg then some { s with v2 := m, next := segs.length }
      else if j = segs.length then some { s with v1 := m } else segs[j]? := by
  have hk := getElem?_lt_length hs
  simp only [splitSharerAt, bind_eq_ok, rd_eq_ok] at h
  obtain ⟨⟨n1, r1⟩, h1, s1, hs1, r2, hw2, r3, hw3, s3, hs3, h⟩ := h
  simp only at hs1 hw2 hw3 hs3 h
  obtain ⟨hn1, hl1, g1⟩ := SplitSeg_get hs h1
  subst hn1
  obtain ⟨hl2, g2⟩ := wr_get hw2
  obtain ⟨hl3, g3⟩ := wr_get hw3
  have e1 : s1 = { s with v2 := m } := by
    have := g1 seg
    rw [if_pos rfl, hs1] at this
    exact Option.some.inj this
  subst e1
  have hne : seg ≠ segs.length := Nat.ne_of_lt hk
  have e3 : s3 = { s with v2 := m, next := segs.length } := by
    have := g3 seg
    rw [if_pos rfl, g2 seg, if_neg hne, g1 seg, if_pos rfl, hs3] at this
    exact Option.some.inj this
  subst e3
  rw [if_neg (by simpa using hp)] at h
  simp only [pure_eq_ok, Prod.mk.injEq] at h
  obtain ⟨rfl, rfl⟩ := h
  refine ⟨rfl, by rw [hl3, hl2, hl1], ?_⟩
  intro j
  rw [g3 j]
  by_cases hj : j = seg
  · subst hj
    rw [if_pos rfl, if_pos rfl, g2 j, if_neg hne, g1 j, if_pos rfl]
    rfl
  · rw [if_neg hj, if_neg hj, g2 j]
    by_cases hl : j = segs.length
    · subst hl
      rw [if_pos rfl, if_pos rfl, g1, if_neg hj, if_pos rfl]
      rfl
    · rw [if_neg hl, if_neg hl, g1 j, if_neg hj, if_neg hl]

/-- The body of the loop for a seg with a partner other than itself. -/
theorem splitSharerAt_pair {segs r : List FPrivSeg} {seg m n : Nat} {s P : FPrivSeg}
    (hs : segs[seg]? = some s) (hp : s.partner ≠ UINT_MAX) (hself : s.partner ≠ seg)
    (hP : segs[s.partner]? = some P)
    (h : splitSharerAt segs seg m = Except.ok (n, r)) :
    n = segs.length ∧ r.length = segs.length + 2 ∧
    ∀ j, r[j]? =
      if j = seg then some { s with v2 := m, next := segs.length, partner := segs.length + 1 }
      else if j = s.partner then
        some { P with v2 := m, next := segs.length + 1, partner := segs.length }
      else if j = segs.length then some { s with v1 := m }
      else if j = segs.length + 1 then some { P with v1 := m }
      else segs[j]? := by
  have hk := getElem?_lt_length hs
  have hkp := getElem?_lt_length hP
  simp only [splitSharerAt, bind_eq_ok, rd_eq_ok] at h
  obtain ⟨⟨n1, r1⟩, h1, s1, hs1, r2, hw2, r3, hw3, s3, hs3, h⟩ := h
  simp only at hs1 hw2 hw3 hs3 h
  obtain ⟨hn1, hl1, g1⟩ := SplitSeg_get hs h1
  subst hn1
  obtain ⟨hl2, g2⟩ := wr_get hw2
  obtain ⟨hl3, g3⟩ := wr_get hw3
  have e1 : s1 = { s with v2 := m } := by
    have := g1 seg
    rw [if_pos rfl, hs1] at this
    exact Option.some.inj this
  subst e1
  have hne : seg ≠ segs.length := Nat.ne_of_lt hk
  have hnp : s.partner ≠ segs.length := Nat.ne_of_lt hkp
  have e3 : s3 = { s with v2 := m, next := segs.length } := by
    have := g3 seg
    rw [if_pos rfl, g2 seg, if_neg hne, g1 seg, if_pos rfl, hs3] at this
    exact Option.some.inj this
  subst e3
  rw [if_pos (by simpa using hp)] at h
  simp only [bind_eq_ok, rd_eq_ok, pure_eq_ok, Prod.mk.injEq] at h
  obtain ⟨⟨n4, r4⟩, h4, p4, hp4, r5, hw5, r6, hw6, r7, hw7, r8, hw8, hn, hr⟩ := h
  simp only at hp4 hw5 hw6 hw7 hw8
  subst hn hr
  have hP3 : r3[s.partner]? = some P := by
    rw [g3, if_neg hself, g2, if_neg hnp, g1, if_neg hself, if_neg hnp]
    exact hP
  obtain ⟨hn4, hl4, g4⟩ := SplitSeg_get hP3 h4
  subst hn4
  obtain ⟨hl5, g5⟩ := wr_get hw5
  obtain ⟨hl6, g6⟩ := wr_get hw6
  obtain ⟨hl7, g7⟩ := wr_get hw7
  obtain ⟨hl8, g8⟩ := wr_get hw8
  have hlen3 : r3.length = segs.length + 1 := by rw [hl3, hl2, hl1]
  simp only [hlen3] at g4 g5 g6 g7 g8 hl4
  have e4 : p4 = { P with v2 := m } := by
    have := g4 s.partner
    rw [if_pos rfl, hp4] at this
    exact Option.some.inj this
  subst e4
  refine ⟨rfl, by rw [hl8, hl7, hl6, hl5, hl4], ?_⟩
  intro j
  rw [g8 j, g7 j, g6 j, g5 j, g4 j, g3 j, g2 j, g1 j]
  by_cases hj : j = seg
  · subst hj
    simp only [if_true, if_neg (Ne.symm hself), if_neg hne,
      if_neg (show j ≠ segs.length + 1 by omega), Option.map_some']
  · by_cases hjp : j = s.partner
    · subst hjp
      simp only [if_true, if_neg hj, if_neg hnp,
        if_neg (show s.partner ≠ segs.length + 1 by omega), Option.map_some', hP]
    · by_cases hl : j = segs.length
      · subst hl
        simp only [if_true, if_neg hj, if_neg hjp,
          if_neg (show segs.length ≠ segs.length + 1 by omega), Option.map_some']
      · by_cases hl1 : j = segs.length + 1
        · subst hl1
          simp only [if_true, if_neg hj, if_neg hjp, if_neg hl, Option.map_some']
        · simp only [if_neg hj, if_neg hjp, if_neg hl, if_neg hl1]
theorem wr_returns_length {α : Type} {arr : List α} {i : Nat} (f : α → α) (h : i < arr.length) :
    ∃ r, wr arr i f = Except.ok r ∧ r.length = arr.length :=
  ⟨_, wr_returns f h, by simp⟩

/-- The body of the loop returns when the seg is in range and its partner,
if any, is too. -/
theorem splitSharerAt_returns {segs : List FPrivSeg} {seg : Nat} {s : FPrivSeg} (m : Nat)
    (hs : segs[seg]? = some s) (hp : s.partner = UINT_MAX ∨ s.partner < segs.length) :
    ∃ n r, splitSharerAt segs seg m = Except.ok (n, r) := by
  have hk := getElem?_lt_length hs
  have hex : ∃ b, splitSharerAt segs seg m = Except.ok b := by
    unfold splitSharerAt
    obtain ⟨r1, h1⟩ := SplitSeg_returns m hk
    obtain ⟨-, hl1, g1⟩ := SplitSeg_get hs h1
    refine exists_ok_bind.2 ⟨(segs.length, r1), h1, ?_⟩
    simp only
    have hs1 : r1[seg]? = some { s with v2 := m } := by rw [g1, if_pos rfl]
    refine exists_ok_bind.2 ⟨_, rd_eq_ok.2 hs1, ?_⟩
    obtain ⟨r2, hw2, hl2⟩ := @wr_returns_length _ r1 segs.length
      (fun n : FPrivSeg => { n with next := ({ s with v2 := m } : FPrivSeg).next }) (by omega)
    refine exists_ok_bind.2 ⟨r2, hw2, ?_⟩
    obtain ⟨r3, hw3, hl3⟩ := @wr_returns_length _ r2 seg
      (fun s : FPrivSeg => { s with next := segs.length }) (by omega)
    refine exists_ok_bind.2 ⟨r3, hw3, ?_⟩
    obtain ⟨-, g2⟩ := wr_get hw2
    obtain ⟨-, g3⟩ := wr_get hw3
    have hne : seg ≠ segs.length := Nat.ne_of_lt hk
    have hs3 : r3[seg]? = some { s with v2 := m, next := segs.length } := by
      rw [g3, if_pos rfl, g2, if_neg hne, hs1]
      rfl
    refine exists_ok_bind.2 ⟨_, rd_eq_ok.2 hs3, ?_⟩
    simp only
    by_cases hpu : s.partner = UINT_MAX
    · rw [if_neg (by simpa using hpu)]
      exact ⟨_, rfl⟩
    · rw [if_pos (by simpa using hpu)]
      have hpl : s.partner < segs.length := by
        rcases hp with h | h
        · exact absurd h hpu
        · exact h
      have hpl3 : s.partner < r3.length := by omega
      obtain ⟨r4, h4⟩ := SplitSeg_returns m hpl3
      obtain ⟨-, hl4, -⟩ := SplitSeg_get (List.getElem?_eq_getElem hpl3) h4
      refine exists_ok_bind.2 ⟨(r3.length, r4), h4, ?_⟩
      simp only
      refine exists_ok_bind.2 ⟨_, rd_returns (by omega), ?_⟩
      refine exists_ok_bind.2 ⟨_, wr_returns _ (by omega), ?_⟩
      refine exists_ok_bind.2 ⟨_, wr_returns _ (by simp only [List.length_set]; omega), ?_⟩
      refine exists_ok_bind.2 ⟨_, wr_returns _ (by simp only [List.length_set]; omega), ?_⟩
      refine exists_ok_bind.2 ⟨_, wr_returns _ (by simp only [List.length_set]; omega), ?_⟩
      exact ⟨_, rfl⟩
  obtain ⟨⟨n, r⟩, h⟩ := hex
  exact ⟨n, r, h⟩
/-- The body of the loop keeps two-sidedness when the seg that is split is
not its own partner. -/
theorem splitSharerAt_keeps_mirror {segs r : List FPrivSeg} {seg m n : Nat} {s : FPrivSeg}
    (hM : PartnersMirror segs) (hs : segs[seg]? = some s)
    (hself : s.partner ≠ UINT_MAX → s.partner ≠ seg)
    (h : splitSharerAt segs seg m = Except.ok (n, r)) (hsz : r.length ≤ UINT_MAX) :
    PartnersMirror r := by
  have hk := getElem?_lt_length hs
  by_cases hp : s.partner = UINT_MAX
  · obtain ⟨hn, hl, g⟩ := splitSharerAt_single hs hp h
    intro i t ht hpt
    rw [g i] at ht
    by_cases h1 : i = seg
    · rw [if_pos h1] at ht
      cases ht
      exact absurd hp hpt
    · rw [if_neg h1] at ht
      by_cases h2 : i = segs.length
      · rw [if_pos h2] at ht
        cases ht
        exact absurd hp hpt
      · rw [if_neg h2] at ht
        obtain ⟨p, hp1, hp2, hp3, hp4⟩ := hM i t ht hpt
        have hi := getElem?_lt_length ht
        have hne1 : t.partner ≠ seg := by
          intro e
          rw [e, hs] at hp1
          cases hp1
          rw [hp] at hp2
          omega
        have hne2 : t.partner ≠ segs.length := Nat.ne_of_lt (getElem?_lt_length hp1)
        exact ⟨p, by rw [g, if_neg hne1, if_neg hne2]; exact hp1, hp2, hp3, hp4⟩
  · obtain ⟨P, hP, hP1, hP2, hP3⟩ := hM seg s hs hp
    have hself : s.partner ≠ seg := hself hp
    have hkp := getElem?_lt_length hP
    obtain ⟨hn, hl, g⟩ := splitSharerAt_pair hs hp hself hP h
    have hne : seg ≠ segs.length := Nat.ne_of_lt hk
    have hne' : seg ≠ segs.length + 1 := by omega
    have hnp : s.partner ≠ segs.length := Nat.ne_of_lt hkp
    have hnp' : s.partner ≠ segs.length + 1 := by omega
    have hll : segs.length ≠ segs.length + 1 := by omega
    intro i t ht hpt
    rw [g i] at ht
    by_cases h1 : i = seg
    · rw [if_pos h1] at ht
      cases ht
      subst h1
      refine ⟨{ P with v1 := m }, ?_, hP1, rfl, hP3⟩
      rw [g, if_neg (Ne.symm hne'), if_neg (Ne.symm hnp'), if_neg (Ne.symm hll), if_pos rfl]
    · rw [if_neg h1] at ht
      by_cases h2 : i = s.partner
      · rw [if_pos h2] at ht
        cases ht
        subst h2
        refine ⟨{ s with v1 := m }, ?_, rfl, rfl, hP2.symm⟩
        rw [g, if_neg (Ne.symm hne), if_neg (Ne.symm hnp), if_pos rfl]
      · rw [if_neg h2] at ht
        by_cases h3 : i = segs.length
        · rw [if_pos h3] at ht
          cases ht
          subst h3
          refine ⟨{ P with v2 := m, next := segs.length + 1, partner := segs.length }, ?_,
            rfl, hP2, rfl⟩
          rw [g, if_neg hself, if_pos rfl]
        · rw [if_neg h3] at ht
          by_cases h4 : i = segs.length + 1
          · rw [if_pos h4] at ht
            cases ht
            subst h4
            refine ⟨{ s with v2 := m, next := segs.length, partner := segs.length + 1 }, ?_,
              rfl, hP3.symm, rfl⟩
            show r[P.partner]? = _
            rw [hP1, g, if_pos rfl]
          · rw [if_neg h4] at ht
            obtain ⟨p, hp1, hp2, hp3, hp4⟩ := hM i t ht hpt
            have hlt := getElem?_lt_length hp1
            have hne1 : t.partner ≠ seg := by
              intro e
              rw [e, hs] at hp1
              cases hp1
              exact h2 hp2.symm
            have hne2 : t.partner ≠ s.partner := by
              intro e
              rw [e, hP] at hp1
              cases hp1
              exact h1 (hp2.symm.trans hP1)
            refine ⟨p, ?_, hp2, hp3, hp4⟩
            rw [g, if_neg hne1, if_neg hne2, if_neg (Nat.ne_of_lt hlt),
              if_neg (by omega)]
            exact hp1

/-- The body of the loop keeps "no seg is its own partner". -/
theorem splitSharerAt_keeps_noself {segs r : List FPrivSeg} {seg m n : Nat} {s : FPrivSeg}
    (hM : PartnersMirror segs) (hN : NoSelfPartner segs) (hs : segs[seg]? = some s)
    (h : splitSharerAt segs seg m = Except.ok (n, r)) :
    NoSelfPartner r := by
  have hk := getElem?_lt_length hs
  by_cases hp : s.partner = UINT_MAX
  · obtain ⟨hn, hl, g⟩ := splitSharerAt_single hs hp h
    intro i t ht hpt
    rw [g i] at ht
    by_cases h1 : i = seg
    · rw [if_pos h1] at ht
      cases ht
      exact absurd hp hpt
    · rw [if_neg h1] at ht
      by_cases h2 : i = segs.length
      · rw [if_pos h2] at ht
        cases ht
        exact absurd hp hpt
      · rw [if_neg h2] at ht
        exact hN i t ht hpt
  · obtain ⟨P, hP, hP1, hP2, hP3⟩ := hM seg s hs hp
    have hself : s.partner ≠ seg := hN seg s hs hp
    have hkp := getElem?_lt_length hP
    obtain ⟨hn, hl, g⟩ := splitSharerAt_pair hs hp hself hP h
    have hne : seg ≠ segs.length := Nat.ne_of_lt hk
    have hne' : seg ≠ segs.length + 1 := by omega
    have hnp : s.partner ≠ segs.length := Nat.ne_of_lt hkp
    have hnp' : s.partner ≠ segs.length + 1 := by omega
    have hll : segs.length ≠ segs.length + 1 := by omega
    intro i t ht hpt
    rw [g i] at ht
    by_cases h1 : i = seg
    · rw [if_pos h1] at ht
      cases ht
      subst h1
      exact Ne.symm hne'
    · rw [if_neg h1] at ht
      by_cases h2 : i = s.partner
      · rw [if_pos h2] at ht
        cases ht
        subst h2
        exact Ne.symm hnp
      · rw [if_neg h2] at ht
        by_cases h3 : i = segs.length
        · rw [if_pos h3] at ht
          cases ht
          subst h3
          exact hnp
        · rw [if_neg h3] at ht
          by_cases h4 : i = segs.length + 1
          · rw [if_pos h4] at ht
            cases ht
            subst h4
            show P.partner ≠ _
            rw [hP1]
            exact hne'
          · rw [if_neg h4] at ht
            exact hN i t ht hpt

/-- The body of the loop keeps two-sidedness, provided no seg is its own
partner, which it keeps as well. -/
theorem splitSharerAt_keeps_partners {segs r : List FPrivSeg} {seg m n : Nat} {s : FPrivSeg}
    (hM : PartnersMirror segs) (hN : NoSelfPartner segs) (hs : segs[seg]? = some s)
    (h : splitSharerAt segs seg m = Except.ok (n, r)) (hsz : r.length ≤ UINT_MAX) :
    PartnersMirror r ∧ NoSelfPartner r :=
  ⟨splitSharerAt_keeps_mirror hM hs (fun hp => hN seg s hs hp) h hsz,
    splitSharerAt_keeps_noself hM hN hs h⟩
theorem partnersMirrorTest_iff (segs : List FPrivSeg) :
    partnersMirrorTest segs = true ↔ PartnersMirror segs := by
  unfold partnersMirrorTest PartnersMirror
  rw [List.all_eq_true]
  constructor
  · intro h i s hs hp
    have := h i (List.mem_range.2 (getElem?_lt_length hs))
    rw [hs] at this
    simp only [Bool.or_eq_true, beq_iff_eq] at this
    rcases this with h1 | h1
    · exact absurd h1 hp
    · cases hq : segs[s.partner]? with
      | none => rw [hq] at h1; cases h1
      | some p =>
        rw [hq] at h1
        simp only [Bool.and_eq_true, beq_iff_eq] at h1
        exact ⟨p, rfl, h1.1.1, h1.1.2, h1.2⟩
  · intro h i hi
    cases hs : segs[i]? with
    | none => rfl
    | some s =>
      simp only [Bool.or_eq_true, beq_iff_eq]
      by_cases hp : s.partner = UINT_MAX
      · exact Or.inl hp
      · obtain ⟨p, hp1, hp2, hp3, hp4⟩ := h i s hs hp
        right
        rw [hp1]
        simp only [Bool.and_eq_true, beq_iff_eq]
        exact ⟨⟨hp2, hp3⟩, hp4⟩

theorem noSelfPartnerTest_iff (segs : List FPrivSeg) :
    noSelfPartnerTest segs = true ↔ NoSelfPartner segs := by
  unfold noSelfPartnerTest NoSelfPartner
  rw [List.all_eq_true]
  constructor
  · intro h i s hs hp
    have := h i (List.mem_range.2 (getElem?_lt_length hs))
    rw [hs] at this
    simp only [Bool.or_eq_true, beq_iff_eq, bne_iff_ne, ne_eq] at this
    rcases this with h1 | h1
    · exact absurd h1 hp
    · exact h1
  · intro h i hi
    cases hs : segs[i]? with
    | none => rfl
    | some s =>
      simp only [Bool.or_eq_true, beq_iff_eq, bne_iff_ne, ne_eq]
      by_cases hp : s.partner = UINT_MAX
      · exact Or.inl hp
      · exact Or.inr (h i s hs hp)

theorem eventsFrom_length_le (evs : List FEvent) (i : Nat) (fwd : Bool) :
    (eventsFrom evs i fwd).length ≤ evs.length := by
  unfold eventsFrom
  split
  · simp only [List.length_drop]
    omega
  · simp only [List.length_reverse, List.length_take]
    omega

/-- The loop of `FixSplitSharers` returns and keeps two-sidedness. -/
theorem splitWalk_keeps_partners (v2 : Nat) :
    ∀ (w : List FEvent) (seg : Nat) (segs : List FPrivSeg),
      PartnersMirror segs → NoSelfPartner segs → seg < segs.length →
      segs.length + 2 * w.length ≤ UINT_MAX →
      ∃ r, splitWalk v2 w seg segs = Except.ok r ∧ PartnersMirror r ∧ NoSelfPartner r ∧
        segs.length ≤ r.length ∧ r.length ≤ segs.length + 2 * w.length := by
  intro w
  induction w with
  | nil =>
    intro seg segs hM hN _ _
    exact ⟨segs, rfl, hM, hN, Nat.le_refl _, by omega⟩
  | cons event rest ih =>
    intro seg segs hM hN hseg hroom
    cases rest with
    | nil => exact ⟨segs, rfl, hM, hN, Nat.le_refl _, by omega⟩
    | cons nx rest' =>
      unfold splitWalk
      simp only
      by_cases hv : event.Info.Vertex = v2
      · rw [if_neg (by simpa using hv)]
        exact ⟨segs, rfl, hM, hN, Nat.le_refl _, by omega⟩
      · rw [if_pos hv]
        have hs := List.getElem?_eq_getElem hseg
        have hpr : segs[seg].partner = UINT_MAX ∨ segs[seg].partner < segs.length := by
          by_cases hp : segs[seg].partner = UINT_MAX
          · exact Or.inl hp
          · obtain ⟨p, hp1, -⟩ := hM seg _ hs hp
            exact Or.inr (getElem?_lt_length hp1)
        obtain ⟨n, r1, h1⟩ := splitSharerAt_returns event.Info.Vertex hs hpr
        have hlen : n = segs.length ∧ segs.length < r1.length ∧ r1.length ≤ segs.length + 2 := by
          by_cases hp : segs[seg].partner = UINT_MAX
          · obtain ⟨a, b, -⟩ := splitSharerAt_single hs hp h1
            exact ⟨a, by omega, by omega⟩
          · obtain ⟨P, hP, -⟩ := hM seg _ hs hp
            obtain ⟨a, b, -⟩ := splitSharerAt_pair hs hp (hN seg _ hs hp) hP h1
            exact ⟨a, by omega, by omega⟩
        obtain ⟨hn, hl1, hl2⟩ := hlen
        simp only [List.length_cons] at hroom
        obtain ⟨hM1, hN1⟩ := splitSharerAt_keeps_partners hM hN hs h1 (by omega)
        obtain ⟨r, hr, hMr, hNr, hle, hub⟩ := ih n r1 hM1 hN1 (by omega)
          (by simp only [List.length_cons]; omega)
        refine ⟨r, ?_, hMr, hNr, by omega, ?_⟩
        · rw [h1, ok_bind]
          exact hr
        · simp only [List.length_cons] at hub ⊢
          omega
/-- The body of the `for` loop returns and keeps two-sidedness. -/
theorem fixSplitSharer_keeps_partners {st : FNodeBuilder} {sh : FSplitSharer}
    (hM : PartnersMirror st.Segs) (hN : NoSelfPartner st.Segs) (hseg : sh.Seg < st.Segs.length)
    (hroom : st.Segs.length + 2 * st.Events.length ≤ UINT_MAX) :
    ∃ st', fixSplitSharer st sh = Except.ok st' ∧ PartnersMirror st'.Segs ∧
      NoSelfPartner st'.Segs ∧ st'.Events = st.Events ∧
      st.Segs.length ≤ st'.Segs.length ∧
      st'.Segs.length ≤ st.Segs.length + 2 * st.Events.length := by
  unfold fixSplitSharer
  rw [rd_returns hseg, ok_bind]
  simp only
  cases hf : FindEvent st.Events sh.Distance with
  | none => exact ⟨st, rfl, hM, hN, rfl, Nat.le_refl _, by omega⟩
  | some i =>
    simp only
    have hwl := eventsFrom_length_le st.Events i sh.Forward
    obtain ⟨r, hr, hMr, hNr, hle, hub⟩ := splitWalk_keeps_partners st.Segs[sh.Seg].v2
      (eventsFrom st.Events i sh.Forward) sh.Seg st.Segs hM hN hseg (by omega)
    rw [hr, ok_bind]
    exact ⟨_, rfl, hMr, hNr, rfl, hle, by simp only; omega⟩

/-- The `for` loop returns and keeps two-sidedness. -/
theorem fixSplitSharersFrom_keeps_partners :
    ∀ (shs : List FSplitSharer) (st : FNodeBuilder),
      PartnersMirror st.Segs → NoSelfPartner st.Segs →
      (∀ sh ∈ shs, sh.Seg < st.Segs.length) →
      st.Segs.length + 2 * (shs.length * st.Events.length) ≤ UINT_MAX →
      ∃ st', fixSplitSharersFrom shs st = Except.ok st' ∧ PartnersMirror st'.Segs ∧
        NoSelfPartner st'.Segs := by
  intro shs
  induction shs with
  | nil =>
    intro st hM hN _ _
    exact ⟨st, rfl, hM, hN⟩
  | cons sh rest ih =>
    intro st hM hN hsh hroom
    simp only [List.length_cons, Nat.add_mul, Nat.one_mul] at hroom
    obtain ⟨st1, h1, hM1, hN1, hev, hle, hub⟩ :=
      @fixSplitSharer_keeps_partners st sh hM hN (hsh sh (List.mem_cons_self _ _))
        (by omega)
    obtain ⟨st', h', hM', hN'⟩ := ih st1 hM1 hN1
      (fun s hs => Nat.lt_of_lt_of_le (hsh s (List.mem_cons_of_mem _ hs)) hle)
      (by rw [hev]; omega)
    refine ⟨st', ?_, hM', hN'⟩
    unfold fixSplitSharersFrom
    rw [h1, ok_bind]
    exact h'
/-- C8 as amended: if every seg with a partner is the partner of its
partner, with mirrored endpoints, and no seg is its own partner, then (the
split sharers naming segs of the arena, and the 32 bit index space having room
for the pieces) `FixSplitSharers` returns and the same holds afterwards for
every seg with a partner, in particular for both halves of each split seg and
both halves of its split partner. -/
theorem FixSplitSharers_keeps_partners (st : FNodeBuilder)
    (hM : PartnersMirror st.Segs) (hN : NoSelfPartner st.Segs)
    (hsh : ∀ sh ∈ st.SplitSharers, sh.Seg < st.Segs.length)
    (hroom : st.Segs.length + 2 * (st.SplitSharers.length * st.Events.length) ≤ UINT_MAX) :
    ∃ st', FixSplitSharers st = Except.ok st' ∧ PartnersMirror st'.Segs ∧
      NoSelfPartner st'.Segs :=
  fixSplitSharersFrom_keeps_partners st.SplitSharers st hM hN hsh hroom

/-- Witness of C8 as amended, on the two-sided line that overlaps four
events. -/
theorem FixSplitSharers_keeps_partners_witness :
    PartnersMirror overlapState.Segs ∧ NoSelfPartner overlapState.Segs ∧
    (∀ sh ∈ overlapState.SplitSharers, sh.Seg < overlapState.Segs.length) ∧
    overlapState.Segs.length +
      2 * (overlapState.SplitSharers.length * overlapState.Events.length) ≤ UINT_MAX ∧
    ∃ st', FixSplitSharers overlapState = Except.ok st' ∧ PartnersMirror st'.Segs ∧
      NoSelfPartner st'.Segs :=
  ⟨(partnersMirrorTest_iff _).1 (by decide), (noSelfPartnerTest_iff _).1 (by decide),
    by decide, by decide,
    FixSplitSharers_keeps_partners overlapState ((partnersMirrorTest_iff _).1 (by decide))
      ((noSelfPartnerTest_iff _).1 (by decide)) (by decide) (by decide)⟩

/-- Counterexample to C8 as stated: a seg of length zero that is its own
partner satisfies the hypothesis, and after `FixSplitSharers` seg 2 has seg 0
as partner while the partner of seg 0 is seg 1. -/
theorem FixSplitSharers_self_partner_counterexample :
    PartnersMirror selfPartnerState.Segs ∧
    ∃ st', FixSplitSharers selfPartnerState = Except.ok st' ∧ ¬ PartnersMirror st'.Segs := by
  refine ⟨(partnersMirrorTest_iff _).1 (by decide), _, rfl, ?_⟩
  intro h
  have := (partnersMirrorTest_iff _).2 h
  revert this
  decide

theorem AdjacentIn_symm {vs : List Nat} {x y : Nat} (h : AdjacentIn vs x y) :
    AdjacentIn vs y x := by
  obtain ⟨k, h | h⟩ := h
  · exact ⟨k, Or.inr h⟩
  · exact ⟨k, Or.inl h⟩

/-- Walking forward: the first event of `eventsFrom` is the successor, and
the rest is the walk from the successor. -/
theorem eventsFrom_forward (evs : List FEvent) (i : Nat) :
    eventsFrom evs i true =
      match GetSuccessor evs i with
      | none => []
      | some n =>
        match evs[n]? with
        | some e => e :: eventsFrom evs n true
        | none => [] := by
  unfold eventsFrom GetSuccessor
  simp only [if_true]
  by_cases h : i + 1 < evs.length
  · rw [if_pos h]
    simp only
    rw [List.getElem?_eq_getElem h]
    exact List.drop_eq_getElem_cons h
  · rw [if_neg h]
    exact List.drop_eq_nil_of_le (by omega)

/-- Walking backward: the first event of `eventsFrom` is the predecessor, and
the rest is the walk from the predecessor. -/
theorem eventsFrom_backward (evs : List FEvent) (i : Nat) (hi : i < evs.length) :
    eventsFrom evs i false =
      match GetPredecessor evs i with
      | none => []
      | some n =>
        match evs[n]? with
        | some e => e :: eventsFrom evs n false
        | none => [] := by
  unfold eventsFrom GetPredecessor
  simp only [Bool.false_eq_true, if_false]
  cases i with
  | zero => simp
  | succ k =>
    rw [if_pos (Nat.succ_pos k)]
    simp only [Nat.add_sub_cancel]
    have hk : k < evs.length := by omega
    rw [List.getElem?_eq_getElem hk]
    simp only
    rw [List.take_succ, List.getElem?_eq_getElem hk]
    simp

/-- The walk of `AddMinisegs` starts at the minimum: the first event of the
sequence, followed by its successors. -/
theorem eventsFrom_minimum (evs : List FEvent) :
    (match GetMinimum evs with
      | none => []
      | some n =>
        match evs[n]? with
        | some e => e :: eventsFrom evs n true
        | none => []) = evs := by
  unfold GetMinimum eventsFrom
  cases evs with
  | nil => rfl
  | cons e es => simp

theorem startPasses_not_blocks {G : Geometry} {st : FNodeBuilder} {v : FPrivVert}
    {vertex2 sa bestang bestseg t : Nat}
    (hp : startPasses G st v vertex2 sa bestang bestseg t)
    (hb : startBlocks G st v vertex2 sa bestang bestseg t) : False := by
  obtain ⟨seg, far, hseg, hv2, hfar, hno⟩ := hp
  obtain ⟨seg', hseg', hb⟩ := hb
  rw [hseg] at hseg'
  cases hseg'
  rcases hb with hb | ⟨far', hfar', hb⟩
  · exact hv2 hb
  · rw [hfar] at hfar'
    cases hfar'
    exact hno hb

/-- When the second loop of `CheckLoopStart` returns a seg, it has walked the
whole list of starting segs and every seg of it let it go on. -/
theorem startVerify_pass (G : Geometry) (st : FNodeBuilder) (v : FPrivVert)
    (vertex2 sa bestang bestseg : Nat) :
    ∀ (fuel segnum r : Nat),
      startVerify G st v vertex2 sa bestang bestseg fuel segnum = Except.ok r →
      r ≠ UINT_MAX →
      ∃ L, linkList FPrivSeg.nextforvert st.Segs fuel segnum = Except.ok L ∧
        ∀ t ∈ L, startPasses G st v vertex2 sa bestang bestseg t := by
  intro fuel
  induction fuel with
  | zero =>
    intro segnum r h hr
    unfold startVerify at h
    split at h
    · rename_i hu
      exact ⟨[], by simp [linkList, hu, pure, Except.pure], by simp⟩
    · cases h
  | succ fuel ih =>
    intro segnum r h hr
    unfold startVerify at h
    by_cases hu : segnum = UINT_MAX
    · exact ⟨[], by simp [linkList, hu, pure, Except.pure], by simp⟩
    · rw [if_neg hu] at h
      simp only [bind_eq_ok, rd_eq_ok] at h
      obtain ⟨seg, hseg, h⟩ := h
      by_cases hv2 : seg.v2 = vertex2
      · rw [if_pos hv2, pure_eq_ok] at h
        exact absurd h.symm hr
      · rw [if_neg hv2] at h
        simp only [bind_eq_ok, rd_eq_ok] at h
        obtain ⟨far, hfar, h⟩ := h
        by_cases hb : startDiff G sa v far < bestang ∧ seg.partner ≠ bestseg
        · rw [if_pos hb, pure_eq_ok] at h
          exact absurd h.symm hr
        · rw [if_neg hb] at h
          obtain ⟨L, hL, hall⟩ := ih _ _ h hr
          refine ⟨segnum :: L, ?_, ?_⟩
          · unfold linkList
            rw [if_neg hu]
            simp only [bind_eq_ok, rd_eq_ok, pure_eq_ok]
            exact ⟨seg, hseg, L, hL, rfl⟩
          · intro t ht
            rcases List.mem_cons.1 ht with rfl | ht
            · exact ⟨seg, far, hseg, hv2, hfar, hb⟩
            · exact hall t ht

/-- When every seg of the list of starting segs lets it go on, the second
loop of `CheckLoopStart` returns `bestseg`. -/
theorem startVerify_of_pass (G : Geometry) (st : FNodeBuilder) (v : FPrivVert)
    (vertex2 sa bestang bestseg : Nat) :
    ∀ (fuel segnum : Nat) (L : List Nat),
      linkList FPrivSeg.nextforvert st.Segs fuel segnum = Except.ok L →
      (∀ t ∈ L, startPasses G st v vertex2 sa bestang bestseg t) →
      startVerify G st v vertex2 sa bestang bestseg fuel segnum = Except.ok bestseg := by
  intro fuel
  induction fuel with
  | zero =>
    intro segnum L hL hall
    unfold linkList at hL
    unfold startVerify
    split at hL
    · rename_i hu
      rw [if_pos hu]
      rfl
    · cases hL
  | succ fuel ih =>
    intro segnum L hL hall
    unfold linkList at hL
    unfold startVerify
    by_cases hu : segnum = UINT_MAX
    · rw [if_pos hu]
      rfl
    · rw [if_neg hu] at hL ⊢
      simp only [bind_eq_ok, rd_eq_ok, pure_eq_ok] at hL
      obtain ⟨seg, hseg, rest, hrest, hL⟩ := hL
      subst hL
      obtain ⟨seg', far, hseg', hv2, hfar, hno⟩ := hall segnum (List.mem_cons_self _ _)
      rw [hseg] at hseg'
      cases hseg'
      rw [rd_eq_ok.2 hseg, ok_bind, if_neg hv2, rd_eq_ok.2 hfar, ok_bind, if_neg hno]
      exact ih _ _ hrest (fun t ht => hall t (List.mem_cons_of_mem _ ht))

/-- When the list of starting segs is well formed and one of its segs stops
the second loop of `CheckLoopStart`, the loop returns `UINT_MAX`. -/
theorem startVerify_of_block (G : Geometry) (st : FNodeBuilder) (v : FPrivVert)
    (vertex2 sa bestang bestseg : Nat) :
    ∀ (fuel segnum : Nat) (L : List Nat),
      linkList FPrivSeg.nextforvert st.Segs fuel segnum = Except.ok L →
      (∀ t ∈ L, ∀ seg : FPrivSeg, st.Segs[t]? = some seg → seg.v2 < st.Vertices.length) →
      (∃ t ∈ L, startBlocks G st v vertex2 sa bestang bestseg t) →
      startVerify G st v vertex2 sa bestang bestseg fuel segnum = Except.ok UINT_MAX := by
  intro fuel
  induction fuel with
  | zero =>
    intro segnum L hL hwf hex
    unfold linkList at hL
    split at hL
    · rw [pure_eq_ok] at hL
      subst hL
      obtain ⟨t, ht, -⟩ := hex
      simp at ht
    · cases hL
  | succ fuel ih =>
    intro segnum L hL hwf hex
    unfold linkList at hL
    unfold startVerify
    by_cases hu : segnum = UINT_MAX
    · rw [if_pos hu, pure_eq_ok] at hL
      subst hL
      obtain ⟨t, ht, -⟩ := hex
      simp at ht
    · rw [if_neg hu] at hL ⊢
      simp only [bind_eq_ok, rd_eq_ok, pure_eq_ok] at hL
      obtain ⟨seg, hseg, rest, hrest, hL⟩ := hL
      subst hL
      rw [rd_eq_ok.2 hseg, ok_bind]
      by_cases hv2 : seg.v2 = vertex2
      · rw [if_pos hv2]
        rfl
      · rw [if_neg hv2]
        have hlt := hwf segnum (List.mem_cons_self _ _) seg hseg
        obtain ⟨far, hfar⟩ : ∃ far, st.Vertices[seg.v2]? = some far :=
          ⟨_, List.getElem?_eq_getElem hlt⟩
        rw [rd_eq_ok.2 hfar, ok_bind]
        by_cases hb : startDiff G sa v far < bestang ∧ seg.partner ≠ bestseg
        · rw [if_pos hb]
          rfl
        · rw [if_neg hb]
          refine ih _ _ hrest (fun t ht => hwf t (List.mem_cons_of_mem _ ht)) ?_
          obtain ⟨t, ht, hblk⟩ := hex
          rcases List.mem_cons.1 ht with rfl | ht
          · obtain ⟨seg', hseg', hblk⟩ := hblk
            rw [hseg] at hseg'
            cases hseg'
            rcases hblk with hblk | ⟨far', hfar', hblk⟩
            · exact absurd hblk hv2
            · rw [hfar] at hfar'
              cases hfar'
              exact absurd hblk hb
          · exact ⟨t, ht, hblk⟩
/-- The first loop of `CheckLoopStart` returns when the list of ending segs
ends and the start vertices of its segs are in range. -/
theorem startScan_returns (G : Geometry) (st : FNodeBuilder) (v : FPrivVert) (dx dy : Int)
    (sa : Nat) :
    ∀ (fuel segnum : Nat) (L : List Nat) (bestang bestseg : Nat),
      linkList FPrivSeg.nextforvert2 st.Segs fuel segnum = Except.ok L →
      (∀ t ∈ L, ∀ seg : FPrivSeg, st.Segs[t]? = some seg → seg.v1 < st.Vertices.length) →
      ∃ A S, startScan G st v dx dy sa fuel segnum bestang bestseg = Except.ok (A, S) := by
  intro fuel
  induction fuel with
  | zero =>
    intro segnum L bestang bestseg hL hwf
    unfold linkList at hL
    unfold startScan
    split at hL
    · rename_i hu
      rw [if_pos hu]
      exact ⟨_, _, rfl⟩
    · cases hL
  | succ fuel ih =>
    intro segnum L bestang bestseg hL hwf
    unfold linkList at hL
    unfold startScan
    by_cases hu : segnum = UINT_MAX
    · rw [if_pos hu]
      exact ⟨_, _, rfl⟩
    · rw [if_neg hu] at hL ⊢
      simp only [bind_eq_ok, rd_eq_ok, pure_eq_ok] at hL
      obtain ⟨seg, hseg, rest, hrest, hL⟩ := hL
      subst hL
      have hlt := hwf segnum (List.mem_cons_self _ _) seg hseg
      obtain ⟨far, hfar⟩ : ∃ far, st.Vertices[seg.v1]? = some far :=
        ⟨_, List.getElem?_eq_getElem hlt⟩
      rw [rd_eq_ok.2 hseg, ok_bind, rd_eq_ok.2 hfar, ok_bind]
      have hwf' : ∀ t ∈ rest, ∀ seg : FPrivSeg, st.Segs[t]? = some seg →
          seg.v1 < st.Vertices.length := fun t ht => hwf t (List.mem_cons_of_mem _ ht)
      simp only []
      split
      · exact ih _ _ _ _ hrest hwf'
      · split
        · exact ih _ _ _ _ hrest hwf'
        · exact ih _ _ _ _ hrest hwf'

/-- C11: when a seg of the list of segs starting at `vertex` has
`v2 = vertex2`, every result of `CheckLoopStart` is `UINT_MAX` (none); and
`CheckLoopStart` does return it when the list of segs ending at `vertex`
ends and the end points read from the two lists are vertices of the arena. -/
theorem CheckLoopStart_none_of_second_vertex (G : Geometry) (st : FNodeBuilder) (dx dy : Int)
    (vertex vertex2 t : Nat) (v : FPrivVert) (L : List Nat) (seg : FPrivSeg)
    (hv : st.Vertices[vertex]? = some v)
    (hL : linkList FPrivSeg.nextforvert st.Segs st.Segs.length v.segs = Except.ok L)
    (ht : t ∈ L) (hseg : st.Segs[t]? = some seg) (hv2 : seg.v2 = vertex2) :
    (∀ r, CheckLoopStart G st dx dy vertex vertex2 = Except.ok r → r = UINT_MAX) ∧
    (∀ L2, linkList FPrivSeg.nextforvert2 st.Segs st.Segs.length v.segs2 = Except.ok L2 →
      (∀ u ∈ L2, ∀ s : FPrivSeg, st.Segs[u]? = some s → s.v1 < st.Vertices.length) →
      (∀ u ∈ L, ∀ s : FPrivSeg, st.Segs[u]? = some s → s.v2 < st.Vertices.length) →
      CheckLoopStart G st dx dy vertex vertex2 = Except.ok UINT_MAX) := by
  constructor
  · intro r h
    by_contra hr
    simp only [CheckLoopStart, bind_eq_ok, rd_eq_ok] at h
    obtain ⟨v', hv', ⟨A, S⟩, -, h⟩ := h
    rw [hv] at hv'
    cases hv'
    simp only at h
    by_cases hS : S = UINT_MAX
    · rw [if_pos hS, pure_eq_ok] at h
      exact hr h.symm
    · rw [if_neg hS] at h
      obtain ⟨L', hL', hall⟩ := startVerify_pass G st v vertex2 _ _ _ _ _ _ h hr
      rw [hL] at hL'
      cases hL'
      obtain ⟨seg', far, hseg', hne, -⟩ := hall t ht
      rw [hseg] at hseg'
      cases hseg'
      exact hne hv2
  · intro L2 hL2 hwf2 hwf
    obtain ⟨A, S, hscan⟩ := startScan_returns G st v dx dy (pointToAngle G dx dy) _ _ L2
      ANGLE_MAX UINT_MAX hL2 hwf2
    unfold CheckLoopStart
    rw [rd_eq_ok.2 hv, ok_bind]
    simp only []
    rw [hscan, ok_bind]
    simp only []
    by_cases hS : S = UINT_MAX
    · rw [if_pos hS]
      rfl
    · rw [if_neg hS]
      exact startVerify_of_block G st v vertex2 _ _ _ _ _ L hL hwf
        ⟨t, ht, seg, hseg, Or.inl hv2⟩

/-- Witness of C11 on the square: seg 1 starts at vertex 1 and ends at vertex
2, so the loop start at vertex 1 towards vertex 2 returns nothing. -/
theorem CheckLoopStart_none_of_second_vertex_witness :
    (squareState.Vertices[1]? = some ⟨0, 2, 1, 0⟩ ∧
      linkList FPrivSeg.nextforvert squareState.Segs squareState.Segs.length 1 =
        Except.ok [1] ∧
      squareState.Segs[1]? = some (exampleSeg 1 2 UINT_MAX UINT_MAX) ∧
      (exampleSeg 1 2 UINT_MAX UINT_MAX).v2 = 2) ∧
    CheckLoopStart exampleGeometry squareState 1 0 1 2 = Except.ok UINT_MAX :=
  ⟨⟨rfl, rfl, rfl, rfl⟩,
    (CheckLoopStart_none_of_second_vertex exampleGeometry squareState 1 0 1 2 1 ⟨0, 2, 1, 0⟩
      [1] (exampleSeg 1 2 UINT_MAX UINT_MAX) rfl rfl (by decide) rfl rfl).2 [0] rfl
      (by
        intro u hu s hs
        rw [List.mem_singleton] at hu
        subst hu
        cases hs
        decide)
      (by
        intro u hu s hs
        rw [List.mem_singleton] at hu
        subst hu
        cases hs
        decide)⟩

/-- C12: with `bestseg`, `bestang` what the first loop of `CheckLoopStart`
keeps for the segs ending at `vertex` (a candidate of least difference and
its difference): a candidate exists exactly when `bestseg` is not `UINT_MAX`;
`CheckLoopStart` returns `bestseg` or `UINT_MAX`; it returns `bestseg`, not
none, exactly when a candidate exists and every seg of the list of segs
starting at `vertex` has `v2 ≠ vertex2` and, when its difference is below
`bestang`, has `bestseg` as its partner; and a starting seg of smaller
difference whose partner is not `bestseg` makes the result `UINT_MAX`. -/
theorem CheckLoopStart_returns_best_iff (G : Geometry) (st : FNodeBuilder) (dx dy : Int)
    (vertex vertex2 : Nat) (v : FPrivVert) (bestang bestseg : Nat)
    (hv : st.Vertices[vertex]? = some v)
    (hscan : startScan G st v dx dy (pointToAngle G dx dy) st.Segs.length v.segs2
      ANGLE_MAX UINT_MAX = Except.ok (bestang, bestseg)) :
    (∃ L2, linkList FPrivSeg.nextforvert2 st.Segs st.Segs.length v.segs2 = Except.ok L2 ∧
      (bestseg ≠ UINT_MAX ↔
        ∃ t ∈ L2, ∃ (seg : FPrivSeg) (far : FPrivVert), st.Segs[t]? = some seg ∧
          st.Vertices[seg.v1]? = some far ∧
          ¬ startExcluded G v dx dy (pointToAngle G dx dy) far) ∧
      (bestseg ≠ UINT_MAX → bestseg ∈ L2 ∧
        ∃ (seg : FPrivSeg) (far : FPrivVert), st.Segs[bestseg]? = some seg ∧
          st.Vertices[seg.v1]? = some far ∧
          ¬ startExcluded G v dx dy (pointToAngle G dx dy) far ∧
          startDiff G (pointToAngle G dx dy) v far = bestang)) ∧
    (∀ r, CheckLoopStart G st dx dy vertex vertex2 = Except.ok r →
      r = bestseg ∨ r = UINT_MAX) ∧
    ((CheckLoopStart G st dx dy vertex vertex2 = Except.ok bestseg ∧ bestseg ≠ UINT_MAX) ↔
      (bestseg ≠ UINT_MAX ∧
        ∃ L, linkList FPrivSeg.nextforvert st.Segs st.Segs.length v.segs = Except.ok L ∧
          ∀ t ∈ L, ∃ (seg : FPrivSeg) (far : FPrivVert), st.Segs[t]? = some seg ∧
            seg.v2 ≠ vertex2 ∧ st.Vertices[seg.v2]? = some far ∧
            (startDiff G (pointToAngle G dx dy) v far < bestang → seg.partner = bestseg))) ∧
    (∀ (L : List Nat) (t r : Nat) (seg : FPrivSeg) (far : FPrivVert),
      linkList FPrivSeg.nextforvert st.Segs st.Segs.length v.segs = Except.ok L → t ∈ L →
      st.Segs[t]? = some seg → st.Vertices[seg.v2]? = some far →
      startDiff G (pointToAngle G dx dy) v far < bestang → seg.partner ≠ bestseg →
      CheckLoopStart G st dx dy vertex vertex2 = Except.ok r → r = UINT_MAX) := by
  have hcl : CheckLoopStart G st dx dy vertex vertex2 =
      (if bestseg = UINT_MAX then pure UINT_MAX
        else startVerify G st v vertex2 (pointToAngle G dx dy) bestang bestseg
          st.Segs.length v.segs) := by
    unfold CheckLoopStart
    rw [rd_eq_ok.2 hv, ok_bind]
    simp only []
    rw [hscan, ok_bind]
  refine ⟨?_, ?_, ?_, ?_⟩
  · obtain ⟨L2, hL2, hcase⟩ := startScan_spec G st v dx dy _ _ _ _ _ _ _ hscan
    refine ⟨L2, hL2, ?_, ?_⟩
    · constructor
      · intro hb
        rcases hcase with ⟨h1, -, -⟩ | ⟨h1, -, ⟨seg, far, hseg, hfar, hne, -⟩, -⟩
        · exact absurd h1 hb
        · exact ⟨bestseg, h1, seg, far, hseg, hfar, hne⟩
      · rintro ⟨t, ht, seg, far, hseg, hfar, hne⟩
        rcases hcase with ⟨-, -, h3⟩ | ⟨h1, -, -, -⟩
        · have := h3 t ht seg far hseg hfar hne
          have hle := subU32_le_max (pointToAngle G dx dy)
            (pointToAngle G (wrapI32 (far.x - v.x)) (wrapI32 (far.y - v.y)))
          unfold startDiff at this
          omega
        · exact (linkList_mem_lt _ _ _ hL2 _ h1).2
    · intro hb
      rcases hcase with ⟨h1, -, -⟩ | ⟨h1, -, ⟨seg, far, hseg, hfar, hne, hd⟩, -⟩
      · exact absurd h1 hb
      · exact ⟨h1, seg, far, hseg, hfar, hne, hd⟩
  · intro r h
    rw [hcl] at h
    by_cases hb : bestseg = UINT_MAX
    · rw [if_pos hb, pure_eq_ok] at h
      exact Or.inr h.symm
    · rw [if_neg hb] at h
      exact startVerify_result G st v vertex2 _ _ _ _ _ _ h
  · constructor
    · rintro ⟨h, hb⟩
      rw [hcl, if_neg hb] at h
      obtain ⟨L, hL, hall⟩ := startVerify_pass G st v vertex2 _ _ _ _ _ _ h hb
      refine ⟨hb, L, hL, ?_⟩
      intro t ht
      obtain ⟨seg, far, hseg, hne, hfar, hno⟩ := hall t ht
      refine ⟨seg, far, hseg, hne, hfar, ?_⟩
      intro hlt
      by_contra hp
      exact hno ⟨hlt, hp⟩
    · rintro ⟨hb, L, hL, hall⟩
      refine ⟨?_, hb⟩
      rw [hcl, if_neg hb]
      refine startVerify_of_pass G st v vertex2 _ _ _ _ _ L hL ?_
      intro t ht
      obtain ⟨seg, far, hseg, hne, hfar, himp⟩ := hall t ht
      exact ⟨seg, far, hseg, hne, hfar, fun hh => hh.2 (himp hh.1)⟩
  · intro L t r seg far hL ht hseg hfar hlt hp h
    by_contra hr
    rw [hcl] at h
    by_cases hb : bestseg = UINT_MAX
    · rw [if_pos hb, pure_eq_ok] at h
      exact hr h.symm
    · rw [if_neg hb] at h
      obtain ⟨L', hL', hall⟩ := startVerify_pass G st v vertex2 _ _ _ _ _ _ h hr
      rw [hL] at hL'
      cases hL'
      exact startPasses_not_blocks (hall t ht) ⟨seg, hseg, Or.inr ⟨far, hfar, hlt, hp⟩⟩

/-- Witness of C12 on the square: the loop start at the left event towards
the right one returns seg 0. -/
theorem CheckLoopStart_returns_best_iff_witness :
    (squareState.Vertices[1]? = some ⟨0, 2, 1, 0⟩ ∧
      startScan exampleGeometry squareState ⟨0, 2, 1, 0⟩ 1 0 (pointToAngle exampleGeometry 1 0)
        squareState.Segs.length 0 ANGLE_MAX UINT_MAX = Except.ok (1073741824, 0)) ∧
    CheckLoopStart exampleGeometry squareState 1 0 1 4 = Except.ok 0 ∧ 0 ≠ UINT_MAX :=
  ⟨⟨rfl, rfl⟩,
    (CheckLoopStart_returns_best_iff exampleGeometry squareState 1 0 1 4 ⟨0, 2, 1, 0⟩
      1073741824 0 rfl rfl).2.2.1.2
      ⟨by decide, [1], rfl, by
        intro t ht
        rw [List.mem_singleton] at ht
        subst ht
        exact ⟨exampleSeg 1 2 UINT_MAX UINT_MAX, ⟨0, 4, 2, 1⟩, rfl, by decide, rfl, by decide⟩⟩⟩

/-- The first loop of `CheckLoopStart` keeps, of the segs of least difference
that are not left out, the one met last: every such seg after the kept one has
a strictly greater difference. -/
theorem startScan_last (G : Geometry) (st : FNodeBuilder) (v : FPrivVert) (dx dy : Int)
    (sa : Nat) :
    ∀ (fuel segnum bestang bestseg A S : Nat),
      startScan G st v dx dy sa fuel segnum bestang bestseg = Except.ok (A, S) →
      ∃ L, linkList FPrivSeg.nextforvert2 st.Segs fuel segnum = Except.ok L ∧
        ((S = bestseg ∧ A = bestang ∧
            ∀ t ∈ L, ∀ (seg : FPrivSeg) (far : FPrivVert), st.Segs[t]? = some seg →
              st.Vertices[seg.v1]? = some far → ¬ startExcluded G v dx dy sa far →
              bestang < startDiff G sa v far) ∨
         (∃ L1 L2, L = L1 ++ S :: L2 ∧ A ≤ bestang ∧
            (∃ (seg : FPrivSeg) (far : FPrivVert), st.Segs[S]? = some seg ∧
              st.Vertices[seg.v1]? = some far ∧ ¬ startExcluded G v dx dy sa far ∧
              startDiff G sa v far = A) ∧
            (∀ t ∈ L1, ∀ (seg : FPrivSeg) (far : FPrivVert), st.Segs[t]? = some seg →
              st.Vertices[seg.v1]? = some far → ¬ startExcluded G v dx dy sa far →
              A ≤ startDiff G sa v far) ∧
            ∀ t ∈ L2, ∀ (seg : FPrivSeg) (far : FPrivVert), st.Segs[t]? = some seg →
              st.Vertices[seg.v1]? = some far → ¬ startExcluded G v dx dy sa far →
              A < startDiff G sa v far)) := by
  intro fuel
  induction fuel with
  | zero =>
    intro segnum bestang bestseg A S h
    unfold startScan at h
    split at h
    · rename_i hu
      rw [pure_eq_ok] at h
      cases h
      exact ⟨[], by simp [linkList, hu, pure, Except.pure], Or.inl ⟨rfl, rfl, by simp⟩⟩
    · cases h
  | succ fuel ih =>
    intro segnum bestang bestseg A S h
    unfold startScan at h
    by_cases hu : segnum = UINT_MAX
    · rw [if_pos hu, pure_eq_ok] at h
      cases h
      exact ⟨[], by simp [linkList, hu, pure, Except.pure], Or.inl ⟨rfl, rfl, by simp⟩⟩
    · rw [if_neg hu] at h
      simp only [bind_eq_ok, rd_eq_ok] at h
      obtain ⟨seg, hseg, far, hfar, h⟩ := h
      have hlist : ∀ L, linkList FPrivSeg.nextforvert2 st.Segs fuel seg.nextforvert2 =
          Except.ok L →
          linkList FPrivSeg.nextforvert2 st.Segs (fuel + 1) segnum = Except.ok (segnum :: L) := by
        intro L hL
        unfold linkList
        rw [if_neg hu]
        simp only [bind_eq_ok, rd_eq_ok, pure_eq_ok]
        exact ⟨seg, hseg, L, hL, rfl⟩
      have hsame : ∀ (seg' : FPrivSeg) (far' : FPrivVert), st.Segs[segnum]? = some seg' →
          st.Vertices[seg'.v1]? = some far' → far' = far := by
        intro seg' far' h1 h2
        rw [hseg] at h1
        cases h1
        rw [hfar] at h2
        cases h2
        rfl
      by_cases hex : startDiff G sa v far < G.ANGLE_EPSILON ∧
          G.PointOnSide far.x far.y v.x v.y dx dy = 0
      · rw [if_pos hex] at h
        obtain ⟨L, hL, hcase⟩ := ih _ _ _ _ _ h
        refine ⟨segnum :: L, hlist L hL, ?_⟩
        rcases hcase with ⟨h1, h2, h3⟩ | ⟨L1, L2, hsp, h2, h3, h4, h5⟩
        · refine Or.inl ⟨h1, h2, ?_⟩
          intro t ht seg' far' hs' hf' hne
          rcases List.mem_cons.1 ht with rfl | ht
          · exact absurd (hsame seg' far' hs' hf' ▸ hex) hne
          · exact h3 t ht seg' far' hs' hf' hne
        · refine Or.inr ⟨segnum :: L1, L2, by rw [hsp]; rfl, h2, h3, ?_, h5⟩
          intro t ht seg' far' hs' hf' hne
          rcases List.mem_cons.1 ht with rfl | ht
          · exact absurd (hsame seg' far' hs' hf' ▸ hex) hne
          · exact h4 t ht seg' far' hs' hf' hne
      · rw [if_neg hex] at h
        by_cases hle : startDiff G sa v far ≤ bestang
        · rw [if_pos hle] at h
          obtain ⟨L, hL, hcase⟩ := ih _ _ _ _ _ h
          refine ⟨segnum :: L, hlist L hL, Or.inr ?_⟩
          rcases hcase with ⟨h1, h2, h3⟩ | ⟨L1, L2, hsp, h2, h3, h4, h5⟩
          · subst h1 h2
            exact ⟨[], L, rfl, hle, ⟨seg, far, hseg, hfar, hex, rfl⟩, by simp, h3⟩
          · refine ⟨segnum :: L1, L2, by rw [hsp]; rfl, Nat.le_trans h2 hle, h3, ?_, h5⟩
            intro t ht seg' far' hs' hf' hne
            rcases List.mem_cons.1 ht with rfl | ht
            · rw [hsame seg' far' hs' hf']
              exact h2
            · exact h4 t ht seg' far' hs' hf' hne
        · rw [if_neg hle] at h
          obtain ⟨L, hL, hcase⟩ := ih _ _ _ _ _ h
          refine ⟨segnum :: L, hlist L hL, ?_⟩
          rcases hcase with ⟨h1, h2, h3⟩ | ⟨L1, L2, hsp, h2, h3, h4, h5⟩
          · refine Or.inl ⟨h1, h2, ?_⟩
            intro t ht seg' far' hs' hf' hne
            rcases List.mem_cons.1 ht with rfl | ht
            · rw [hsame seg' far' hs' hf']
              exact Nat.lt_of_not_le hle
            · exact h3 t ht seg' far' hs' hf' hne
          · refine Or.inr ⟨segnum :: L1, L2, by rw [hsp]; rfl, h2, h3, ?_, h5⟩
            intro t ht seg' far' hs' hf' hne
            rcases List.mem_cons.1 ht with rfl | ht
            · rw [hsame seg' far' hs' hf']
              exact Nat.le_trans h2 (Nat.le_of_lt (Nat.lt_of_not_le hle))
            · exact h4 t ht seg' far' hs' hf' hne
/-- The on-splitter test of the first loop of `CheckLoopEnd` is
`endExcluded`. -/
theorem endOnSplitter_iff {G : Geometry} {st : FNodeBuilder} {v : FPrivVert} {dx dy : Int}
    {sa : Nat} {seg : FPrivSeg} {far : FPrivVert} {b : Bool}
    (h : (if endDiff G sa v far < G.ANGLE_EPSILON then do
          let near ← rd st.Vertices seg.v1
          pure (decide (G.PointOnSide near.x near.y v.x v.y dx dy = 0))
        else pure false) = Except.ok b) :
    b = true ↔ endExcluded G st v dx dy sa seg far := by
  unfold endExcluded
  by_cases hlt : endDiff G sa v far < G.ANGLE_EPSILON
  · rw [if_pos hlt] at h
    simp only [bind_eq_ok, rd_eq_ok, pure_eq_ok] at h
    obtain ⟨near, hnear, hb⟩ := h
    subst hb
    constructor
    · intro hd
      exact ⟨hlt, near, hnear, of_decide_eq_true hd⟩
    · rintro ⟨-, near', hnear', hz⟩
      rw [hnear] at hnear'
      cases hnear'
      exact decide_eq_true hz
  · rw [if_neg hlt, pure_eq_ok] at h
    subst h
    constructor
    · intro hd
      cases hd
    · rintro ⟨hlt', -⟩
      exact absurd hlt' hlt

/-- The first loop of `CheckLoopEnd` walks the list of starting segs and
keeps, of the segs of least difference that are not left out, the one met
last. -/
theorem endScan_spec (G : Geometry) (st : FNodeBuilder) (v : FPrivVert) (dx dy : Int)
    (sa : Nat) :
    ∀ (fuel segnum bestang bestseg A S : Nat),
      endScan G st v dx dy sa fuel segnum bestang bestseg = Except.ok (A, S) →
      ∃ L, linkList FPrivSeg.nextforvert st.Segs fuel segnum = Except.ok L ∧
        ((S = bestseg ∧ A = bestang ∧
            ∀ t ∈ L, ∀ (seg : FPrivSeg) (far : FPrivVert), st.Segs[t]? = some seg →
              st.Vertices[seg.v2]? = some far → ¬ endExcluded G st v dx dy sa seg far →
              bestang < endDiff G sa v far) ∨
         (∃ L1 L2, L = L1 ++ S :: L2 ∧ A ≤ bestang ∧
            (∃ (seg : FPrivSeg) (far : FPrivVert), st.Segs[S]? = some seg ∧
              st.Vertices[seg.v2]? = some far ∧ ¬ endExcluded G st v dx dy sa seg far ∧
              endDiff G sa v far = A) ∧
            (∀ t ∈ L1, ∀ (seg : FPrivSeg) (far : FPrivVert), st.Segs[t]? = some seg →
              st.Vertices[seg.v2]? = some far → ¬ endExcluded G st v dx dy sa seg far →
              A ≤ endDiff G sa v far) ∧
            ∀ t ∈ L2, ∀ (seg : FPrivSeg) (far : FPrivVert), st.Segs[t]? = some seg →
              st.Vertices[seg.v2]? = some far → ¬ endExcluded G st v dx dy sa seg far →
              A < endDiff G sa v far)) := by
  intro fuel
  induction fuel with
  | zero =>
    intro segnum bestang bestseg A S h
    unfold endScan at h
    split at h
    · rename_i hu
      rw [pure_eq_ok] at h
      cases h
      exact ⟨[], by simp [linkList, hu, pure, Except.pure], Or.inl ⟨rfl, rfl, by simp⟩⟩
    · cases h
  | succ fuel ih =>
    intro segnum bestang bestseg A S h
    unfold endScan at h
    by_cases hu : segnum = UINT_MAX
    · rw [if_pos hu, pure_eq_ok] at h
      cases h
      exact ⟨[], by simp [linkList, hu, pure, Except.pure], Or.inl ⟨rfl, rfl, by simp⟩⟩
    · rw [if_neg hu] at h
      simp only [bind_eq_ok, rd_eq_ok] at h
      obtain ⟨seg, hseg, far, hfar, onS, honS, h⟩ := h
      have hon := endOnSplitter_iff honS
      have hlist : ∀ L, linkList FPrivSeg.nextforvert st.Segs fuel seg.nextforvert =
          Except.ok L →
          linkList FPrivSeg.nextforvert st.Segs (fuel + 1) segnum = Except.ok (segnum :: L) := by
        intro L hL
        unfold linkList
        rw [if_neg hu]
        simp only [bind_eq_ok, rd_eq_ok, pure_eq_ok]
        exact ⟨seg, hseg, L, hL, rfl⟩
      have hsame : ∀ (seg' : FPrivSeg) (far' : FPrivVert), st.Segs[segnum]? = some seg' →
          st.Vertices[seg'.v2]? = some far' → seg' = seg ∧ far' = far := by
        intro seg' far' h1 h2
        rw [hseg] at h1
        cases h1
        rw [hfar] at h2
        cases h2
        exact ⟨rfl, rfl⟩
      by_cases hex : onS = true
      · rw [if_pos hex] at h
        have hexc := hon.1 hex
        obtain ⟨L, hL, hcase⟩ := ih _ _ _ _ _ h
        refine ⟨segnum :: L, hlist L hL, ?_⟩
        rcases hcase with ⟨h1, h2, h3⟩ | ⟨L1, L2, hsp, h2, h3, h4, h5⟩
        · refine Or.inl ⟨h1, h2, ?_⟩
          intro t ht seg' far' hs' hf' hne
          rcases List.mem_cons.1 ht with rfl | ht
          · obtain ⟨e1, e2⟩ := hsame seg' far' hs' hf'
            subst e1 e2
            exact absurd hexc hne
          · exact h3 t ht seg' far' hs' hf' hne
        · refine Or.inr ⟨segnum :: L1, L2, by rw [hsp]; rfl, h2, h3, ?_, h5⟩
          intro t ht seg' far' hs' hf' hne
          rcases List.mem_cons.1 ht with rfl | ht
          · obtain ⟨e1, e2⟩ := hsame seg' far' hs' hf'
            subst e1 e2
            exact absurd hexc hne
          · exact h4 t ht seg' far' hs' hf' hne
      · rw [if_neg hex] at h
        have hexc : ¬ endExcluded G st v dx dy sa seg far := fun hh => hex (hon.2 hh)
        by_cases hle : endDiff G sa v far ≤ bestang
        · rw [if_pos hle] at h
          obtain ⟨L, hL, hcase⟩ := ih _ _ _ _ _ h
          refine ⟨segnum :: L, hlist L hL, Or.inr ?_⟩
          rcases hcase with ⟨h1, h2, h3⟩ | ⟨L1, L2, hsp, h2, h3, h4, h5⟩
          · subst h1 h2
            exact ⟨[], L, rfl, hle, ⟨seg, far, hseg, hfar, hexc, rfl⟩, by simp, h3⟩
          · refine ⟨segnum :: L1, L2, by rw [hsp]; rfl, Nat.le_trans h2 hle, h3, ?_, h5⟩
            intro t ht seg' far' hs' hf' hne
            rcases List.mem_cons.1 ht with rfl | ht
            · rw [(hsame seg' far' hs' hf').2]
              exact h2
            · exact h4 t ht seg' far' hs' hf' hne
        · rw [if_neg hle] at h
          obtain ⟨L, hL, hcase⟩ := ih _ _ _ _ _ h
          refine ⟨segnum :: L, hlist L hL, ?_⟩
          rcases hcase with ⟨h1, h2, h3⟩ | ⟨L1, L2, hsp, h2, h3, h4, h5⟩
          · refine Or.inl ⟨h1, h2, ?_⟩
            intro t ht seg' far' hs' hf' hne
            rcases List.mem_cons.1 ht with rfl | ht
            · rw [(hsame seg' far' hs' hf').2]
              exact Nat.lt_of_not_le hle
            · exact h3 t ht seg' far' hs' hf' hne
          · refine Or.inr ⟨segnum :: L1, L2, by rw [hsp]; rfl, h2, h3, ?_, h5⟩
            intro t ht seg' far' hs' hf' hne
            rcases List.mem_cons.1 ht with rfl | ht
            · rw [(hsame seg' far' hs' hf').2]
              exact Nat.le_trans h2 (Nat.le_of_lt (Nat.lt_of_not_le hle))
            · exact h4 t ht seg' far' hs' hf' hne
/-- Counterexample to C13 as stated: in `tieState` the segs 0 and 1 end at
vertex 0 with the same difference and seg 0 is met first, yet
`CheckLoopStart` returns seg 1; the segs 2 and 3 start at vertex 3 with the
same difference and seg 2 is met first, yet `CheckLoopEnd` returns seg 3. -/
theorem CheckLoop_tie_counterexample :
    (linkList FPrivSeg.nextforvert2 tieState.Segs tieState.Segs.length 0 = Except.ok [0, 1] ∧
      startDiff exampleGeometry (pointToAngle exampleGeometry 1 0) ⟨0, 0, UINT_MAX, 0⟩
          ⟨0, -2, 0, UINT_MAX⟩ =
        startDiff exampleGeometry (pointToAngle exampleGeometry 1 0) ⟨0, 0, UINT_MAX, 0⟩
          ⟨0, -4, 1, UINT_MAX⟩ ∧
      ¬ startExcluded exampleGeometry ⟨0, 0, UINT_MAX, 0⟩ 1 0 (pointToAngle exampleGeometry 1 0)
          ⟨0, -2, 0, UINT_MAX⟩ ∧
      CheckLoopStart exampleGeometry tieState 1 0 0 3 = Except.ok 1) ∧
    (linkList FPrivSeg.nextforvert tieState.Segs tieState.Segs.length 2 = Except.ok [2, 3] ∧
      endDiff exampleGeometry (addU32 (pointToAngle exampleGeometry 1 0) ANGLE_180)
          ⟨8, 0, 2, UINT_MAX⟩ ⟨8, 2, UINT_MAX, 2⟩ =
        endDiff exampleGeometry (addU32 (pointToAngle exampleGeometry 1 0) ANGLE_180)
          ⟨8, 0, 2, UINT_MAX⟩ ⟨8, 4, UINT_MAX, 3⟩ ∧
      ¬ endDiff exampleGeometry (addU32 (pointToAngle exampleGeometry 1 0) ANGLE_180)
          ⟨8, 0, 2, UINT_MAX⟩ ⟨8, 2, UINT_MAX, 2⟩ < exampleGeometry.ANGLE_EPSILON ∧
      CheckLoopEnd exampleGeometry tieState 1 0 3 = Except.ok 3) :=
  ⟨⟨rfl, by decide, by unfold startExcluded; decide, rfl⟩, ⟨rfl, by decide, by decide, rfl⟩⟩

/-- C13, amended: of the candidate segs that attain the least difference,
the one kept and returned is the last met in the order of the list.  A seg
`s` returned by `CheckLoopStart` splits the list of segs ending at `vertex`
into `L1 ++ s :: L2`, where no candidate of `L1` has a smaller difference and
every candidate of `L2` has a strictly greater one; likewise a seg returned by
`CheckLoopEnd` for the list of segs starting at `vertex`. -/
theorem CheckLoop_ties_keep_last (G : Geometry) (st : FNodeBuilder) (dx dy : Int)
    (vertex vertex2 : Nat) :
    (∀ s, CheckLoopStart G st dx dy vertex vertex2 = Except.ok s → s ≠ UINT_MAX →
      ∃ (v : FPrivVert) (L1 L2 : List Nat) (seg : FPrivSeg) (far : FPrivVert),
        st.Vertices[vertex]? = some v ∧
        linkList FPrivSeg.nextforvert2 st.Segs st.Segs.length v.segs2 =
          Except.ok (L1 ++ s :: L2) ∧
        st.Segs[s]? = some seg ∧ st.Vertices[seg.v1]? = some far ∧
        ¬ startExcluded G v dx dy (pointToAngle G dx dy) far ∧
        (∀ t ∈ L1, ∀ (seg' : FPrivSeg) (far' : FPrivVert), st.Segs[t]? = some seg' →
          st.Vertices[seg'.v1]? = some far' →
          ¬ startExcluded G v dx dy (pointToAngle G dx dy) far' →
          startDiff G (pointToAngle G dx dy) v far ≤
            startDiff G (pointToAngle G dx dy) v far') ∧
        ∀ t ∈ L2, ∀ (seg' : FPrivSeg) (far' : FPrivVert), st.Segs[t]? = some seg' →
          st.Vertices[seg'.v1]? = some far' →
          ¬ startExcluded G v dx dy (pointToAngle G dx dy) far' →
          startDiff G (pointToAngle G dx dy) v far <
            startDiff G (pointToAngle G dx dy) v far') ∧
    (∀ s, CheckLoopEnd G st dx dy vertex = Except.ok s → s ≠ UINT_MAX →
      ∃ (v : FPrivVert) (L1 L2 : List Nat) (seg : FPrivSeg) (far : FPrivVert),
        st.Vertices[vertex]? = some v ∧
        linkList FPrivSeg.nextforvert st.Segs st.Segs.length v.segs =
          Except.ok (L1 ++ s :: L2) ∧
        st.Segs[s]? = some seg ∧ st.Vertices[seg.v2]? = some far ∧
        ¬ endExcluded G st v dx dy (addU32 (pointToAngle G dx dy) ANGLE_180) seg far ∧
        (∀ t ∈ L1, ∀ (seg' : FPrivSeg) (far' : FPrivVert), st.Segs[t]? = some seg' →
          st.Vertices[seg'.v2]? = some far' →
          ¬ endExcluded G st v dx dy (addU32 (pointToAngle G dx dy) ANGLE_180) seg' far' →
          endDiff G (addU32 (pointToAngle G dx dy) ANGLE_180) v far ≤
            endDiff G (addU32 (pointToAngle G dx dy) ANGLE_180) v far') ∧
        ∀ t ∈ L2, ∀ (seg' : FPrivSeg) (far' : FPrivVert), st.Segs[t]? = some seg' →
          st.Vertices[seg'.v2]? = some far' →
          ¬ endExcluded G st v dx dy (addU32 (pointToAngle G dx dy) ANGLE_180) seg' far' →
          endDiff G (addU32 (pointToAngle G dx dy) ANGLE_180) v far <
            endDiff G (addU32 (pointToAngle G dx dy) ANGLE_180) v far') := by
  constructor
  · intro s h hs
    simp only [CheckLoopStart, bind_eq_ok, rd_eq_ok] at h
    obtain ⟨v, hv, ⟨A, S⟩, hscan, h⟩ := h
    obtain ⟨L, hL, hcase⟩ := startScan_last G st v dx dy _ _ _ _ _ _ _ hscan
    simp only at h
    by_cases hS : S = UINT_MAX
    · rw [if_pos hS, pure_eq_ok] at h
      exact absurd h.symm hs
    · rw [if_neg hS] at h
      rcases startVerify_result G st v vertex2 _ _ _ _ _ _ h with rfl | hr
      · rcases hcase with ⟨h1, -, -⟩ | ⟨L1, L2, hsp, -, ⟨seg, far, hseg, hfar, hne, hd⟩, h4, h5⟩
        · exact absurd h1 hS
        · subst hsp
          refine ⟨v, L1, L2, seg, far, hv, hL, hseg, hfar, hne, ?_, ?_⟩
          · intro t ht seg' far' hs' hf' hne'
            rw [hd]
            exact h4 t ht seg' far' hs' hf' hne'
          · intro t ht seg' far' hs' hf' hne'
            rw [hd]
            exact h5 t ht seg' far' hs' hf' hne'
      · exact absurd hr hs
  · intro s h hs
    simp only [CheckLoopEnd, bind_eq_ok, rd_eq_ok] at h
    obtain ⟨v, hv, ⟨A, S⟩, hscan, h⟩ := h
    obtain ⟨L, hL, hcase⟩ := endScan_spec G st v dx dy _ _ _ _ _ _ _ hscan
    simp only at h
    by_cases hS : S = UINT_MAX
    · rw [if_pos hS, pure_eq_ok] at h
      exact absurd h.symm hs
    · rw [if_neg hS] at h
      rcases endVerify_result G st v _ _ _ _ _ _ h with rfl | hr
      · rcases hcase with ⟨h1, -, -⟩ | ⟨L1, L2, hsp, -, ⟨seg, far, hseg, hfar, hne, hd⟩, h4, h5⟩
        · exact absurd h1 hS
        · subst hsp
          refine ⟨v, L1, L2, seg, far, hv, hL, hseg, hfar, hne, ?_, ?_⟩
          · intro t ht seg' far' hs' hf' hne'
            rw [hd]
            exact h4 t ht seg' far' hs' hf' hne'
          · intro t ht seg' far' hs' hf' hne'
            rw [hd]
            exact h5 t ht seg' far' hs' hf' hne'
      · exact absurd hr hs

/-- Witness of the amended C13 on the two hubs of `tieState`. -/
theorem CheckLoop_ties_keep_last_witness :
    (CheckLoopStart exampleGeometry tieState 1 0 0 3 = Except.ok 1 ∧ 1 ≠ UINT_MAX) ∧
    ∃ (v : FPrivVert) (L1 L2 : List Nat) (seg : FPrivSeg) (far : FPrivVert),
      tieState.Vertices[0]? = some v ∧
      linkList FPrivSeg.nextforvert2 tieState.Segs tieState.Segs.length v.segs2 =
        Except.ok (L1 ++ 1 :: L2) ∧
      tieState.Segs[1]? = some seg ∧ tieState.Vertices[seg.v1]? = some far ∧
      ¬ startExcluded exampleGeometry v 1 0 (pointToAngle exampleGeometry 1 0) far ∧
      (∀ t ∈ L1, ∀ (seg' : FPrivSeg) (far' : FPrivVert), tieState.Segs[t]? = some seg' →
        tieState.Vertices[seg'.v1]? = some far' →
        ¬ startExcluded exampleGeometry v 1 0 (pointToAngle exampleGeometry 1 0) far' →
        startDiff exampleGeometry (pointToAngle exampleGeometry 1 0) v far ≤
          startDiff exampleGeometry (pointToAngle exampleGeometry 1 0) v far') ∧
      ∀ t ∈ L2, ∀ (seg' : FPrivSeg) (far' : FPrivVert), tieState.Segs[t]? = some seg' →
        tieState.Vertices[seg'.v1]? = some far' →
        ¬ startExcluded exampleGeometry v 1 0 (pointToAngle exampleGeometry 1 0) far' →
        startDiff exampleGeometry (pointToAngle exampleGeometry 1 0) v far <
          startDiff exampleGeometry (pointToAngle exampleGeometry 1 0) v far' :=
  ⟨⟨rfl, by decide⟩,
    (CheckLoop_ties_keep_last exampleGeometry tieState 1 0 0 3).1 1 rfl (by decide)⟩

/-- When the second loop of `CheckLoopEnd` returns a seg, it has walked the
whole list of ending segs and every seg of it let it go on. -/
theorem endVerify_pass (G : Geometry) (st : FNodeBuilder) (v : FPrivVert)
    (sa bestang bestseg : Nat) :
    ∀ (fuel segnum r : Nat),
      endVerify G st v sa bestang bestseg fuel segnum = Except.ok r →
      r ≠ UINT_MAX →
      ∃ L, linkList FPrivSeg.nextforvert2 st.Segs fuel segnum = Except.ok L ∧
        ∀ t ∈ L, endPasses G st v sa bestang bestseg t := by
  intro fuel
  induction fuel with
  | zero =>
    intro segnum r h hr
    unfold endVerify at h
    split at h
    · rename_i hu
      exact ⟨[], by simp [linkList, hu, pure, Except.pure], by simp⟩
    · cases h
  | succ fuel ih =>
    intro segnum r h hr
    unfold endVerify at h
    by_cases hu : segnum = UINT_MAX
    · exact ⟨[], by simp [linkList, hu, pure, Except.pure], by simp⟩
    · rw [if_neg hu] at h
      simp only [bind_eq_ok, rd_eq_ok] at h
      obtain ⟨seg, hseg, far, hfar, h⟩ := h
      by_cases hb : endDiff G sa v far < bestang ∧ seg.partner ≠ bestseg
      · rw [if_pos hb, pure_eq_ok] at h
        exact absurd h.symm hr
      · rw [if_neg hb] at h
        obtain ⟨L, hL, hall⟩ := ih _ _ h hr
        refine ⟨segnum :: L, ?_, ?_⟩
        · unfold linkList
          rw [if_neg hu]
          simp only [bind_eq_ok, rd_eq_ok, pure_eq_ok]
          exact ⟨seg, hseg, L, hL, rfl⟩
        · intro t ht
          rcases List.mem_cons.1 ht with rfl | ht
          · refine ⟨seg, far, hseg, hfar, ?_⟩
            intro hlt
            by_contra hp
            exact hb ⟨hlt, hp⟩
          · exact hall t ht

/-- When every seg of the list of ending segs lets it go on, the second loop
of `CheckLoopEnd` returns `bestseg`. -/
theorem endVerify_of_pass (G : Geometry) (st : FNodeBuilder) (v : FPrivVert)
    (sa bestang bestseg : Nat) :
    ∀ (fuel segnum : Nat) (L : List Nat),
      linkList FPrivSeg.nextforvert2 st.Segs fuel segnum = Except.ok L →
      (∀ t ∈ L, endPasses G st v sa bestang bestseg t) →
      endVerify G st v sa bestang bestseg fuel segnum = Except.ok bestseg := by
  intro fuel
  induction fuel with
  | zero =>
    intro segnum L hL hall
    unfold linkList at hL
    unfold endVerify
    split at hL
    · rename_i hu
      rw [if_pos hu]
      rfl
    · cases hL
  | succ fuel ih =>
    intro segnum L hL hall
    unfold linkList at hL
    unfold endVerify
    by_cases hu : segnum = UINT_MAX
    · rw [if_pos hu]
      rfl
    · rw [if_neg hu] at hL ⊢
      simp only [bind_eq_ok, rd_eq_ok, pure_eq_ok] at hL
      obtain ⟨seg, hseg, rest, hrest, hL⟩ := hL
      subst hL
      obtain ⟨seg', far, hseg', hfar, himp⟩ := hall segnum (List.mem_cons_self _ _)
      rw [hseg] at hseg'
      cases hseg'
      rw [rd_eq_ok.2 hseg, ok_bind, rd_eq_ok.2 hfar, ok_bind]
      simp only []
      rw [if_neg (fun hh => hh.2 (himp hh.1))]
      exact ih _ _ hrest (fun t ht => hall t (List.mem_cons_of_mem _ ht))

/-- C14: `CheckLoopEnd` mirrors `CheckLoopStart` with the lists swapped.  With
the differences `(segAngle - (PointToAngle (dx, dy) + ANGLE_180)) mod 2^32`
and the tolerance `ANGLE_EPSILON` of `endExcluded`, and with `bestseg`,
`bestang` what its first loop keeps for the list of segs starting at
`vertex`: a candidate exists exactly when `bestseg` is not `UINT_MAX`, and
`bestseg` is then a seg of that list, not left out, of least difference;
`CheckLoopEnd` returns a seg `s ≠ UINT_MAX` exactly when `s` is that seg and
every seg of the list of segs ending at `vertex` whose difference is below
`bestang` has `s` as its partner.  No second vertex is tested: the function
has no such argument. -/
theorem CheckLoopEnd_mirrors (G : Geometry) (st : FNodeBuilder) (dx dy : Int)
    (vertex : Nat) (v : FPrivVert) (bestang bestseg : Nat)
    (hv : st.Vertices[vertex]? = some v)
    (hscan : endScan G st v dx dy (addU32 (pointToAngle G dx dy) ANGLE_180) st.Segs.length
      v.segs ANGLE_MAX UINT_MAX = Except.ok (bestang, bestseg)) :
    (∃ L, linkList FPrivSeg.nextforvert st.Segs st.Segs.length v.segs = Except.ok L ∧
      (bestseg ≠ UINT_MAX ↔
        ∃ t ∈ L, ∃ (seg : FPrivSeg) (far : FPrivVert), st.Segs[t]? = some seg ∧
          st.Vertices[seg.v2]? = some far ∧
          ¬ endExcluded G st v dx dy (addU32 (pointToAngle G dx dy) ANGLE_180) seg far) ∧
      (bestseg ≠ UINT_MAX → bestseg ∈ L ∧
        ∃ (seg : FPrivSeg) (far : FPrivVert), st.Segs[bestseg]? = some seg ∧
          st.Vertices[seg.v2]? = some far ∧
          ¬ endExcluded G st v dx dy (addU32 (pointToAngle G dx dy) ANGLE_180) seg far ∧
          endDiff G (addU32 (pointToAngle G dx dy) ANGLE_180) v far = bestang ∧
          ∀ t ∈ L, ∀ (seg' : FPrivSeg) (far' : FPrivVert), st.Segs[t]? = some seg' →
            st.Vertices[seg'.v2]? = some far' →
            ¬ endExcluded G st v dx dy (addU32 (pointToAngle G dx dy) ANGLE_180) seg' far' →
            bestang ≤ endDiff G (addU32 (pointToAngle G dx dy) ANGLE_180) v far')) ∧
    (∀ s, (CheckLoopEnd G st dx dy vertex = Except.ok s ∧ s ≠ UINT_MAX) ↔
      (s = bestseg ∧ bestseg ≠ UINT_MAX ∧
        ∃ L2, linkList FPrivSeg.nextforvert2 st.Segs st.Segs.length v.segs2 = Except.ok L2 ∧
          ∀ t ∈ L2, ∃ (seg : FPrivSeg) (far : FPrivVert), st.Segs[t]? = some seg ∧
            st.Vertices[seg.v1]? = some far ∧
            (endDiff G (addU32 (pointToAngle G dx dy) ANGLE_180) v far < bestang →
              seg.partner = s))) := by
  have hcl : CheckLoopEnd G st dx dy vertex =
      (if bestseg = UINT_MAX then pure UINT_MAX
        else endVerify G st v (addU32 (pointToAngle G dx dy) ANGLE_180) bestang bestseg
          st.Segs.length v.segs2) := by
    unfold CheckLoopEnd
    rw [rd_eq_ok.2 hv, ok_bind]
    simp only []
    rw [hscan, ok_bind]
  refine ⟨?_, ?_⟩
  · obtain ⟨L, hL, hcase⟩ := endScan_spec G st v dx dy _ _ _ _ _ _ _ hscan
    refine ⟨L, hL, ?_, ?_⟩
    · constructor
      · intro hb
        rcases hcase with ⟨h1, -, -⟩ | ⟨L1, L2, hsp, -, ⟨seg, far, hseg, hfar, hne, -⟩, -, -⟩
        · exact absurd h1 hb
        · exact ⟨bestseg, by rw [hsp]; simp, seg, far, hseg, hfar, hne⟩
      · rintro ⟨t, ht, seg, far, hseg, hfar, hne⟩
        rcases hcase with ⟨-, -, h3⟩ | ⟨L1, L2, hsp, -, -, -, -⟩
        · have := h3 t ht seg far hseg hfar hne
          have hle := subU32_le_max
            (pointToAngle G (wrapI32 (far.x - v.x)) (wrapI32 (far.y - v.y)))
            (addU32 (pointToAngle G dx dy) ANGLE_180)
          unfold endDiff at this
          omega
        · exact (linkList_mem_lt _ _ _ hL bestseg (by rw [hsp]; simp)).2
    · intro hb
      rcases hcase with ⟨h1, -, -⟩ | ⟨L1, L2, hsp, -, ⟨seg, far, hseg, hfar, hne, hd⟩, h4, h5⟩
      · exact absurd h1 hb
      · refine ⟨by rw [hsp]; simp, seg, far, hseg, hfar, hne, hd, ?_⟩
        intro t ht seg' far' hs' hf' hne'
        rw [hsp] at ht
        rcases List.mem_append.1 ht with ht | ht
        · exact h4 t ht seg' far' hs' hf' hne'
        · rcases List.mem_cons.1 ht with rfl | ht
          · rw [hseg] at hs'
            cases hs'
            rw [hfar] at hf'
            cases hf'
            exact Nat.le_of_eq hd.symm
          · exact Nat.le_of_lt (h5 t ht seg' far' hs' hf' hne')
  · intro s
    constructor
    · rintro ⟨h, hs⟩
      rw [hcl] at h
      by_cases hb : bestseg = UINT_MAX
      · rw [if_pos hb, pure_eq_ok] at h
        exact absurd h.symm hs
      · rw [if_neg hb] at h
        obtain ⟨L2, hL2, hall⟩ := endVerify_pass G st v _ _ _ _ _ _ h hs
        rcases endVerify_result G st v _ _ _ _ _ _ h with rfl | hr
        · exact ⟨rfl, hb, L2, hL2, hall⟩
        · exact absurd hr hs
    · rintro ⟨rfl, hb, L2, hL2, hall⟩
      refine ⟨?_, hb⟩
      rw [hcl, if_neg hb]
      exact endVerify_of_pass G st v _ _ _ _ _ L2 hL2 hall

/-- Witness of C14 on the square: the loop end at the right event returns
seg 4. -/
theorem CheckLoopEnd_mirrors_witness :
    (squareState.Vertices[4]? = some ⟨4, 2, 4, 3⟩ ∧
      endScan exampleGeometry squareState ⟨4, 2, 4, 3⟩ 1 0
        (addU32 (pointToAngle exampleGeometry 1 0) ANGLE_180) squareState.Segs.length 4
        ANGLE_MAX UINT_MAX = Except.ok (1073741824, 4)) ∧
    CheckLoopEnd exampleGeometry squareState 1 0 4 = Except.ok 4 ∧ 4 ≠ UINT_MAX :=
  ⟨⟨rfl, rfl⟩,
    ((CheckLoopEnd_mirrors exampleGeometry squareState 1 0 4 ⟨4, 2, 4, 3⟩ 1073741824 4
      rfl rfl).2 4).2
      ⟨rfl, by decide, [3], rfl, by
        intro t ht
        rw [List.mem_singleton] at ht
        subst ht
        exact ⟨exampleSeg 3 4 UINT_MAX UINT_MAX, ⟨4, 4, 3, 2⟩, rfl, rfl, by decide⟩⟩⟩

theorem startScan_empty (G : Geometry) (st : FNodeBuilder) (v : FPrivVert) (dx dy : Int)
    (sa fuel bestang bestseg : Nat) :
    startScan G st v dx dy sa fuel UINT_MAX bestang bestseg = Except.ok (bestang, bestseg) := by
  cases fuel <;> rfl

theorem endScan_empty (G : Geometry) (st : FNodeBuilder) (v : FPrivVert) (dx dy : Int)
    (sa fuel bestang bestseg : Nat) :
    endScan G st v dx dy sa fuel UINT_MAX bestang bestseg = Except.ok (bestang, bestseg) := by
  cases fuel <;> rfl

/-- `CheckLoopStart` returns `UINT_MAX` at a vertex that ends no seg. -/
theorem CheckLoopStart_empty {G : Geometry} {st : FNodeBuilder} {vertex : Nat} {v : FPrivVert}
    (dx dy : Int) (vertex2 : Nat)
    (hv : st.Vertices[vertex]? = some v) (he : v.segs2 = UINT_MAX) :
    CheckLoopStart G st dx dy vertex vertex2 = Except.ok UINT_MAX := by
  unfold CheckLoopStart
  rw [rd_eq_ok.2 hv, ok_bind]
  simp only []
  rw [he, startScan_empty, ok_bind]
  rfl

/-- `CheckLoopEnd` returns `UINT_MAX` at a vertex that starts no seg. -/
theorem CheckLoopEnd_empty {G : Geometry} {st : FNodeBuilder} {vertex : Nat} {v : FPrivVert}
    (dx dy : Int)
    (hv : st.Vertices[vertex]? = some v) (he : v.segs = UINT_MAX) :
    CheckLoopEnd G st dx dy vertex = Except.ok UINT_MAX := by
  unfold CheckLoopEnd
  rw [rd_eq_ok.2 hv, ok_bind]
  simp only []
  rw [he, endScan_empty, ok_bind]
  rfl

/-- The step of `AddMinisegs` changes nothing when one of the two event
vertices has an empty list. -/
theorem minisegStep_empty {G : Geometry} {st : FNodeBuilder} {node : NodeFxp}
    {splitseg : Nat} {prev event : FEvent} {fset bset : Nat}
    {r : FNodeBuilder × Nat × Nat} {v : FPrivVert}
    (h : minisegStep G st node splitseg prev event fset bset = Except.ok r)
    (hv : st.Vertices[prev.Info.Vertex]? = some v ∨ st.Vertices[event.Info.Vertex]? = some v)
    (he : v.segs = UINT_MAX ∨ v.segs2 = UINT_MAX) : r = (st, fset, bset) := by
  obtain ⟨st', fset', bset'⟩ := r
  rcases minisegStep_cases h with ⟨-, h1, h2, h3⟩ | ⟨f1, b1, hpass, -⟩
  · rw [h1, h2, h3]
  · exfalso
    obtain ⟨c1, n1, c2, n2, ⟨f2, c3, n3⟩, ⟨b2, c4, n4⟩⟩ := hpass
    rcases hv with hv | hv <;> rcases he with he | he
    · rw [CheckLoopEnd_empty _ _ hv he] at c4
      cases c4
      exact n4 rfl
    · rw [CheckLoopStart_empty _ _ _ hv he] at c1
      cases c1
      exact n1 rfl
    · rw [CheckLoopEnd_empty _ _ hv he] at c3
      cases c3
      exact n3 rfl
    · rw [CheckLoopStart_empty _ _ _ hv he] at c2
      cases c2
      exact n2 rfl

theorem minisegWalk_empty (G : Geometry) (node : NodeFxp) (splitseg : Nat)
    (st : FNodeBuilder) :
    ∀ (rest : List FEvent) (prev : FEvent) (fset bset : Nat) (r : FNodeBuilder × Nat × Nat),
      minisegWalk G node splitseg prev rest st fset bset = Except.ok r →
      (∀ e ∈ prev :: rest, ∃ v : FPrivVert, st.Vertices[e.Info.Vertex]? = some v ∧
        (v.segs = UINT_MAX ∨ v.segs2 = UINT_MAX)) →
      r = (st, fset, bset) := by
  intro rest
  induction rest with
  | nil =>
    intro prev fset bset r h _
    unfold minisegWalk at h
    exact (pure_eq_ok.1 h).symm
  | cons event rest ih =>
    intro prev fset bset r h hall
    unfold minisegWalk at h
    simp only [bind_eq_ok] at h
    obtain ⟨⟨st1, fset1, bset1⟩, hstep, h⟩ := h
    obtain ⟨v, hv, he⟩ := hall prev (List.mem_cons_self _ _)
    have := minisegStep_empty hstep (Or.inl hv) he
    simp only [Prod.mk.injEq] at this
    obtain ⟨e1, e2, e3⟩ := this
    subst e1 e2 e3
    exact ih event fset1 bset1 r h (fun e he => hall e (List.mem_cons_of_mem _ he))

theorem minisegWalk_empty_returns (G : Geometry) (node : NodeFxp) (splitseg : Nat)
    (st : FNodeBuilder) :
    ∀ (rest : List FEvent) (prev : FEvent) (fset bset : Nat),
      (∀ e ∈ prev :: rest, ∃ v : FPrivVert, st.Vertices[e.Info.Vertex]? = some v ∧
        v.segs2 = UINT_MAX) →
      minisegWalk G node splitseg prev rest st fset bset = Except.ok (st, fset, bset) := by
  intro rest
  induction rest with
  | nil =>
    intro prev fset bset _
    rfl
  | cons event rest ih =>
    intro prev fset bset hall
    obtain ⟨v, hv, he⟩ := hall prev (List.mem_cons_self _ _)
    have hchk : minisegChecks G st node prev event = Except.ok none :=
      minisegChecks_none.2 (Or.inl (CheckLoopStart_empty _ _ _ hv he))
    have hstep : minisegStep G st node splitseg prev event fset bset =
        Except.ok (st, fset, bset) := by
      unfold minisegStep
      rw [hchk]
      rfl
    unfold minisegWalk
    rw [hstep, ok_bind]
    exact ih event fset bset (fun e he => hall e (List.mem_cons_of_mem _ he))

/-- C15: `CheckLoopStart` returns `UINT_MAX` (none) at a vertex whose list of
ending segs is empty, `CheckLoopEnd` at a vertex whose list of starting segs
is empty.  So the step of `AddMinisegs` for an adjacent pair leaves the state
and both chains as they were when one of the two event vertices has an empty
list of ending segs or an empty list of starting segs, and so does the whole
of `AddMinisegs` when this holds for every event vertex; it returns so when
every event vertex has an empty list of ending segs. -/
theorem empty_lists_give_no_miniseg (G : Geometry) (st : FNodeBuilder) (node : NodeFxp)
    (splitseg : Nat) :
    (∀ (dx dy : Int) (vertex vertex2 : Nat) (v : FPrivVert),
      st.Vertices[vertex]? = some v → v.segs2 = UINT_MAX →
      CheckLoopStart G st dx dy vertex vertex2 = Except.ok UINT_MAX) ∧
    (∀ (dx dy : Int) (vertex : Nat) (v : FPrivVert),
      st.Vertices[vertex]? = some v → v.segs = UINT_MAX →
      CheckLoopEnd G st dx dy vertex = Except.ok UINT_MAX) ∧
    (∀ (prev event : FEvent) (fset bset : Nat) (r : FNodeBuilder × Nat × Nat)
      (v : FPrivVert),
      minisegStep G st node splitseg prev event fset bset = Except.ok r →
      (st.Vertices[prev.Info.Vertex]? = some v ∨ st.Vertices[event.Info.Vertex]? = some v) →
      (v.segs = UINT_MAX ∨ v.segs2 = UINT_MAX) → r = (st, fset, bset)) ∧
    (∀ (fset bset : Nat) (r : FNodeBuilder × Nat × Nat),
      AddMinisegs G st node splitseg fset bset = Except.ok r →
      (∀ e ∈ st.Events, ∃ v : FPrivVert, st.Vertices[e.Info.Vertex]? = some v ∧
        (v.segs = UINT_MAX ∨ v.segs2 = UINT_MAX)) →
      r = (st, fset, bset)) ∧
    (∀ (fset bset : Nat),
      (∀ e ∈ st.Events, ∃ v : FPrivVert, st.Vertices[e.Info.Vertex]? = some v ∧
        v.segs2 = UINT_MAX) →
      AddMinisegs G st node splitseg fset bset = Except.ok (st, fset, bset)) := by
  refine ⟨?_, ?_, ?_, ?_, ?_⟩
  · intro dx dy vertex vertex2 v hv he
    exact CheckLoopStart_empty dx dy vertex2 hv he
  · intro dx dy vertex v hv he
    exact CheckLoopEnd_empty dx dy hv he
  · intro prev event fset bset r v h hv he
    exact minisegStep_empty h hv he
  · intro fset bset r h hall
    unfold AddMinisegs at h
    cases hev : st.Events with
    | nil =>
      rw [hev] at h
      exact (pure_eq_ok.1 h).symm
    | cons first rest =>
      rw [hev] at h hall
      exact minisegWalk_empty G node splitseg st rest first fset bset r h hall
  · intro fset bset hall
    unfold AddMinisegs
    cases hev : st.Events with
    | nil => rfl
    | cons first rest =>
      rw [hev] at hall
      exact minisegWalk_empty_returns G node splitseg st rest first fset bset hall
theorem voidState_events_empty :
    ∀ e ∈ voidState.Events, ∃ v : FPrivVert, voidState.Vertices[e.Info.Vertex]? = some v ∧
      v.segs2 = UINT_MAX := by
  intro e he
  have : e = ⟨0, ⟨0, UINT_MAX⟩⟩ ∨ e = ⟨4, ⟨1, UINT_MAX⟩⟩ := by
    simpa [voidState] using he
  rcases this with rfl | rfl
  · exact ⟨_, rfl, rfl⟩
  · exact ⟨_, rfl, rfl⟩

/-- Witness of C15 on the void: no miniseg is made. -/
theorem empty_lists_give_no_miniseg_witness :
    (∀ e ∈ voidState.Events, ∃ v : FPrivVert, voidState.Vertices[e.Info.Vertex]? = some v ∧
      v.segs2 = UINT_MAX) ∧
    AddMinisegs exampleGeometry voidState ⟨0, 0, 1, 0⟩ UINT_MAX UINT_MAX UINT_MAX =
      Except.ok (voidState, UINT_MAX, UINT_MAX) :=
  ⟨voidState_events_empty,
    (empty_lists_give_no_miniseg exampleGeometry voidState ⟨0, 0, 1, 0⟩ UINT_MAX).2.2.2.2
      UINT_MAX UINT_MAX voidState_events_empty⟩

/-- The first loop of `CheckLoopEnd` on a list of one seg that is a
candidate. -/
theorem endScan_single {G : Geometry} {st : FNodeBuilder} {v : FPrivVert} {dx dy : Int}
    {sa fuel segnum bestang bestseg : Nat} {seg : FPrivSeg} {far : FPrivVert}
    (hne : segnum ≠ UINT_MAX) (hseg : st.Segs[segnum]? = some seg)
    (hfar : st.Vertices[seg.v2]? = some far) (hnext : seg.nextforvert = UINT_MAX)
    (hd : ¬ endDiff G sa v far < G.ANGLE_EPSILON) (hle : endDiff G sa v far ≤ bestang) :
    endScan G st v dx dy sa (fuel + 1) segnum bestang bestseg =
      Except.ok (endDiff G sa v far, segnum) := by
  unfold endScan
  rw [if_neg hne, rd_eq_ok.2 hseg, ok_bind, rd_eq_ok.2 hfar, ok_bind]
  simp only []
  rw [if_neg hd]
  show (Except.ok false >>= _) = _
  rw [ok_bind, if_neg (by decide), if_pos hle, hnext, endScan_empty]

theorem square_start_left (G : Geometry)
    (hE : G.PointToAngle 1 0 = 0) (hN : G.PointToAngle 0 2 = 1073741824)
    (hS : G.PointToAngle 0 (-2) = 3221225472) (heps : G.ANGLE_EPSILON ≤ 1073741824) :
    CheckLoopStart G squareState 1 0 1 4 = Except.ok 0 := by
  have h1 : ¬ (1073741824 < G.ANGLE_EPSILON) := by omega
  simp [CheckLoopStart, squareState, rd, startScan, startVerify, startDiff, pointToAngle,
    subU32, wrapI32, exampleSeg, UINT_MAX, ANGLE_MAX, hE, hN, hS, h1, bind, Except.bind,
    pure, Except.pure]

theorem square_start_right (G : Geometry)
    (hW : G.PointToAngle (-1) 0 = 2147483648) (hN : G.PointToAngle 0 2 = 1073741824)
    (hS : G.PointToAngle 0 (-2) = 3221225472) (heps : G.ANGLE_EPSILON ≤ 1073741824) :
    CheckLoopStart G squareState (wrapI32 (-1)) (wrapI32 (-0)) 4 1 = Except.ok 3 := by
  have h1 : ¬ (1073741824 < G.ANGLE_EPSILON) := by omega
  simp [CheckLoopStart, squareState, rd, startScan, startVerify, startDiff, pointToAngle,
    subU32, wrapI32, exampleSeg, UINT_MAX, ANGLE_MAX, hW, hN, hS, h1, bind, Except.bind,
    pure, Except.pure]

theorem square_end_right (G : Geometry)
    (hE : G.PointToAngle 1 0 = 0) (hN : G.PointToAngle 0 2 = 1073741824)
    (hS : G.PointToAngle 0 (-2) = 3221225472) (heps : G.ANGLE_EPSILON ≤ 1073741824) :
    CheckLoopEnd G squareState 1 0 4 = Except.ok 4 := by
  have hd : endDiff G (addU32 (pointToAngle G 1 0) ANGLE_180) ⟨4, 2, 4, 3⟩ ⟨4, 0, 5, 4⟩ =
      1073741824 := by
    simp [endDiff, pointToAngle, addU32, subU32, wrapI32, ANGLE_180, hE, hS]
  have hd2 : endDiff G (addU32 (pointToAngle G 1 0) ANGLE_180) ⟨4, 2, 4, 3⟩ ⟨4, 4, 3, 2⟩ =
      3221225472 := by
    simp [endDiff, pointToAngle, addU32, subU32, wrapI32, ANGLE_180, hE, hN]
  have hscan : endScan G squareState ⟨4, 2, 4, 3⟩ 1 0 (addU32 (pointToAngle G 1 0) ANGLE_180)
      (5 + 1) 4 ANGLE_MAX UINT_MAX = Except.ok (1073741824, 4) := by
    rw [← hd]
    exact endScan_single (by decide) (show squareState.Segs[4]? = some
      (exampleSeg 4 5 UINT_MAX UINT_MAX) from rfl) rfl rfl (by rw [hd]; omega)
      (by rw [hd]; decide)
  show (rd squareState.Vertices 4 >>= _) = _
  rw [rd_eq_ok.2 (show squareState.Vertices[4]? = some ⟨4, 2, 4, 3⟩ from rfl), ok_bind]
  show (endScan G squareState ⟨4, 2, 4, 3⟩ 1 0 (addU32 (pointToAngle G 1 0) ANGLE_180)
      (5 + 1) 4 ANGLE_MAX UINT_MAX >>= _) = _
  rw [hscan, ok_bind]
  simp only []
  rw [if_neg (by decide)]
  refine endVerify_of_pass G squareState _ _ _ _ _ _ [3] rfl ?_
  intro t ht
  rw [List.mem_singleton] at ht
  subst ht
  exact ⟨exampleSeg 3 4 UINT_MAX UINT_MAX, ⟨4, 4, 3, 2⟩, rfl, rfl, by
    intro hlt
    rw [hd2] at hlt
    omega⟩

theorem square_end_left (G : Geometry)
    (hW : G.PointToAngle (-1) 0 = 2147483648) (hN : G.PointToAngle 0 2 = 1073741824)
    (hS : G.PointToAngle 0 (-2) = 3221225472) (heps : G.ANGLE_EPSILON ≤ 1073741824) :
    CheckLoopEnd G squareState (wrapI32 (-1)) (wrapI32 (-0)) 1 = Except.ok 1 := by
  have hw1 : wrapI32 (-1) = -1 := by decide
  have hw0 : wrapI32 (-0) = 0 := by decide
  rw [hw1, hw0]
  have hd : endDiff G (addU32 (pointToAngle G (-1) 0) ANGLE_180) ⟨0, 2, 1, 0⟩ ⟨0, 4, 2, 1⟩ =
      1073741824 := by
    simp [endDiff, pointToAngle, addU32, subU32, wrapI32, ANGLE_180, hW, hN]
  have hd2 : endDiff G (addU32 (pointToAngle G (-1) 0) ANGLE_180) ⟨0, 2, 1, 0⟩ ⟨0, 0, 0, 5⟩ =
      3221225472 := by
    simp [endDiff, pointToAngle, addU32, subU32, wrapI32, ANGLE_180, hW, hS]
  have hscan : endScan G squareState ⟨0, 2, 1, 0⟩ (-1) 0
      (addU32 (pointToAngle G (-1) 0) ANGLE_180) (5 + 1) 1 ANGLE_MAX UINT_MAX =
        Except.ok (1073741824, 1) := by
    rw [← hd]
    exact endScan_single (by decide) (show squareState.Segs[1]? = some
      (exampleSeg 1 2 UINT_MAX UINT_MAX) from rfl) rfl rfl (by rw [hd]; omega)
      (by rw [hd]; decide)
  show (rd squareState.Vertices 1 >>= _) = _
  rw [rd_eq_ok.2 (show squareState.Vertices[1]? = some ⟨0, 2, 1, 0⟩ from rfl), ok_bind]
  show (endScan G squareState ⟨0, 2, 1, 0⟩ (-1) 0 (addU32 (pointToAngle G (-1) 0) ANGLE_180)
      (5 + 1) 1 ANGLE_MAX UINT_MAX >>= _) = _
  rw [hscan, ok_bind]
  simp only []
  rw [if_neg (by decide)]
  refine endVerify_of_pass G squareState _ _ _ _ _ _ [0] rfl ?_
  intro t ht
  rw [List.mem_singleton] at ht
  subst ht
  exact ⟨exampleSeg 0 1 UINT_MAX UINT_MAX, ⟨0, 0, 0, 5⟩, rfl, rfl, by
    intro hlt
    rw [hd2] at hlt
    omega⟩
theorem squareAddMinisegPair :
    addMinisegPair squareState UINT_MAX squareLeft squareRight 0 3 UINT_MAX UINT_MAX =
      Except.ok (squareCut, 6, 7) := rfl

/-- C16: the square with corners `(0, 0)`, `(4, 0)`, `(4, 4)`, `(0, 4)`, its
boundary segs all of front sector 1 (running with the inside on their front
side, the two vertical edges divided at the crossing vertices `(0, 2)` and
`(4, 2)`), the splitter through `(0, 2)` with direction `(1, 0)` and the two
crossing vertices as events.  For every geometry whose `PointToAngle` is exact
on the four axis directions met and whose tolerance is at most a quarter turn,
`AddMinisegs` makes exactly one pair: seg 6 from `(0, 2)` to `(4, 2)` and seg
7 from `(4, 2)` to `(0, 2)`, partners of each other, both with front sector
and back sector 1. -/
theorem square_example (G : Geometry)
    (hE : G.PointToAngle 1 0 = 0) (hW : G.PointToAngle (-1) 0 = 2147483648)
    (hN : G.PointToAngle 0 2 = 1073741824) (hS : G.PointToAngle 0 (-2) = 3221225472)
    (heps : G.ANGLE_EPSILON ≤ 1073741824) :
    ∃ (st' : FNodeBuilder) (F B : FPrivSeg) (a b : FPrivVert),
      AddMinisegs G squareState squareNode UINT_MAX UINT_MAX UINT_MAX = Except.ok (st', 6, 7) ∧
      st'.Segs = squareState.Segs ++ [F, B] ∧
      st'.Vertices[F.v1]? = some a ∧ st'.Vertices[F.v2]? = some b ∧
      (a.x, a.y) = (0, 2) ∧ (b.x, b.y) = (4, 2) ∧
      B.v1 = F.v2 ∧ B.v2 = F.v1 ∧ F.partner = 7 ∧ B.partner = 6 ∧
      F.frontsector = 1 ∧ F.backsector = 1 ∧ B.frontsector = 1 ∧ B.backsector = 1 ∧
      F.linedef = NO_INDEX ∧ B.linedef = NO_INDEX := by
  have hpass : fourChecksPass G squareState squareNode squareLeft squareRight 0 3 :=
    ⟨square_start_left G hE hN hS heps, by decide, square_start_right G hW hN hS heps,
      by decide, ⟨4, square_end_right G hE hN hS heps, by decide⟩,
      ⟨1, square_end_left G hW hN hS heps, by decide⟩⟩
  have hchk := minisegChecks_some.2 hpass
  have hstep : minisegStep G squareState squareNode UINT_MAX squareLeft squareRight
      UINT_MAX UINT_MAX = Except.ok (squareCut, 6, 7) := by
    unfold minisegStep
    rw [hchk]
    exact squareAddMinisegPair
  have hall : AddMinisegs G squareState squareNode UINT_MAX UINT_MAX UINT_MAX =
      Except.ok (squareCut, 6, 7) := by
    show minisegWalk G squareNode UINT_MAX squareLeft [squareRight] squareState UINT_MAX
      UINT_MAX = _
    unfold minisegWalk
    rw [hstep]
    rfl
  exact ⟨squareCut, _, _, _, _, hall, rfl, rfl, rfl, rfl, rfl, rfl, rfl, rfl, rfl, rfl, rfl,
    rfl, rfl, rfl, rfl⟩

/-- Witness of C16: the geometry of the examples is exact on the axes. -/
theorem square_example_witness :
    (exampleGeometry.PointToAngle 1 0 = 0 ∧ exampleGeometry.PointToAngle (-1) 0 = 2147483648 ∧
      exampleGeometry.PointToAngle 0 2 = 1073741824 ∧
      exampleGeometry.PointToAngle 0 (-2) = 3221225472 ∧
      exampleGeometry.ANGLE_EPSILON ≤ 1073741824) ∧
    ∃ (st' : FNodeBuilder) (F B : FPrivSeg) (a b : FPrivVert),
      AddMinisegs exampleGeometry squareState squareNode UINT_MAX UINT_MAX UINT_MAX =
        Except.ok (st', 6, 7) ∧
      st'.Segs = squareState.Segs ++ [F, B] ∧
      st'.Vertices[F.v1]? = some a ∧ st'.Vertices[F.v2]? = some b ∧
      (a.x, a.y) = (0, 2) ∧ (b.x, b.y) = (4, 2) ∧
      B.v1 = F.v2 ∧ B.v2 = F.v1 ∧ F.partner = 7 ∧ B.partner = 6 ∧
      F.frontsector = 1 ∧ F.backsector = 1 ∧ B.frontsector = 1 ∧ B.backsector = 1 ∧
      F.linedef = NO_INDEX ∧ B.linedef = NO_INDEX :=
  ⟨⟨rfl, rfl, rfl, rfl, by decide⟩,
    square_example exampleGeometry rfl rfl rfl rfl (by decide)⟩

/-- The loop of `FixSplitSharers` splits at the split points in turn. -/
theorem splitWalk_eq_splitAtAll (v2 : Nat) :
    ∀ (w : List FEvent) (seg : Nat) (segs : List FPrivSeg),
      splitWalk v2 w seg segs = splitAtAll (splitPoints v2 w) seg segs := by
  intro w
  induction w with
  | nil =>
    intro seg segs
    rfl
  | cons event rest ih =>
    intro seg segs
    cases rest with
    | nil => rfl
    | cons next rest =>
      unfold splitWalk splitPoints
      simp only []
      by_cases hv : event.Info.Vertex ≠ v2
      · rw [if_pos hv, if_pos hv]
        unfold splitAtAll
        congr 1
        funext x
        exact ih x.1 x.2
      · rw [if_neg hv, if_neg hv]
        rfl

/-- When `v2` is carried by an event of the walk, the split points are the
vertices of the events before it. -/
theorem splitPoints_of_mem (v2 : Nat) :
    ∀ w : List FEvent, v2 ∈ eventVertices w →
      splitPoints v2 w = (eventVertices w).takeWhile (fun x => decide (x ≠ v2)) := by
  intro w
  induction w with
  | nil =>
    intro h
    simp [eventVertices] at h
  | cons event rest ih =>
    intro h
    cases rest with
    | nil =>
      have hv : event.Info.Vertex = v2 := by
        simpa [eventVertices, eq_comm] using h
      simp [splitPoints, eventVertices, hv]
    | cons next rest =>
      unfold splitPoints
      simp only []
      by_cases hv : event.Info.Vertex ≠ v2
      · rw [if_pos hv]
        have hmem : v2 ∈ eventVertices (next :: rest) := by
          have h2 : v2 = event.Info.Vertex ∨ v2 ∈ eventVertices (next :: rest) := by
            simpa [eventVertices] using h
          rcases h2 with h2 | h2
          · exact absurd h2.symm hv
          · exact h2
        rw [ih hmem]
        simp [eventVertices, hv]
      · rw [if_neg hv]
        simp [eventVertices, hv]
/-- What one pass of the loop body does to the edge, when the partner of the
edge, if any, is another seg of the arena: the edge ends at the vertex and a
new tail edge runs from the vertex to the old end. -/
theorem splitSharerAt_edge {segs : List FPrivSeg} {seg : Nat} {s : FPrivSeg} (m : Nat)
    (hs : segs[seg]? = some s)
    (hp : s.partner = UINT_MAX ∨ (s.partner < segs.length ∧ s.partner ≠ seg)) :
    ∃ (r : List FPrivSeg) (a b : FPrivSeg),
      splitSharerAt segs seg m = Except.ok (segs.length, r) ∧
      r[seg]? = some a ∧ a.v1 = s.v1 ∧ a.v2 = m ∧
      r[segs.length]? = some b ∧ b.v1 = m ∧ b.v2 = s.v2 := by
  have hk := getElem?_lt_length hs
  have hne : segs.length ≠ seg := Nat.ne_of_gt hk
  obtain ⟨n, r, h⟩ := splitSharerAt_returns m hs
    (hp.elim Or.inl (fun h => Or.inr h.1))
  rcases hp with hp | ⟨hlt, hself⟩
  · obtain ⟨hn, -, g⟩ := splitSharerAt_single hs hp h
    subst hn
    refine ⟨r, { s with v2 := m, next := segs.length }, { s with v1 := m }, h, ?_, rfl, rfl,
      ?_, rfl, rfl⟩
    · rw [g, if_pos rfl]
    · rw [g, if_neg hne, if_pos rfl]
  · by_cases hu : s.partner = UINT_MAX
    · obtain ⟨hn, -, g⟩ := splitSharerAt_single hs hu h
      subst hn
      refine ⟨r, { s with v2 := m, next := segs.length }, { s with v1 := m }, h, ?_, rfl, rfl,
        ?_, rfl, rfl⟩
      · rw [g, if_pos rfl]
      · rw [g, if_neg hne, if_pos rfl]
    · obtain ⟨P, hP⟩ : ∃ P, segs[s.partner]? = some P := ⟨_, List.getElem?_eq_getElem hlt⟩
      obtain ⟨hn, -, g⟩ := splitSharerAt_pair hs hu hself hP h
      subst hn
      refine ⟨r, { s with v2 := m, next := segs.length, partner := segs.length + 1 },
        { s with v1 := m }, h, ?_, rfl, rfl, ?_, rfl, rfl⟩
      · rw [g, if_pos rfl]
      · rw [g, if_neg hne, if_neg (Nat.ne_of_gt hlt), if_pos rfl]

/-- Counterexample to C17 as stated: in `shortWalkState` the own event of the
split sharer is found, the first interior event exists and its vertex 1 is
not the `v2` of the edge (vertex 2), yet `FixSplitSharers` leaves the state as
it is: the edge is not split, because no event follows the interior one. -/
theorem FixSplitSharers_no_next_counterexample :
    shortWalkState.SplitSharers = [⟨0, 0, true⟩] ∧
    shortWalkState.Segs[0]? = some (exampleSeg 0 2 UINT_MAX UINT_MAX) ∧
    FindEvent shortWalkState.Events 0 = some 0 ∧
    eventsFrom shortWalkState.Events 0 true = [⟨1, ⟨1, UINT_MAX⟩⟩] ∧
    (1 : Nat) ≠ (exampleSeg 0 2 UINT_MAX UINT_MAX).v2 ∧
    FixSplitSharers shortWalkState = Except.ok shortWalkState :=
  ⟨rfl, rfl, rfl, rfl, by decide, rfl⟩

/-- C17, amended: for a split sharer whose own event is found,
`FixSplitSharers` walks the events after it in the direction of the edge
(successors if `Forward`, predecessors otherwise) and splits the edge at the
vertex of each successive interior event for as long as the interior event
exists, a further event follows it in the walk, and its vertex is not the
`v2` the edge had at the start.  In particular, when the first interior event
and the one after it exist and the first one's vertex is not `v2`, the edge
is split at that vertex first (it then ends there and the new tail edge runs
from there to `v2`, when its partner, if any, is another seg of the arena).
When `v2` is carried by an event of the walk, the split points are the
vertices of the events before that one. -/
theorem FixSplitSharers_splits_while_next (st : FNodeBuilder) (sh : FSplitSharer)
    (s : FPrivSeg) (i : Nat)
    (hs : st.Segs[sh.Seg]? = some s) (hf : FindEvent st.Events sh.Distance = some i) :
    fixSplitSharer st sh =
      (do
        let segs ← splitAtAll (splitPoints s.v2 (eventsFrom st.Events i sh.Forward)) sh.Seg
          st.Segs
        pure { st with Segs := segs }) ∧
    (∀ (event next : FEvent) (rest : List FEvent),
      eventsFrom st.Events i sh.Forward = event :: next :: rest →
      event.Info.Vertex ≠ s.v2 →
      splitPoints s.v2 (eventsFrom st.Events i sh.Forward) =
        event.Info.Vertex :: splitPoints s.v2 (next :: rest) ∧
      ((s.partner = UINT_MAX ∨ (s.partner < st.Segs.length ∧ s.partner ≠ sh.Seg)) →
        ∃ (r : List FPrivSeg) (a b : FPrivSeg),
          splitSharerAt st.Segs sh.Seg event.Info.Vertex = Except.ok (st.Segs.length, r) ∧
          r[sh.Seg]? = some a ∧ a.v1 = s.v1 ∧ a.v2 = event.Info.Vertex ∧
          r[st.Segs.length]? = some b ∧ b.v1 = event.Info.Vertex ∧ b.v2 = s.v2)) ∧
    ((eventsFrom st.Events i sh.Forward = [] ∨
        ∃ event : FEvent, eventsFrom st.Events i sh.Forward = [event]) →
      fixSplitSharer st sh = Except.ok st) ∧
    (s.v2 ∈ eventVertices (eventsFrom st.Events i sh.Forward) →
      splitPoints s.v2 (eventsFrom st.Events i sh.Forward) =
        (eventVertices (eventsFrom st.Events i sh.Forward)).takeWhile
          (fun x => decide (x ≠ s.v2))) := by
  have hfix : fixSplitSharer st sh =
      (do
        let segs ← splitAtAll (splitPoints s.v2 (eventsFrom st.Events i sh.Forward)) sh.Seg
          st.Segs
        pure { st with Segs := segs }) := by
    unfold fixSplitSharer
    rw [rd_eq_ok.2 hs, ok_bind]
    simp only [hf]
    rw [splitWalk_eq_splitAtAll]
  refine ⟨hfix, ?_, ?_, ?_⟩
  · intro event next rest hw hv
    refine ⟨?_, ?_⟩
    · rw [hw]
      show (if event.Info.Vertex ≠ s.v2 then
        event.Info.Vertex :: splitPoints s.v2 (next :: rest) else []) = _
      rw [if_pos hv]
    · intro hp
      exact splitSharerAt_edge event.Info.Vertex hs hp
  · intro hw
    rw [hfix]
    rcases hw with hw | ⟨event, hw⟩
    · rw [hw]
      rfl
    · rw [hw]
      rfl
  · intro hmem
    exact splitPoints_of_mem s.v2 _ hmem

/-- Witness of the amended C17 on the two-sided line that overlaps four
events: the walk of the first split sharer is the events of the vertices 1,
2, 3 and the edge `0 -> 3` is split at the vertices 1 and 2. -/
theorem FixSplitSharers_splits_while_next_witness :
    (overlapState.Segs[0]? =
        some { exampleSeg 0 3 UINT_MAX UINT_MAX with partner := 1, backsector := 2 } ∧
      FindEvent overlapState.Events 0 = some 0) ∧
    splitPoints 3 (eventsFrom overlapState.Events 0 true) = [1, 2] ∧
    fixSplitSharer overlapState ⟨0, 0, true⟩ =
      (do
        let segs ← splitAtAll (splitPoints 3 (eventsFrom overlapState.Events 0 true)) 0
          overlapState.Segs
        pure { overlapState with Segs := segs }) :=
  ⟨⟨rfl, rfl⟩, by decide,
    (FixSplitSharers_splits_while_next overlapState ⟨0, 0, true⟩
      { exampleSeg 0 3 UINT_MAX UINT_MAX with partner := 1, backsector := 2 } 0 rfl rfl).1⟩

/-- A walk that ends within its fuel ends with more fuel. -/
theorem linkList_fuel_succ (link : FPrivSeg → Nat) (segs : List FPrivSeg) :
    ∀ (fuel head : Nat) (L : List Nat), linkList link segs fuel head = Except.ok L →
      linkList link segs (fuel + 1) head = Except.ok L := by
  intro fuel
  induction fuel with
  | zero =>
    intro head L h
    unfold linkList at h ⊢
    split at h
    · rename_i hu
      rw [if_pos hu]
      exact h
    · cases h
  | succ fuel ih =>
    intro head L h
    unfold linkList at h
    by_cases hu : head = UINT_MAX
    · rw [if_pos hu] at h
      unfold linkList
      rw [if_pos hu]
      exact h
    · rw [if_neg hu] at h
      simp only [bind_eq_ok, rd_eq_ok, pure_eq_ok] at h
      obtain ⟨s, hs, rest, hrest, hL⟩ := h
      subst hL
      exact linkList_step link hu hs (ih _ _ hrest)

/-- Pushing one seg `new` keeps the list of a vertex `u` that it does not
belong to, and puts it in front of the list of the vertex it belongs to,
when it links to the old head; `key` is the end point that the list is
about. -/
theorem linkList_push (link key : FPrivSeg → Nat) {segs segs' : List FPrivSeg}
    {new : FPrivSeg} (hlen : segs'.length = segs.length + 1)
    (hnew : segs'[segs.length]? = some new)
    (hold : ∀ (i : Nat) (s : FPrivSeg), segs[i]? = some s →
      ∃ s' : FPrivSeg, segs'[i]? = some s' ∧ link s' = link s ∧ key s' = key s)
    (hfull : segs.length < UINT_MAX) {u head : Nat} {L : List Nat}
    (hL : linkList link segs segs.length head = Except.ok L) (hnd : L.Nodup)
    (hmem : ∀ t, t ∈ L ↔ ∃ s : FPrivSeg, segs[t]? = some s ∧ key s = u) :
    (key new = u → link new = head →
      linkList link segs' segs'.length segs.length = Except.ok (segs.length :: L) ∧
      (segs.length :: L).Nodup ∧
      ∀ t, t ∈ segs.length :: L ↔ ∃ s : FPrivSeg, segs'[t]? = some s ∧ key s = u) ∧
    (key new ≠ u →
      linkList link segs' segs'.length head = Except.ok L ∧
      ∀ t, t ∈ L ↔ ∃ s : FPrivSeg, segs'[t]? = some s ∧ key s = u) := by
  have hcongr : linkList link segs' segs.length head = Except.ok L :=
    linkList_congr link (fun i s hs => by
      obtain ⟨s', hs', hl, -⟩ := hold i s hs
      exact ⟨s', hs', hl⟩) _ _ _ hL
  have hlt : ∀ t ∈ L, t < segs.length := fun t ht => (linkList_mem_lt _ _ _ hL t ht).1
  have hnotin : segs.length ∉ L := fun h => Nat.lt_irrefl _ (hlt _ h)
  have hback : ∀ (t : Nat) (s' : FPrivSeg), segs'[t]? = some s' → t ≠ segs.length →
      ∃ s : FPrivSeg, segs[t]? = some s ∧ key s' = key s := by
    intro t s' hs' hne
    have h1 : t < segs'.length := getElem?_lt_length hs'
    have h2 : t < segs.length := by omega
    obtain ⟨s'', hs'', -, hk⟩ := hold t _ (List.getElem?_eq_getElem h2)
    rw [hs'] at hs''
    cases hs''
    exact ⟨_, List.getElem?_eq_getElem h2, hk⟩
  constructor
  · intro hk hl
    refine ⟨?_, List.nodup_cons.2 ⟨hnotin, hnd⟩, ?_⟩
    · rw [hlen]
      exact linkList_step link (Nat.ne_of_lt hfull) hnew (by rw [hl]; exact hcongr)
    · intro t
      constructor
      · intro ht
        rcases List.mem_cons.1 ht with rfl | ht
        · exact ⟨new, hnew, hk⟩
        · obtain ⟨s, hs, hks⟩ := (hmem t).1 ht
          obtain ⟨s', hs', -, hk'⟩ := hold t s hs
          exact ⟨s', hs', by rw [hk', hks]⟩
      · rintro ⟨s', hs', hk'⟩
        by_cases hne : t = segs.length
        · rw [hne]
          exact List.mem_cons_self _ _
        · obtain ⟨s, hs, hks⟩ := hback t s' hs' hne
          exact List.mem_cons_of_mem _ ((hmem t).2 ⟨s, hs, by rw [← hks, hk']⟩)
  · intro hk
    refine ⟨?_, ?_⟩
    · rw [hlen]
      exact linkList_fuel_succ link segs' _ _ _ hcongr
    · intro t
      constructor
      · intro ht
        obtain ⟨s, hs, hks⟩ := (hmem t).1 ht
        obtain ⟨s', hs', -, hk'⟩ := hold t s hs
        exact ⟨s', hs', by rw [hk', hks]⟩
      · rintro ⟨s', hs', hk'⟩
        by_cases hne : t = segs.length
        · subst hne
          rw [hnew] at hs'
          cases hs'
          exact absurd hk' hk
        · obtain ⟨s, hs, hks⟩ := hback t s' hs' hne
          exact (hmem t).2 ⟨s, hs, by rw [← hks, hk']⟩
/-- The old segs keep their links and end points through `AddMiniseg`. -/
theorem AddMiniseg_old_links {st st' : FNodeBuilder} {v1 v2 partner seg1 splitseg n : Nat}
    (h : AddMiniseg st v1 v2 partner seg1 splitseg = Except.ok (n, st'))
    {i : Nat} {s : FPrivSeg} (hs : st.Segs[i]? = some s) :
    ∃ s' : FPrivSeg, st'.Segs[i]? = some s' ∧ s'.nextforvert = s.nextforvert ∧
      s'.nextforvert2 = s.nextforvert2 ∧ s'.v1 = s.v1 ∧ s'.v2 = s.v2 := by
  refine ⟨_, AddMiniseg_old h hs, ?_, ?_, ?_, ?_⟩ <;> split <;> rfl

/-- What `AddMiniseg` does to the two lists of a vertex. -/
theorem AddMiniseg_lists {st st' : FNodeBuilder} {v1 v2 partner seg1 splitseg n : Nat}
    (h : AddMiniseg st v1 v2 partner seg1 splitseg = Except.ok (n, st'))
    (hfull : st.Segs.length < UINT_MAX) {u : Nat} {v : FPrivVert} {L L2 : List Nat}
    (hv : st.Vertices[u]? = some v)
    (hL : linkList FPrivSeg.nextforvert st.Segs st.Segs.length v.segs = Except.ok L)
    (hnd : L.Nodup) (hmem : ∀ t, t ∈ L ↔ ∃ s : FPrivSeg, st.Segs[t]? = some s ∧ s.v1 = u)
    (hL2 : linkList FPrivSeg.nextforvert2 st.Segs st.Segs.length v.segs2 = Except.ok L2)
    (hnd2 : L2.Nodup)
    (hmem2 : ∀ t, t ∈ L2 ↔ ∃ s : FPrivSeg, st.Segs[t]? = some s ∧ s.v2 = u) :
    ∃ v' : FPrivVert, st'.Vertices[u]? = some v' ∧
      (linkList FPrivSeg.nextforvert st'.Segs st'.Segs.length v'.segs =
          Except.ok (if u = v1 then n :: L else L) ∧
        (if u = v1 then n :: L else L).Nodup ∧
        (∀ t, t ∈ (if u = v1 then n :: L else L) ↔
          ∃ s : FPrivSeg, st'.Segs[t]? = some s ∧ s.v1 = u) ∧
        (u ≠ v1 → v'.segs = v.segs)) ∧
      (linkList FPrivSeg.nextforvert2 st'.Segs st'.Segs.length v'.segs2 =
          Except.ok (if u = v2 then n :: L2 else L2) ∧
        (if u = v2 then n :: L2 else L2).Nodup ∧
        (∀ t, t ∈ (if u = v2 then n :: L2 else L2) ↔
          ∃ s : FPrivSeg, st'.Segs[t]? = some s ∧ s.v2 = u) ∧
        (u ≠ v2 → v'.segs2 = v.segs2)) := by
  obtain ⟨seg, vert1, vert2, planenum, hseg, hv1, hv2, -, -, hn, hnew⟩ := AddMiniseg_new h
  have hlen := AddMiniseg_length h
  subst hn
  refine ⟨_, AddMiniseg_vertices h hv, ⟨?_, ?_⟩⟩
  · have hpush := linkList_push FPrivSeg.nextforvert FPrivSeg.v1 hlen hnew
      (fun i s hs => by
        obtain ⟨s', hs', h1, -, h3, -⟩ := AddMiniseg_old_links h hs
        exact ⟨s', hs', h1, h3⟩) hfull hL hnd hmem
    by_cases hu : u = v1
    · subst hu
      rw [hv] at hv1
      cases hv1
      obtain ⟨p1, p2, p3⟩ := hpush.1 rfl rfl
      simp only [if_true]
      exact ⟨p1, p2, p3, fun hne => absurd rfl hne⟩
    · obtain ⟨p1, p3⟩ := hpush.2 (fun e => hu e.symm)
      simp only [if_neg hu]
      exact ⟨p1, hnd, p3, fun _ => trivial⟩
  · have hpush := linkList_push FPrivSeg.nextforvert2 FPrivSeg.v2 hlen hnew
      (fun i s hs => by
        obtain ⟨s', hs', -, h2, -, h4⟩ := AddMiniseg_old_links h hs
        exact ⟨s', hs', h2, h4⟩) hfull hL2 hnd2 hmem2
    by_cases hu : u = v2
    · subst hu
      rw [hv] at hv2
      cases hv2
      obtain ⟨p1, p2, p3⟩ := hpush.1 rfl rfl
      simp only [if_true]
      exact ⟨p1, p2, p3, fun hne => absurd rfl hne⟩
    · obtain ⟨p1, p3⟩ := hpush.2 (fun e => hu e.symm)
      simp only [if_neg hu]
      exact ⟨p1, hnd2, p3, fun _ => trivial⟩

/-- C18: `AddMiniseg` keeps vertex-list consistency.  When before the call
the lists of every vertex end and hold, each once, exactly the segs that start
(resp. end) at the vertex, and the arena has not used up the 32 bit index
space, the same holds after the call for every seg, the new one included;
the list of starting segs of every vertex other than `v1` and the list of
ending segs of every vertex other than `v2` are as before, and the new seg is
put in front of the list of starting segs of `v1` and of the list of ending
segs of `v2`. -/
theorem AddMiniseg_keeps_vertex_lists (st st' : FNodeBuilder)
    (v1 v2 partner seg1 splitseg n : Nat)
    (h : AddMiniseg st v1 v2 partner seg1 splitseg = Except.ok (n, st'))
    (hfull : st.Segs.length < UINT_MAX) (hc : VertexListsConsistent st) :
    VertexListsConsistent st' ∧
    (∀ (u : Nat) (v : FPrivVert) (L : List Nat), st.Vertices[u]? = some v →
      linkList FPrivSeg.nextforvert st.Segs st.Segs.length v.segs = Except.ok L →
      ∃ v' : FPrivVert, st'.Vertices[u]? = some v' ∧
        linkList FPrivSeg.nextforvert st'.Segs st'.Segs.length v'.segs =
          Except.ok (if u = v1 then n :: L else L) ∧
        (u ≠ v1 → v'.segs = v.segs)) ∧
    (∀ (u : Nat) (v : FPrivVert) (L2 : List Nat), st.Vertices[u]? = some v →
      linkList FPrivSeg.nextforvert2 st.Segs st.Segs.length v.segs2 = Except.ok L2 →
      ∃ v' : FPrivVert, st'.Vertices[u]? = some v' ∧
        linkList FPrivSeg.nextforvert2 st'.Segs st'.Segs.length v'.segs2 =
          Except.ok (if u = v2 then n :: L2 else L2) ∧
        (u ≠ v2 → v'.segs2 = v.segs2)) := by
  obtain ⟨hends, hlists⟩ := hc
  have hvl := AddMiniseg_vertices_length h
  have hlen := AddMiniseg_length h
  refine ⟨⟨?_, ?_⟩, ?_, ?_⟩
  · intro t s' hs'
    rw [hvl]
    by_cases ht : t = st.Segs.length
    · subst ht
      obtain ⟨seg, vert1, vert2, planenum, -, hv1, hv2, -, -, -, hnew⟩ := AddMiniseg_new h
      rw [hnew] at hs'
      cases hs'
      exact ⟨getElem?_lt_length hv1, getElem?_lt_length hv2⟩
    · have h1 : t < st'.Segs.length := getElem?_lt_length hs'
      have h2 : t < st.Segs.length := by omega
      obtain ⟨s'', hs'', -, -, e1, e2⟩ :=
        AddMiniseg_old_links h (List.getElem?_eq_getElem h2)
      rw [hs'] at hs''
      cases hs''
      rw [e1, e2]
      exact hends t _ (List.getElem?_eq_getElem h2)
  · intro u v' hv'
    have hu : u < st.Vertices.length := by
      rw [← hvl]
      exact getElem?_lt_length hv'
    obtain ⟨⟨L, hL, hnd, hmem⟩, ⟨L2, hL2, hnd2, hmem2⟩⟩ :=
      hlists u _ (List.getElem?_eq_getElem hu)
    obtain ⟨v'', hv'', ⟨a1, a2, a3, -⟩, ⟨b1, b2, b3, -⟩⟩ :=
      AddMiniseg_lists h hfull (List.getElem?_eq_getElem hu) hL hnd hmem hL2 hnd2 hmem2
    rw [hv'] at hv''
    cases hv''
    exact ⟨⟨_, a1, a2, a3⟩, ⟨_, b1, b2, b3⟩⟩
  · intro u v L hv hL
    obtain ⟨⟨L', hL', hnd, hmem⟩, ⟨L2, hL2, hnd2, hmem2⟩⟩ := hlists u v hv
    rw [hL] at hL'
    cases hL'
    obtain ⟨v', hv', ⟨a1, -, -, a4⟩, -⟩ :=
      AddMiniseg_lists h hfull hv hL hnd hmem hL2 hnd2 hmem2
    exact ⟨v', hv', a1, a4⟩
  · intro u v L2 hv hL2
    obtain ⟨⟨L, hL, hnd, hmem⟩, ⟨L2', hL2', hnd2, hmem2⟩⟩ := hlists u v hv
    rw [hL2] at hL2'
    cases hL2'
    obtain ⟨v', hv', -, ⟨b1, -, -, b4⟩⟩ :=
      AddMiniseg_lists h hfull hv hL hnd hmem hL2 hnd2 hmem2
    exact ⟨v', hv', b1, b4⟩
/-- The square is consistent: vertex `i` starts seg `i` and ends seg
`i - 1`. -/
theorem squareState_consistent : VertexListsConsistent squareState := by
  have hseg : ∀ (t : Nat) (s : FPrivSeg), squareState.Segs[t]? = some s →
      t < 6 ∧ s.v1 = t ∧ s.v2 = (t + 1) % 6 := by
    intro t s hs
    have ht : t < 6 := getElem?_lt_length hs
    refine ⟨ht, ?_⟩
    interval_cases t <;> cases hs <;> exact ⟨rfl, rfl⟩
  refine ⟨?_, ?_⟩
  · intro t s hs
    obtain ⟨ht, e1, e2⟩ := hseg t s hs
    rw [e1, e2]
    show t < 6 ∧ (t + 1) % 6 < 6
    omega
  · intro u v hv
    have hu : u < 6 := getElem?_lt_length hv
    have hstart : ∀ t, t ∈ [u] ↔ ∃ s : FPrivSeg, squareState.Segs[t]? = some s ∧ s.v1 = u := by
      intro t
      rw [List.mem_singleton]
      constructor
      · intro e
        subst e
        have ht : t < squareState.Segs.length := hu
        exact ⟨_, List.getElem?_eq_getElem ht, (hseg t _ (List.getElem?_eq_getElem ht)).2.1⟩
      · rintro ⟨s, hs, e⟩
        rw [← e, (hseg t s hs).2.1]
    have hend : ∀ t, t ∈ [(u + 5) % 6] ↔
        ∃ s : FPrivSeg, squareState.Segs[t]? = some s ∧ s.v2 = u := by
      intro t
      rw [List.mem_singleton]
      constructor
      · intro e
        have ht : t < squareState.Segs.length := by
          show t < 6
          omega
        refine ⟨_, List.getElem?_eq_getElem ht, ?_⟩
        rw [(hseg t _ (List.getElem?_eq_getElem ht)).2.2]
        omega
      · rintro ⟨s, hs, e⟩
        obtain ⟨ht, -, e2⟩ := hseg t s hs
        omega
    refine ⟨⟨[u], ?_, List.nodup_singleton _, hstart⟩,
      ⟨[(u + 5) % 6], ?_, List.nodup_singleton _, hend⟩⟩
    · interval_cases u <;> cases hv <;> rfl
    · interval_cases u <;> cases hv <;> rfl

/-- Witness of C18 on the square: the first miniseg `1 -> 4` is put in front
of the two lists. -/
theorem AddMiniseg_keeps_vertex_lists_witness :
    (AddMiniseg squareState 1 4 UINT_MAX 0 UINT_MAX = Except.ok (6, squareFront) ∧
      squareState.Segs.length < UINT_MAX ∧ VertexListsConsistent squareState) ∧
    VertexListsConsistent squareFront :=
  ⟨⟨squareAddMiniseg, by decide, squareState_consistent⟩,
    (AddMiniseg_keeps_vertex_lists squareState squareFront 1 4 UINT_MAX 0 UINT_MAX 6
      squareAddMiniseg (by decide) squareState_consistent).1⟩

/-- `AddIntersection` leaves the state as it is when an event is recorded at
the distance of the vertex. -/
theorem AddIntersection_found {st : FNodeBuilder} {node : NodeFxp} {w : Nat} {vw : FPrivVert}
    {e : FEvent} (hw : st.Vertices[w]? = some vw) (he : e ∈ st.Events)
    (hd : e.Distance = splitterDistance node vw) :
    AddIntersection st node w = Except.ok (splitterDistance node vw, st) := by
  unfold AddIntersection
  rw [rd_eq_ok.2 hw, ok_bind]
  cases hf : FindEvent st.Events (splitterDistance node vw) with
  | some i =>
    simp only [hf]
    rfl
  | none => exact absurd hd (FindEvent_eq_none.1 hf e he)

/-- C19: when `AddIntersection` is called for a vertex `w` whose distance is
that of a recorded event `e` carrying another vertex `u`, it returns the
distance of `w` and the state as it was: the event set is the same, so `e` is
still there and still carries `u`.  And no event carries `w` afterwards, when
the recorded events have different distances and each has the distance of the
vertex it carries. -/
theorem AddIntersection_collision (st : FNodeBuilder) (node : NodeFxp) (w u : Nat)
    (vw : FPrivVert) (e : FEvent)
    (hw : st.Vertices[w]? = some vw) (he : e ∈ st.Events)
    (hd : e.Distance = splitterDistance node vw) (hu : e.Info.Vertex = u) (hne : u ≠ w) :
    AddIntersection st node w = Except.ok (splitterDistance node vw, st) ∧
    (∀ (d : Int) (st1 : FNodeBuilder), AddIntersection st node w = Except.ok (d, st1) →
      d = splitterDistance node vw ∧ st1.Events = st.Events ∧ e ∈ st1.Events ∧
      e.Info.Vertex = u ∧
      ((st.Events.map FEvent.Distance).Nodup →
        (∀ e' ∈ st.Events, ∀ v' : FPrivVert, st.Vertices[e'.Info.Vertex]? = some v' →
          e'.Distance = splitterDistance node v') →
        ∀ e' ∈ st1.Events, e'.Info.Vertex ≠ w)) := by
  have hA := AddIntersection_found hw he hd
  refine ⟨hA, ?_⟩
  intro d st1 h
  rw [hA] at h
  cases h
  refine ⟨rfl, rfl, he, hu, ?_⟩
  intro hnd hrec e' he' hcw
  have hd' : e'.Distance = splitterDistance node vw := hrec e' he' vw (by rw [hcw]; exact hw)
  have hee : e' = e := List.inj_on_of_nodup_map hnd he' he (by rw [hd', hd])
  rw [hee, hu] at hcw
  exact hne hcw

/-- Witness of C19: the vertex at `(2, 5)` has the distance 2 of the event of
the vertex at `(2, 0)`. -/
theorem AddIntersection_collision_witness :
    (collisionState.Vertices[1]? = some ⟨2, 5, UINT_MAX, UINT_MAX⟩ ∧
      (⟨2, ⟨0, UINT_MAX⟩⟩ : FEvent) ∈ collisionState.Events ∧
      (2 : Int) = splitterDistance ⟨0, 0, 1, 0⟩ ⟨2, 5, UINT_MAX, UINT_MAX⟩ ∧ (0 : Nat) ≠ 1) ∧
    AddIntersection collisionState ⟨0, 0, 1, 0⟩ 1 = Except.ok (2, collisionState) :=
  ⟨⟨rfl, List.mem_singleton.2 rfl, by decide, by decide⟩,
    (AddIntersection_collision collisionState ⟨0, 0, 1, 0⟩ 1 0 ⟨2, 5, UINT_MAX, UINT_MAX⟩
      ⟨2, ⟨0, UINT_MAX⟩⟩ rfl (List.mem_singleton.2 rfl) (by decide) rfl (by decide)).1⟩

/-- On a list whose segs all start at the query vertex, and with a side
function that puts the vertex on the splitter through itself, the first loop
of `CheckLoopEnd` is the loop that leaves out by the angle alone. -/
theorem endScan_eq_byAngle (G : Geometry) (st : FNodeBuilder) (vertex : Nat) (v : FPrivVert)
    (dx dy : Int) (sa : Nat) (hv : st.Vertices[vertex]? = some v)
    (hside : G.PointOnSide v.x v.y v.x v.y dx dy = 0) :
    ∀ (fuel segnum : Nat) (L : List Nat) (bestang bestseg : Nat),
      linkList FPrivSeg.nextforvert st.Segs fuel segnum = Except.ok L →
      (∀ t ∈ L, ∀ seg : FPrivSeg, st.Segs[t]? = some seg → seg.v1 = vertex) →
      endScan G st v dx dy sa fuel segnum bestang bestseg =
        endScanByAngle G st v sa fuel segnum bestang bestseg := by
  intro fuel
  induction fuel with
  | zero =>
    intro segnum L bestang bestseg _ _
    rfl
  | succ fuel ih =>
    intro segnum L bestang bestseg hL hall
    unfold linkList at hL
    unfold endScan endScanByAngle
    by_cases hu : segnum = UINT_MAX
    · rw [if_pos hu, if_pos hu]
    · rw [if_neg hu] at hL
      rw [if_neg hu, if_neg hu]
      simp only [bind_eq_ok, rd_eq_ok, pure_eq_ok] at hL
      obtain ⟨seg, hseg, rest, hrest, hL⟩ := hL
      subst hL
      have hv1 : seg.v1 = vertex := hall segnum (List.mem_cons_self _ _) seg hseg
      have hall' : ∀ t ∈ rest, ∀ seg : FPrivSeg, st.Segs[t]? = some seg → seg.v1 = vertex :=
        fun t ht => hall t (List.mem_cons_of_mem _ ht)
      rw [rd_eq_ok.2 hseg, ok_bind, ok_bind]
      congr 1
      funext far
      simp only []
      by_cases hlt : endDiff G sa v far < G.ANGLE_EPSILON
      · rw [if_pos hlt, if_pos hlt, hv1, rd_eq_ok.2 hv, ok_bind]
        show (Except.ok (decide (G.PointOnSide v.x v.y v.x v.y dx dy = 0)) >>= _) = _
        rw [ok_bind, decide_eq_true hside, if_pos rfl]
        exact ih _ _ _ _ hrest hall'
      · rw [if_neg hlt, if_neg hlt]
        show (Except.ok false >>= _) = _
        rw [ok_bind, if_neg (by decide)]
        by_cases hle : endDiff G sa v far ≤ bestang
        · rw [if_pos hle, if_pos hle]
          exact ih _ _ _ _ hrest hall'
        · rw [if_neg hle, if_neg hle]
          exact ih _ _ _ _ hrest hall'
/-- C20: in `CheckLoopEnd` the on-splitter test is made on the seg's `v1`,
which in a consistent arena is the query vertex for every seg of its list of
starting segs.  So, given that `PointOnSide` puts the vertex on the splitter
through itself, a seg of that list is left out exactly when its difference is
below `ANGLE_EPSILON`, wherever its `v2` lies: the first loop is the loop
`endScanByAngle`, which computes no side.  Unlike `CheckLoopStart`, where the
test is made on the far end point: with the same difference 0, the seg from
`(4, 0)` is left out and the seg from `(4, 1)` is returned, while
`CheckLoopEnd` leaves out both the seg to `(4, 0)` and the seg to `(4, 1)`. -/
theorem CheckLoopEnd_excludes_by_angle (G : Geometry) (st : FNodeBuilder) (vertex : Nat)
    (v : FPrivVert) (dx dy : Int)
    (hc : VertexListsConsistent st) (hv : st.Vertices[vertex]? = some v)
    (hside : G.PointOnSide v.x v.y v.x v.y dx dy = 0) :
    (∃ L, linkList FPrivSeg.nextforvert st.Segs st.Segs.length v.segs = Except.ok L ∧
      ∀ t ∈ L, ∀ (seg : FPrivSeg) (far : FPrivVert), st.Segs[t]? = some seg →
        st.Vertices[seg.v2]? = some far →
        seg.v1 = vertex ∧
        (endExcluded G st v dx dy (addU32 (pointToAngle G dx dy) ANGLE_180) seg far ↔
          endDiff G (addU32 (pointToAngle G dx dy) ANGLE_180) v far < G.ANGLE_EPSILON)) ∧
    (∀ bestang bestseg : Nat,
      endScan G st v dx dy (addU32 (pointToAngle G dx dy) ANGLE_180) st.Segs.length v.segs
          bestang bestseg =
        endScanByAngle G st v (addU32 (pointToAngle G dx dy) ANGLE_180) st.Segs.length v.segs
          bestang bestseg) ∧
    (startDiff roundedGeometry (pointToAngle roundedGeometry 1 0) ⟨0, 0, UINT_MAX, 0⟩
        ⟨4, 0, 0, UINT_MAX⟩ = 0 ∧
      startDiff roundedGeometry (pointToAngle roundedGeometry 1 0) ⟨0, 0, UINT_MAX, 0⟩
        ⟨4, 1, 0, UINT_MAX⟩ = 0 ∧
      CheckLoopStart roundedGeometry (spokeState 0 true) 1 0 0 1 = Except.ok UINT_MAX ∧
      CheckLoopStart roundedGeometry (spokeState 1 true) 1 0 0 1 = Except.ok 0 ∧
      CheckLoopEnd roundedGeometry (spokeState 0 false) (-1) 0 0 = Except.ok UINT_MAX ∧
      CheckLoopEnd roundedGeometry (spokeState 1 false) (-1) 0 0 = Except.ok UINT_MAX) := by
  obtain ⟨⟨L, hL, -, hmem⟩, -⟩ := hc.2 vertex v hv
  have hstart : ∀ t ∈ L, ∀ seg : FPrivSeg, st.Segs[t]? = some seg → seg.v1 = vertex := by
    intro t ht seg hseg
    obtain ⟨s, hs, e⟩ := (hmem t).1 ht
    rw [hseg] at hs
    cases hs
    exact e
  refine ⟨⟨L, hL, ?_⟩, ?_, ?_⟩
  · intro t ht seg far hseg _
    have hv1 := hstart t ht seg hseg
    refine ⟨hv1, ?_⟩
    unfold endExcluded
    constructor
    · exact fun h => h.1
    · exact fun h => ⟨h, v, by rw [hv1]; exact hv, hside⟩
  · intro bestang bestseg
    exact endScan_eq_byAngle G st vertex v dx dy _ hv hside _ _ L _ _ hL hstart
  · exact ⟨by decide, by decide, rfl, rfl, rfl, rfl⟩

/-- Witness of C20 on the square, at the right event. -/
theorem CheckLoopEnd_excludes_by_angle_witness :
    (VertexListsConsistent squareState ∧ squareState.Vertices[4]? = some ⟨4, 2, 4, 3⟩ ∧
      exampleGeometry.PointOnSide 4 2 4 2 1 0 = 0) ∧
    endScan exampleGeometry squareState ⟨4, 2, 4, 3⟩ 1 0
        (addU32 (pointToAngle exampleGeometry 1 0) ANGLE_180) squareState.Segs.length 4
        ANGLE_MAX UINT_MAX =
      endScanByAngle exampleGeometry squareState ⟨4, 2, 4, 3⟩
        (addU32 (pointToAngle exampleGeometry 1 0) ANGLE_180) squareState.Segs.length 4
        ANGLE_MAX UINT_MAX :=
  ⟨⟨squareState_consistent, rfl, rfl⟩,
    (CheckLoopEnd_excludes_by_angle exampleGeometry squareState 4 ⟨4, 2, 4, 3⟩ 1 0
      squareState_consistent rfl rfl).2.1 ANGLE_MAX UINT_MAX⟩

end ZNBX
